import Mathlib

/-!
# MCGPU Monte Carlo step engine (`src/Metropolis/SimulationStep.cpp`)

A shallow embedding of the `SimCalcs` namespace and of
`SimulationStep::calcSystemEnergy`.  `Real` is modelled by an
arbitrary linearly ordered field `α` (exact arithmetic); arrays are total maps
from indices; the functions of `<cmath>` are passed in as a record, so every
definition is executable at `α = ℚ` and specialises to `ℝ` with the usual
real functions.
-/

namespace MCGPU

/-- The functions of `<cmath>` called by the engine (`sqrt`, `cos`, `sin`, `exp`). -/
structure CMath (α : Type) where
  sqrt : α → α
  cos : α → α
  sin : α → α
  exp : α → α

/-- Index of the x row of a coordinate table (`aCoords[0]` in `intermolecularMove`). -/
def X_COORD : Nat := 0
/-- Index of the y row of a coordinate table. -/
def Y_COORD : Nat := 1
/-- Index of the z row of a coordinate table. -/
def Z_COORD : Nat := 2
/-- Number of spatial dimensions. -/
def NUM_DIMENSIONS : Nat := 3

section Kernel

variable {α : Type} [LinearOrderedField α]

/-- `SimCalcs::makePeriodic`. -/
def makePeriodic (x : α) (dimension : Nat) (bSize : Nat → α) : α :=
  let dimLength := bSize dimension
  let lt : α := if x < -0.5 * dimLength then 1 else 0
  let x := x + lt * dimLength
  let gt : α := if x > 0.5 * dimLength then 1 else 0
  x - gt * dimLength

/-- The piecewise definition of `makePeriodic` given in the specification (4.1). -/
def makePeriodicSpec (x : α) (d : Nat) (L : Nat → α) : α :=
  if x < -(L d) / 2 then x + L d else if x > L d / 2 then x - L d else x

/-- `SimCalcs::calcBlending`. -/
def calcBlending (M : CMath α) (a b : α) : α :=
  if a * b ≥ 0 then M.sqrt (a * b) else M.sqrt (-1 * a * b)

/-- `SimCalcs::calcLJEnergy`; `sigma` and `epsilon` are the rows `aData[ATOM_SIGMA]`
and `aData[ATOM_EPSILON]`. -/
def calcLJEnergy (M : CMath α) (a1 a2 : Nat) (r2 : α) (ATOM_SIGMA ATOM_EPSILON : Nat → α) : α :=
  if r2 = 0.0 then 0.0
  else
    let sigma := calcBlending M (ATOM_SIGMA a1) (ATOM_SIGMA a2)
    let epsilon := calcBlending M (ATOM_EPSILON a1) (ATOM_EPSILON a2)
    let s2r2 := sigma ^ 2 / r2
    let s6r6 := s2r2 ^ 3
    let s12r12 := s6r6 ^ 2
    4.0 * epsilon * (s12r12 - s6r6)

/-- `SimCalcs::calcChargeEnergy`; `ATOM_CHARGE` is the row `aData[ATOM_CHARGE]`. -/
def calcChargeEnergy (a1 a2 : Nat) (r : α) (ATOM_CHARGE : Nat → α) : α :=
  if r = 0.0 then 0.0
  else
    let e : α := 332.06
    (ATOM_CHARGE a1 * ATOM_CHARGE a2 * e) / r

/-- `SimCalcs::acceptMove`; `u` is the value returned by `randomReal(0.0, 1.0)`. -/
def acceptMove (M : CMath α) (kT : α) (oldEnergy newEnergy : α) (u : α) : Bool :=
  if newEnergy < oldEnergy then true
  else decide (M.exp (-(newEnergy - oldEnergy) / kT) ≥ u)

end Kernel

/-! ## Loops and array writes -/

/-- A counted loop `for (k = 0; k < n; k++) s = body(k, s)`. -/
def forLoop {σ : Type} : Nat → (Nat → σ → σ) → σ → σ
  | 0, _, s => s
  | n + 1, body, s => body n (forLoop n body s)

/-- A counted loop whose body may fail to return. -/
def forLoopM {σ : Type} : Nat → (Nat → σ → Option σ) → σ → Option σ
  | 0, _, s => some s
  | n + 1, body, s => (forLoopM n body s).bind (body n)

/-- The write `c[d][a] = v` into a two-dimensional table. -/
def setCoord {α : Type} (c : Nat → Nat → α) (d a : Nat) (v : α) : Nat → Nat → α :=
  Function.update c d (Function.update (c d) a v)

/-! ## The simulation box -/

/-- The part of `SimBox` read or written by `SimCalcs`.  Two-dimensional tables
with a fixed set of named rows (`moleculeData`, `atomData`, `bondData`,
`angleData`) are given one field per row, with the C casts `(int)` and `(bool)`
of the index and flag rows already applied. -/
structure SimBox (α : Type) where
  size : Nat → α
  kT : α
  stepNum : Nat
  numBondMoves : Nat
  numAcceptedBondMoves : Nat
  numAngleMoves : Nat
  numAcceptedAngleMoves : Nat
  maxTranslate : α
  maxRotate : α
  maxBondDelta : α
  maxAngleDelta : α
  maxIntraMoves : Nat
  atomCoordinates : Nat → Nat → α
  rollBackCoordinates : Nat → Nat → α
  ATOM_SIGMA : Nat → α
  ATOM_EPSILON : Nat → α
  ATOM_CHARGE : Nat → α
  MOL_START : Nat → Nat
  MOL_LEN : Nat → Nat
  MOL_TYPE : Nat → Nat
  MOL_BOND_START : Nat → Nat
  MOL_BOND_COUNT : Nat → Nat
  MOL_ANGLE_START : Nat → Nat
  MOL_ANGLE_COUNT : Nat → Nat
  MOL_PIDX_START : Nat → Nat
  primaryIndexes : Nat → Nat
  BOND_A1_IDX : Nat → Nat
  BOND_A2_IDX : Nat → Nat
  BOND_EQDIST : Nat → α
  BOND_KBOND : Nat → α
  BOND_VARIABLE : Nat → Bool
  bondLengths : Nat → α
  rollBackBondLengths : Nat → α
  ANGLE_A1_IDX : Nat → Nat
  ANGLE_MID_IDX : Nat → Nat
  ANGLE_A2_IDX : Nat → Nat
  ANGLE_EQANGLE : Nat → α
  ANGLE_KANGLE : Nat → α
  ANGLE_VARIABLE : Nat → Bool
  angleSizes : Nat → α
  rollBackAngleSizes : Nat → α
  excludeAtoms : Nat → Nat → List Int
  fudgeAtoms : Nat → Nat → List Int
  unionFindParent : Nat → Nat

/-- Values returned by the calls of `randomReal` in `intermolecularMove`;
`vertexIdx` is the value of `(int)randomReal(0, molLen)`. -/
structure MoveDraws (α : Type) where
  vertexIdx : Nat
  deltaX : α
  deltaY : α
  deltaZ : α
  rotX : α
  rotY : α
  rotZ : α

/-- Values returned by the calls of `randomReal` in one batch of
`intramolecularMove`: `numToMove` is `(int)randomReal(2, n)`, `indexes` the
successive values of `(int)randomReal(0, n)` in the selection loop, `dist k` the
value of `randomReal(-delta, delta)` for the `k`-th selected index, and `accept`
the value of `randomReal(0.0, 1.0)` in `acceptMove`. -/
structure BatchDraws (α : Type) where
  numToMove : Nat
  indexes : List Nat
  dist : Nat → α
  accept : α

section Geometry

variable {α : Type} [LinearOrderedField α]

/-- `SimCalcs::calcAtomDistSquared`. -/
def calcAtomDistSquared (a1 a2 : Nat) (aCoords : Nat → Nat → α) (bSize : Nat → α) : α :=
  let dx := makePeriodic (aCoords X_COORD a2 - aCoords X_COORD a1) X_COORD bSize
  let dy := makePeriodic (aCoords Y_COORD a2 - aCoords Y_COORD a1) Y_COORD bSize
  let dz := makePeriodic (aCoords Z_COORD a2 - aCoords Z_COORD a1) Z_COORD bSize
  dx * dx + dy * dy + dz * dz

/-- `SimCalcs::translateAtom`. -/
def translateAtom (aIdx : Nat) (dX dY dZ : α) (aCoords : Nat → Nat → α) : Nat → Nat → α :=
  let aCoords := setCoord aCoords X_COORD aIdx (aCoords X_COORD aIdx + dX)
  let aCoords := setCoord aCoords Y_COORD aIdx (aCoords Y_COORD aIdx + dY)
  setCoord aCoords Z_COORD aIdx (aCoords Z_COORD aIdx + dZ)

/-- `SimCalcs::rotateX`. -/
def rotateX (M : CMath α) (aIdx : Nat) (angleDeg : α) (aCoords : Nat → Nat → α) :
    Nat → Nat → α :=
  let angleRad := angleDeg * 3.14159265358979 / 180.0
  let oldY := aCoords Y_COORD aIdx
  let oldZ := aCoords Z_COORD aIdx
  let aCoords := setCoord aCoords Y_COORD aIdx (oldY * M.cos angleRad + oldZ * M.sin angleRad)
  setCoord aCoords Z_COORD aIdx (oldZ * M.cos angleRad - oldY * M.sin angleRad)

/-- `SimCalcs::rotateY`. -/
def rotateY (M : CMath α) (aIdx : Nat) (angleDeg : α) (aCoords : Nat → Nat → α) :
    Nat → Nat → α :=
  let angleRad := angleDeg * 3.14159265358979 / 180.0
  let oldZ := aCoords Z_COORD aIdx
  let oldX := aCoords X_COORD aIdx
  let aCoords := setCoord aCoords Z_COORD aIdx (oldZ * M.cos angleRad + oldX * M.sin angleRad)
  setCoord aCoords X_COORD aIdx (oldX * M.cos angleRad - oldZ * M.sin angleRad)

/-- `SimCalcs::rotateZ`. -/
def rotateZ (M : CMath α) (aIdx : Nat) (angleDeg : α) (aCoords : Nat → Nat → α) :
    Nat → Nat → α :=
  let angleRad := angleDeg * 3.14159265358979 / 180.0
  let oldX := aCoords X_COORD aIdx
  let oldY := aCoords Y_COORD aIdx
  let aCoords := setCoord aCoords X_COORD aIdx (oldX * M.cos angleRad + oldY * M.sin angleRad)
  setCoord aCoords Y_COORD aIdx (oldY * M.cos angleRad - oldX * M.sin angleRad)

/-- `SimCalcs::rotateAtom`. -/
def rotateAtom (M : CMath α) (aIdx pivotIdx : Nat) (rotX rotY rotZ : α)
    (aCoords : Nat → Nat → α) : Nat → Nat → α :=
  let pX := aCoords X_COORD pivotIdx
  let pY := aCoords Y_COORD pivotIdx
  let pZ := aCoords Z_COORD pivotIdx
  let aCoords := translateAtom aIdx (-pX) (-pY) (-pZ) aCoords
  let aCoords := rotateX M aIdx rotX aCoords
  let aCoords := rotateY M aIdx rotY aCoords
  let aCoords := rotateZ M aIdx rotZ aCoords
  translateAtom aIdx pX pY pZ aCoords

/-- `SimCalcs::keepMoleculeInBox`; the three rows of `molData` it reads are passed
as `MOL_START`, `MOL_LEN` and `MOL_PIDX_START`. -/
def keepMoleculeInBox (molIdx : Nat) (aCoords : Nat → Nat → α)
    (MOL_START MOL_LEN MOL_PIDX_START : Nat → Nat) (pIdxes : Nat → Nat) (bSize : Nat → α) :
    Nat → Nat → α :=
  let start := MOL_START molIdx
  let len := MOL_LEN molIdx
  let pIdx := pIdxes (MOL_PIDX_START molIdx)
  forLoop NUM_DIMENSIONS (fun i aCoords =>
    if aCoords i pIdx < 0 then
      forLoop len (fun k aCoords =>
        let j := start + k
        setCoord aCoords i j (aCoords i j + bSize i)) aCoords
    else if aCoords i pIdx > bSize i then
      forLoop len (fun k aCoords =>
        let j := start + k
        setCoord aCoords i j (aCoords i j - bSize i)) aCoords
    else aCoords) aCoords

end Geometry

section Energy

variable {α : Type} [LinearOrderedField α]

/-- `SimCalcs::angleEnergy` (diagnostic output omitted). -/
def angleEnergy (sb : SimBox α) (molIdx : Nat) : α :=
  let angleStart := sb.MOL_ANGLE_START molIdx
  forLoop (sb.MOL_ANGLE_COUNT molIdx) (fun k out =>
    let i := angleStart + k
    if sb.ANGLE_VARIABLE i then
      let diff := sb.ANGLE_EQANGLE i - sb.angleSizes i
      out + sb.ANGLE_KANGLE i * diff * diff
    else out) 0

/-- `SimCalcs::bondEnergy` (diagnostic output omitted). -/
def bondEnergy (sb : SimBox α) (molIdx : Nat) : α :=
  let bondStart := sb.MOL_BOND_START molIdx
  forLoop (sb.MOL_BOND_COUNT molIdx) (fun k out =>
    let i := bondStart + k
    if sb.BOND_VARIABLE i then
      let diff := sb.BOND_EQDIST i - sb.bondLengths i
      out + sb.BOND_KBOND i * diff * diff
    else out) 0

/-- The scan `for (k = 0; ; k++)` of a row of `excludeAtoms` or `fudgeAtoms` in
`calcIntraMolecularEnergy`: `true` when `target` is met before the `-1`
terminator.  A row is the list of its entries; its end stops the scan like a
terminator. -/
def scanRow : List Int → Int → Bool
  | [], _ => false
  | val :: rest, target =>
    if val = -1 then false
    else if val = target then true
    else scanRow rest target

/-- `SimCalcs::calcIntraMolecularEnergy` (diagnostic output omitted). -/
def calcIntraMolecularEnergy (M : CMath α) (sb : SimBox α) (molIdx : Nat) : α :=
  let molStart := sb.MOL_START molIdx
  let molEnd := molStart + sb.MOL_LEN molIdx
  let molType := sb.MOL_TYPE molIdx
  let aCoords := sb.atomCoordinates
  let out : α := 0.0
  let out := out + angleEnergy sb molIdx
  let out := out + bondEnergy sb molIdx
  forLoop (molEnd - molStart) (fun ki out =>
    let i := molStart + ki
    forLoop (molEnd - (i + 1)) (fun kj out =>
      let j := i + 1 + kj
      let fudgeFactor : α :=
        if scanRow (sb.excludeAtoms molType (i - molStart)) ((j - molStart : Nat) : Int)
        then 0.0 else 1.0
      let fudgeFactor : α :=
        if fudgeFactor > 0.0 then
          if scanRow (sb.fudgeAtoms molType (i - molStart)) ((j - molStart : Nat) : Int)
          then 0.5 else fudgeFactor
        else fudgeFactor
      if fudgeFactor > 0.0 then
        let r2 := calcAtomDistSquared i j aCoords sb.size
        let r := M.sqrt r2
        let energy := calcLJEnergy M i j r2 sb.ATOM_SIGMA sb.ATOM_EPSILON
        let energy := energy + calcChargeEnergy i j r sb.ATOM_CHARGE
        out + fudgeFactor * energy
      else out) out) out

end Energy

/-! ## Union-find over `unionFindParent` -/

/-- `SimCalcs::find` on the array `sb->unionFindParent`; returns the
representative and the array after path compression.  `fuel` bounds the depth
of the recursion. -/
def find : Nat → (Nat → Nat) → Nat → Option (Nat × (Nat → Nat))
  | 0, _, _ => none
  | fuel + 1, parent, atomIdx =>
    if parent atomIdx = atomIdx then some (atomIdx, parent)
    else
      match find fuel parent (parent atomIdx) with
      | none => none
      | some (r, parent) => some (r, Function.update parent atomIdx r)

/-- `SimCalcs::unionAtoms`. -/
def unionAtoms (fuel : Nat) (parent : Nat → Nat) (atom1 atom2 : Nat) : Option (Nat → Nat) :=
  match find fuel parent atom1 with
  | none => none
  | some (a1Parent, parent) =>
    match find fuel parent atom2 with
    | none => none
    | some (a2Parent, parent) =>
      if a1Parent ≠ a2Parent then some (Function.update parent a1Parent a2Parent)
      else some parent

section Moves

variable {α : Type} [LinearOrderedField α]

/-- `ENABLE_BOND`. -/
def ENABLE_BOND : Nat := 1
/-- `ENABLE_ANGLE`. -/
def ENABLE_ANGLE : Nat := 1
/-- `ENABLE_DIHEDRAL`. -/
def ENABLE_DIHEDRAL : Nat := 0
/-- `ENABLE_TUNING`. -/
def ENABLE_TUNING : Bool := true
/-- `RATIO_MARGIN`. -/
def RATIO_MARGIN : α := 0.0001
/-- `TARGET_RATIO`. -/
def TARGET_RATIO : α := 0.4

/-- `SimCalcs::stretchBond`.  Local atom indices `a - startIdx` are natural
numbers (bond end points lie in the molecule); `fuel` is passed to `find`. -/
def stretchBond (fuel : Nat) (M : CMath α) (sb : SimBox α) (molIdx bondIdx : Nat)
    (stretchDist : α) : Option (SimBox α) := do
  let bondStart := sb.MOL_BOND_START molIdx
  let bondEnd := bondStart + sb.MOL_BOND_COUNT molIdx
  let startIdx := sb.MOL_START molIdx
  let molSize := sb.MOL_LEN molIdx
  let end1 := sb.BOND_A1_IDX (bondStart + bondIdx)
  let end2 := sb.BOND_A2_IDX (bondStart + bondIdx)
  let aCoords := sb.atomCoordinates
  let parent := forLoop molSize (fun i parent => Function.update parent i i) sb.unionFindParent
  -- Split the molecule atoms into two disjoint sets around the bond
  let parent ← forLoopM (bondEnd - bondStart) (fun k parent =>
    let i := bondStart + k
    if i = bondIdx + bondStart then some parent
    else
      let a1 := sb.BOND_A1_IDX i - startIdx
      let a2 := sb.BOND_A2_IDX i - startIdx
      unionAtoms fuel parent a1 a2) parent
  let (side1, parent) ← find fuel parent (end1 - startIdx)
  let (side2, parent) ← find fuel parent (end2 - startIdx)
  if side1 = side2 then
    some { sb with unionFindParent := parent }
  else
    -- Move each atom the appropriate distance for the bond stretch
    let v : Nat → α := fun i => aCoords i end2 - aCoords i end1
    let denon : α := forLoop NUM_DIMENSIONS (fun i denon => denon + v i * v i) 0.0
    let denon := M.sqrt denon
    let v : Nat → α := fun i => v i / denon / 2.0
    let (parent, aCoords) ← forLoopM molSize (fun i (st : (Nat → Nat) × (Nat → Nat → α)) =>
      match find fuel st.1 i with
      | none => none
      | some (r, parent) =>
        if r = side2 then
          some (parent, forLoop NUM_DIMENSIONS (fun j aCoords =>
            setCoord aCoords j (i + startIdx) (aCoords j (i + startIdx) + v j * stretchDist)) st.2)
        else
          some (parent, forLoop NUM_DIMENSIONS (fun j aCoords =>
            setCoord aCoords j (i + startIdx) (aCoords j (i + startIdx) - v j * stretchDist)) st.2))
      (parent, aCoords)
    -- Record the actual bond stretch
    some { sb with
      unionFindParent := parent
      atomCoordinates := aCoords
      bondLengths := Function.update sb.bondLengths (bondStart + bondIdx)
        (sb.bondLengths (bondStart + bondIdx) + stretchDist) }

/-- The local constant `DEG2RAD` of `SimCalcs::expandAngle` (line 223). -/
def DEG2RAD : α := 3.14159256358979323846264 / 180.0

/-- The unit normal of the plane of an angle, lines 224-243 of
`SimCalcs::expandAngle`. -/
def angleNormal (M : CMath α) (aCoords : Nat → Nat → α) (end1 mid end2 : Nat) : Nat → α :=
  let end1Mid : Nat → α := fun i => aCoords i mid - aCoords i end1
  let end2Mid : Nat → α := fun i => aCoords i mid - aCoords i end2
  let normal0 := end1Mid 1 * end2Mid 2 - end2Mid 1 * end1Mid 2
  let normal1 := end2Mid 0 * end1Mid 2 - end1Mid 0 * end2Mid 2
  let normal2 := end1Mid 0 * end2Mid 1 - end2Mid 0 * end1Mid 1
  let normal : Nat → α := fun i => if i = 0 then normal0 else if i = 1 then normal1 else normal2
  let normLen : α := forLoop NUM_DIMENSIONS (fun i normLen => normLen + normal i * normal i) 0.0
  let normLen := M.sqrt normLen
  fun i => normal i / normLen

/-- The rotation of atom `i` by `theta` about the axis `normal` through the point
`mvector`, lines 259-272 of `SimCalcs::expandAngle`. -/
def rotateAboutNormal (M : CMath α) (normal mvector : Nat → α) (theta : α) (i : Nat)
    (aCoords : Nat → Nat → α) : Nat → Nat → α :=
  let point : Nat → α := fun j => aCoords j i - mvector j
  let dot : α := forLoop NUM_DIMENSIONS (fun j dot => dot + point j * normal j) 0.0
  let cross0 := normal 1 * point 2 - point 1 * normal 2
  let cross1 := point 0 * normal 2 - normal 0 * point 2
  let cross2 := normal 0 * point 1 - point 0 * normal 1
  let cross : Nat → α := fun j => if j = 0 then cross0 else if j = 1 then cross1 else cross2
  forLoop NUM_DIMENSIONS (fun j aCoords =>
    setCoord aCoords j i
      ((normal j * dot * (1 - M.cos theta) + point j * M.cos theta + cross j * M.sin theta) +
        mvector j)) aCoords

/-- `SimCalcs::expandAngle`, the computation of the normal and the rotation of one
atom being `angleNormal` and `rotateAboutNormal`.  Local atom indices
`a - startIdx` are natural numbers; `fuel` is passed to `find`. -/
def expandAngle (fuel : Nat) (M : CMath α) (sb : SimBox α) (molIdx angleIdx : Nat)
    (expandDeg : α) : Option (SimBox α) := do
  let bondStart := sb.MOL_BOND_START molIdx
  let bondEnd := bondStart + sb.MOL_BOND_COUNT molIdx
  let angleStart := sb.MOL_ANGLE_START molIdx
  let startIdx := sb.MOL_START molIdx
  let molSize := sb.MOL_LEN molIdx
  let end1 := sb.ANGLE_A1_IDX (angleStart + angleIdx)
  let end2 := sb.ANGLE_A2_IDX (angleStart + angleIdx)
  let mid := sb.ANGLE_MID_IDX (angleStart + angleIdx)
  let aCoords := sb.atomCoordinates
  -- Create a disjoint set of the atoms in the molecule
  let parent := forLoop molSize (fun i parent => Function.update parent i i) sb.unionFindParent
  -- Union atoms connected by a bond
  let parent ← forLoopM (bondEnd - bondStart) (fun k parent =>
    let i := bondStart + k
    let a1 := sb.BOND_A1_IDX i
    let a2 := sb.BOND_A2_IDX i
    if a1 = mid ∨ a2 = mid then some parent
    else unionAtoms fuel parent (a1 - startIdx) (a2 - startIdx)) parent
  let (group1, parent) ← find fuel parent (end1 - startIdx)
  let (group2, parent) ← find fuel parent (end2 - startIdx)
  if group1 = group2 then
    some { sb with unionFindParent := parent }
  else
    let mvector : Nat → α := fun i => aCoords i mid
    let normal := angleNormal M aCoords end1 mid end2
    let (parent, aCoords) ← forLoopM molSize (fun k (st : (Nat → Nat) × (Nat → Nat → α)) =>
      let i := startIdx + k
      match find fuel st.1 (i - startIdx) with
      | none => none
      | some (r, parent) =>
        if r = group1 then
          some (parent, rotateAboutNormal M normal mvector (expandDeg * -DEG2RAD) i st.2)
        else
          match find fuel parent (i - startIdx) with
          | none => none
          | some (r, parent) =>
            if r = group2 then
              some (parent, rotateAboutNormal M normal mvector (expandDeg * DEG2RAD) i st.2)
            else some (parent, st.2))
      (parent, aCoords)
    some { sb with
      unionFindParent := parent
      atomCoordinates := aCoords
      angleSizes := Function.update sb.angleSizes (angleStart + angleIdx)
        (sb.angleSizes (angleStart + angleIdx) + expandDeg) }

/-- `SimCalcs::intermolecularMove`; `d` holds the values drawn by `randomReal`. -/
def intermolecularMove (M : CMath α) (sb : SimBox α) (molIdx : Nat) (d : MoveDraws α) :
    SimBox α :=
  let molStart := sb.MOL_START molIdx
  let molLen := sb.MOL_LEN molIdx
  let vertexIdx := d.vertexIdx
  -- Do the move here
  let st := forLoop molLen (fun i (st : (Nat → Nat → α) × (Nat → Nat → α)) =>
    let rBCoords := forLoop NUM_DIMENSIONS (fun j rBCoords =>
      setCoord rBCoords j i (st.2 j (molStart + i))) st.1
    if i = vertexIdx then (rBCoords, st.2)
    else
      let aCoords := rotateAtom M (molStart + i) (molStart + vertexIdx) d.rotX d.rotY d.rotZ st.2
      let aCoords := translateAtom (molStart + i) d.deltaX d.deltaY d.deltaZ aCoords
      (rBCoords, aCoords)) (sb.rollBackCoordinates, sb.atomCoordinates)
  let aCoords := st.2
  let aCoords := setCoord aCoords 0 (molStart + vertexIdx) (aCoords 0 (molStart + vertexIdx) + d.deltaX)
  let aCoords := setCoord aCoords 1 (molStart + vertexIdx) (aCoords 1 (molStart + vertexIdx) + d.deltaY)
  let aCoords := setCoord aCoords 2 (molStart + vertexIdx) (aCoords 2 (molStart + vertexIdx) + d.deltaZ)
  let aCoords := keepMoleculeInBox molIdx aCoords sb.MOL_START sb.MOL_LEN sb.MOL_PIDX_START
    sb.primaryIndexes sb.size
  { sb with rollBackCoordinates := st.1, atomCoordinates := aCoords }

/-- `SimCalcs::saveBonds`. -/
def saveBonds (sb : SimBox α) (molIdx : Nat) : SimBox α :=
  let start := sb.MOL_BOND_START molIdx
  let count := sb.MOL_BOND_COUNT molIdx
  let out := forLoop count (fun i rbBondLengths =>
    Function.update rbBondLengths (i + start) (sb.bondLengths (i + start))) sb.rollBackBondLengths
  { sb with rollBackBondLengths := out }

/-- `SimCalcs::saveAngles`. -/
def saveAngles (sb : SimBox α) (molIdx : Nat) : SimBox α :=
  let start := sb.MOL_ANGLE_START molIdx
  let count := sb.MOL_ANGLE_COUNT molIdx
  let out := forLoop count (fun i rbAngleSizes =>
    Function.update rbAngleSizes (i + start) (sb.angleSizes (i + start))) sb.rollBackAngleSizes
  { sb with rollBackAngleSizes := out }

/-- `SimCalcs::rollbackBonds`. -/
def rollbackBonds (sb : SimBox α) (molIdx : Nat) : SimBox α :=
  let start := sb.MOL_BOND_START molIdx
  let count := sb.MOL_BOND_COUNT molIdx
  let out := forLoop count (fun i bondLengths =>
    Function.update bondLengths (i + start) (sb.rollBackBondLengths (i + start))) sb.bondLengths
  { sb with bondLengths := out }

/-- `SimCalcs::rollbackAngles`. -/
def rollbackAngles (sb : SimBox α) (molIdx : Nat) : SimBox α :=
  let start := sb.MOL_ANGLE_START molIdx
  let count := sb.MOL_ANGLE_COUNT molIdx
  let out := forLoop count (fun i angleSizes =>
    Function.update angleSizes (i + start) (sb.rollBackAngleSizes (i + start))) sb.angleSizes
  { sb with angleSizes := out }

/-- `SimCalcs::rollback`. -/
def rollback (sb : SimBox α) (molIdx : Nat) : SimBox α :=
  let molStart := sb.MOL_START molIdx
  let molLen := sb.MOL_LEN molIdx
  let rBCoords := sb.rollBackCoordinates
  let aCoords := forLoop NUM_DIMENSIONS (fun i aCoords =>
    forLoop molLen (fun j aCoords =>
      setCoord aCoords i (molStart + j) (rBCoords i j)) aCoords) sb.atomCoordinates
  let sb := { sb with atomCoordinates := aCoords }
  let sb := rollbackAngles sb molIdx
  rollbackBonds sb molIdx

/-- `std::set<int>::insert`, the set being kept as its ascending list of elements. -/
def setInsert (x : Nat) : List Nat → List Nat
  | [] => [x]
  | y :: ys => if x < y then x :: y :: ys else if x = y then y :: ys else y :: setInsert x ys

/-- The loop `while (indexes.size() < numToMove) indexes.insert((int)randomReal(0, n))`
of `intramolecularMove`, fed with the successive drawn values; `none` when the
draws run out before the set is full. -/
def selectIndexes (numToMove : Nat) : List Nat → List Nat → Option (List Nat)
  | [], indexes => if indexes.length < numToMove then none else some indexes
  | x :: draws, indexes =>
    if indexes.length < numToMove then selectIndexes numToMove draws (setInsert x indexes)
    else some indexes

/-- The loop over `indexes.begin() .. indexes.end()` of `intramolecularMove`: the
`k`-th selected index is moved by `scaleFactor * dist k`. -/
def moveSelected (move : SimBox α → Nat → α → Option (SimBox α)) (scaleFactor : α)
    (dist : Nat → α) : List Nat → Nat → SimBox α → Option (SimBox α)
  | [], _, sb => some sb
  | idx :: rest, k, sb =>
    (move sb idx (scaleFactor * dist k)).bind (moveSelected move scaleFactor dist rest (k + 1))

/-- The block `if (ENABLE_BOND) { ... }` of `SimCalcs::intramolecularMove`: returns
the box after the bond batch and the energy `newEnergy` computed after it. -/
def bondBatch (fuel : Nat) (M : CMath α) (sb : SimBox α) (molIdx : Nat) (bd : BatchDraws α)
    (intraScaleFactor currentEnergy : α) : Option (SimBox α × α) := do
  let numBondsToMove := sb.MOL_BOND_COUNT molIdx
  let numBondsToMove :=
    if numBondsToMove > 3 then min bd.numToMove sb.maxIntraMoves else numBondsToMove
  let scaleFactor : α := 0.25 + (0.75 / (numBondsToMove : α)) * intraScaleFactor
  let sb := { sb with numBondMoves := sb.numBondMoves + numBondsToMove }
  -- Select the indexes of the bonds to move
  let indexes ← selectIndexes numBondsToMove bd.indexes []
  -- Move and test each bond
  let sb ← moveSelected (fun sb bondIdx stretchDist =>
    stretchBond fuel M sb molIdx bondIdx stretchDist) scaleFactor bd.dist indexes 0 sb
  -- Do an MC test for delta tuning
  -- Note: Failing does NOT mean we rollback
  let newEnergy := calcIntraMolecularEnergy M sb molIdx
  let sb :=
    if acceptMove M sb.kT currentEnergy newEnergy bd.accept then
      { sb with numAcceptedBondMoves := sb.numAcceptedBondMoves + numBondsToMove }
    else sb
  some (sb, newEnergy)

/-- The block `if (ENABLE_ANGLE) { ... }` of `SimCalcs::intramolecularMove`: returns
the box after the angle batch and the energy `newEnergy` computed after it. -/
def angleBatch (fuel : Nat) (M : CMath α) (sb : SimBox α) (molIdx : Nat) (ad : BatchDraws α)
    (intraScaleFactor currentEnergy : α) : Option (SimBox α × α) := do
  let numAnglesToMove := sb.MOL_ANGLE_COUNT molIdx
  let numAnglesToMove :=
    if numAnglesToMove > 3 then min ad.numToMove sb.maxIntraMoves else numAnglesToMove
  let scaleFactor : α := 0.25 + (0.75 / (numAnglesToMove : α)) * intraScaleFactor
  let sb := { sb with numAngleMoves := sb.numAngleMoves + numAnglesToMove }
  -- Select the indexes of the bonds to move
  let indexes ← selectIndexes numAnglesToMove ad.indexes []
  -- Move and test each angle
  let sb ← moveSelected (fun sb angle expandDist =>
    expandAngle fuel M sb molIdx angle expandDist) scaleFactor ad.dist indexes 0 sb
  -- Do an MC test for delta tuning
  -- Note: Failing does NOT mean we rollback
  let newEnergy := calcIntraMolecularEnergy M sb molIdx
  let sb :=
    if acceptMove M sb.kT currentEnergy newEnergy ad.accept then
      { sb with numAcceptedAngleMoves := sb.numAcceptedAngleMoves + numAnglesToMove }
    else sb
  some (sb, newEnergy)

/-- The tuning block of `SimCalcs::intramolecularMove`, entered when
`ENABLE_TUNING && sb->stepNum != 0 && (sb->stepNum % 1000) == 0`; `angleDelta` is
the value of `sb->maxAngleDelta` read at the start of `intramolecularMove`. -/
def tuneDeltas (sb : SimBox α) (angleDelta : α) : SimBox α :=
  let bondRatio : α := (sb.numAcceptedBondMoves : α) / (sb.numBondMoves : α)
  let angleRatio : α := (sb.numAcceptedAngleMoves : α) / (sb.numAngleMoves : α)
  let diff : α := bondRatio - TARGET_RATIO
  let sb :=
    if |diff| > RATIO_MARGIN then
      { sb with maxBondDelta := sb.maxBondDelta + sb.maxBondDelta * diff }
    else sb
  let diff : α := angleRatio - TARGET_RATIO
  let sb :=
    if |angleDelta| > RATIO_MARGIN then
      { sb with maxAngleDelta := sb.maxAngleDelta + sb.maxAngleDelta * diff }
    else sb
  -- Reset the ratio values
  { sb with
    numAcceptedBondMoves := 0
    numBondMoves := 0
    numAcceptedAngleMoves := 0
    numAngleMoves := 0 }

/-- `SimCalcs::intramolecularMove` (diagnostic output omitted), its three blocks
being `bondBatch`, `angleBatch` and `tuneDeltas`; `bd` and `ad` hold the values
drawn by `randomReal` in the bond and the angle batch. -/
def intramolecularMove (fuel : Nat) (M : CMath α) (sb : SimBox α) (molIdx : Nat)
    (bd ad : BatchDraws α) : Option (SimBox α) := do
  -- Save the molecule data for rolling back
  let sb := saveBonds sb molIdx
  let sb := saveAngles sb molIdx
  -- Max with one to avoid divide by zero if no intra moves
  let numMoveTypes := max (ENABLE_BOND + ENABLE_ANGLE + ENABLE_DIHEDRAL) 1
  let intraScaleFactor : α := 0.25 + (0.75 / (numMoveTypes : α))
  let currentEnergy := calcIntraMolecularEnergy M sb molIdx
  let angleDelta := sb.maxAngleDelta
  -- Handle bond moves
  let (sb, currentEnergy) ←
    if ENABLE_BOND ≠ 0 then bondBatch fuel M sb molIdx bd intraScaleFactor currentEnergy
    else some (sb, currentEnergy)
  -- Handle angle movements
  let (sb, _) ←
    if ENABLE_ANGLE ≠ 0 then angleBatch fuel M sb molIdx ad intraScaleFactor currentEnergy
    else some (sb, currentEnergy)
  -- Tweak the deltas to acheive 40% intramolecular acceptance ratio
  if ENABLE_TUNING = true ∧ sb.stepNum ≠ 0 ∧ sb.stepNum % 1000 = 0 then
    some (tuneDeltas sb angleDelta)
  else some sb

/-- `SimCalcs::changeMolecule`. -/
def changeMolecule (fuel : Nat) (M : CMath α) (sb : SimBox α) (molIdx : Nat)
    (d : MoveDraws α) (bd ad : BatchDraws α) : Option (SimBox α) :=
  -- Intermolecular moves first, to save proper rollback positions
  let sb := intermolecularMove M sb molIdx d
  intramolecularMove fuel M sb molIdx bd ad

end Moves

/-! ## The operations as the specification words them -/

section SpecDefs

variable {α : Type} [LinearOrderedField α]

/-- The rotation of the specification (4.1) about one axis by `t` degrees, acting on
the two remaining coordinates `(u, v)`. -/
def axisRotationSpec (M : CMath α) (t u v : α) : α × α :=
  let rad := t * 3.14159265358979 / 180
  (u * M.cos rad + v * M.sin rad, v * M.cos rad - u * M.sin rad)

/-- Rotation about X of the specification: acts on `(y, z)`. -/
def rotationXSpec (M : CMath α) (t : α) (p : α × α × α) : α × α × α :=
  let yz := axisRotationSpec M t p.2.1 p.2.2
  (p.1, yz.1, yz.2)

/-- Rotation about Y of the specification: acts on `(z, x)`. -/
def rotationYSpec (M : CMath α) (t : α) (p : α × α × α) : α × α × α :=
  let zx := axisRotationSpec M t p.2.2 p.1
  (zx.2, p.2.1, zx.1)

/-- Rotation about Z of the specification: acts on `(x, y)`. -/
def rotationZSpec (M : CMath α) (t : α) (p : α × α × α) : α × α × α :=
  let xy := axisRotationSpec M t p.1 p.2.1
  (xy.1, xy.2, p.2.2)

/-- The position `pivot + Rz(Ry(Rx(q - pivot)))` of the specification (4.1). -/
def rotateAtomSpec (M : CMath α) (rx ry rz : α) (q pivot : α × α × α) : α × α × α :=
  let r := rotationZSpec M rz (rotationYSpec M ry (rotationXSpec M rx
    (q.1 - pivot.1, q.2.1 - pivot.2.1, q.2.2 - pivot.2.2)))
  (pivot.1 + r.1, pivot.2.1 + r.2.1, pivot.2.2 + r.2.2)

/-- The position of atom `a` in a coordinate table. -/
def atomPos (c : Nat → Nat → α) (a : Nat) : α × α × α :=
  (c X_COORD a, c Y_COORD a, c Z_COORD a)

end SpecDefs

/-! ## Predicates used to state and prove the properties -/

/-- `ReachRoot p k a r`: following `p` from `a` reaches the root `r` (`p r = r`) in at
most `k` steps. -/
def ReachRoot (p : Nat → Nat) : Nat → Nat → Nat → Prop
  | 0, a, r => a = r ∧ p r = r
  | k + 1, a, r => (a = r ∧ p r = r) ∨ (p a ≠ a ∧ ReachRoot p k (p a) r)

/-- Every index below `n` reaches a root of `p` in at most `k` steps. -/
def Forest (p : Nat → Nat) (k n : Nat) : Prop :=
  ∀ i, i < n → ∃ r, ReachRoot p k i r

/-- What path compression towards the root `r` may change. -/
def Compressed (p p' : Nat → Nat) (r : Nat) : Prop :=
  ∀ x, p' x = p x ∨ (p' x = r ∧ p x ≠ x ∧ ∃ j, ReachRoot p j x r)

section FrameDefs

variable {α : Type} [LinearOrderedField α]

/-- Atom `a` belongs to molecule `m`. -/
abbrev InMol (sb : SimBox α) (m a : Nat) : Prop :=
  sb.MOL_START m ≤ a ∧ a < sb.MOL_START m + sb.MOL_LEN m

/-- The end points of every bond of molecule `m`, and the two end atoms of every
angle of `m`, are atoms of `m`. -/
def WellFormed (sb : SimBox α) (m : Nat) : Prop :=
  (∀ k, k < sb.MOL_BOND_COUNT m →
    InMol sb m (sb.BOND_A1_IDX (sb.MOL_BOND_START m + k)) ∧
    InMol sb m (sb.BOND_A2_IDX (sb.MOL_BOND_START m + k))) ∧
  (∀ k, k < sb.MOL_ANGLE_COUNT m →
    InMol sb m (sb.ANGLE_A1_IDX (sb.MOL_ANGLE_START m + k)) ∧
    InMol sb m (sb.ANGLE_A2_IDX (sb.MOL_ANGLE_START m + k)))

/-- `Frame m sb sb'`: from `sb` to `sb'` the topology of the box and the rollback
buffers are unchanged, and coordinates, bond lengths and angle sizes are
unchanged outside molecule `m`. -/
structure Frame (m : Nat) (sb sb' : SimBox α) : Prop where
  molStart : sb'.MOL_START = sb.MOL_START
  molLen : sb'.MOL_LEN = sb.MOL_LEN
  bondStart : sb'.MOL_BOND_START = sb.MOL_BOND_START
  bondCount : sb'.MOL_BOND_COUNT = sb.MOL_BOND_COUNT
  angleStart : sb'.MOL_ANGLE_START = sb.MOL_ANGLE_START
  angleCount : sb'.MOL_ANGLE_COUNT = sb.MOL_ANGLE_COUNT
  bondA1 : sb'.BOND_A1_IDX = sb.BOND_A1_IDX
  bondA2 : sb'.BOND_A2_IDX = sb.BOND_A2_IDX
  angleA1 : sb'.ANGLE_A1_IDX = sb.ANGLE_A1_IDX
  angleA2 : sb'.ANGLE_A2_IDX = sb.ANGLE_A2_IDX
  maxIntra : sb'.maxIntraMoves = sb.maxIntraMoves
  rbCoords : sb'.rollBackCoordinates = sb.rollBackCoordinates
  rbBonds : sb'.rollBackBondLengths = sb.rollBackBondLengths
  rbAngles : sb'.rollBackAngleSizes = sb.rollBackAngleSizes
  coords : ∀ d a, ¬ (d < NUM_DIMENSIONS ∧ InMol sb m a) →
    sb'.atomCoordinates d a = sb.atomCoordinates d a
  bonds : ∀ b, ¬ (sb.MOL_BOND_START m ≤ b ∧ b < sb.MOL_BOND_START m + sb.MOL_BOND_COUNT m) →
    sb'.bondLengths b = sb.bondLengths b
  angles : ∀ g, ¬ (sb.MOL_ANGLE_START m ≤ g ∧ g < sb.MOL_ANGLE_START m + sb.MOL_ANGLE_COUNT m) →
    sb'.angleSizes g = sb.angleSizes g

end FrameDefs

/-! ## A concrete box -/

/-- An instance of `CMath` over `ℚ`, used to run the model on concrete inputs. -/
def ratMath : CMath ℚ := ⟨fun x => x, fun _ => 1, fun _ => 0, fun _ => 1⟩

/-- A box with one molecule: the chain of atoms `0 - 1 - 2` on the x axis, its two
bonds and its angle. -/
def chainBox : SimBox ℚ where
  size := fun _ => 10
  kT := 1
  stepNum := 0
  numBondMoves := 0
  numAcceptedBondMoves := 0
  numAngleMoves := 0
  numAcceptedAngleMoves := 0
  maxTranslate := 1
  maxRotate := 1
  maxBondDelta := 1
  maxAngleDelta := 1
  maxIntraMoves := 5
  atomCoordinates := fun d a => if d = 0 then (a : ℚ) else 0
  rollBackCoordinates := fun _ _ => 0
  ATOM_SIGMA := fun _ => 1
  ATOM_EPSILON := fun _ => 1
  ATOM_CHARGE := fun _ => 1
  MOL_START := fun _ => 0
  MOL_LEN := fun _ => 3
  MOL_TYPE := fun _ => 0
  MOL_BOND_START := fun _ => 0
  MOL_BOND_COUNT := fun _ => 2
  MOL_ANGLE_START := fun _ => 0
  MOL_ANGLE_COUNT := fun _ => 1
  MOL_PIDX_START := fun _ => 0
  primaryIndexes := fun _ => 0
  BOND_A1_IDX := fun b => b
  BOND_A2_IDX := fun b => b + 1
  BOND_EQDIST := fun _ => 1
  BOND_KBOND := fun _ => 1
  BOND_VARIABLE := fun _ => true
  bondLengths := fun _ => 1
  rollBackBondLengths := fun _ => 0
  ANGLE_A1_IDX := fun _ => 0
  ANGLE_MID_IDX := fun _ => 1
  ANGLE_A2_IDX := fun _ => 2
  ANGLE_EQANGLE := fun _ => 180
  ANGLE_KANGLE := fun _ => 1
  ANGLE_VARIABLE := fun _ => true
  angleSizes := fun _ => 180
  rollBackAngleSizes := fun _ => 0
  excludeAtoms := fun _ _ => [-1]
  fudgeAtoms := fun _ _ => [-1]
  unionFindParent := fun i => i

/-- Draws for a rigid move about atom `1`. -/
def chainMoveDraws : MoveDraws ℚ := ⟨1, 1, 0, 0, 0, 0, 0⟩

/-- Draws selecting both bonds of the chain. -/
def chainBondDraws : BatchDraws ℚ := ⟨2, [1, 0], fun _ => 1, 0⟩

/-- Draws selecting the angle of the chain. -/
def chainAngleDraws : BatchDraws ℚ := ⟨2, [0], fun _ => 1, 0⟩

/-! ## Boxes for the tuning block and the batch sizes -/

/-- A box at the tuning tick `stepNum = 1000` whose only molecule has one atom, no
bond and no angle, with `9` accepted bond moves out of `10` and `40001` accepted angle
moves out of `100000`. -/
def tickBox : SimBox ℚ :=
  { chainBox with
    stepNum := 1000
    numBondMoves := 10
    numAcceptedBondMoves := 9
    numAngleMoves := 100000
    numAcceptedAngleMoves := 40001
    MOL_LEN := fun _ => 1
    MOL_BOND_COUNT := fun _ => 0
    MOL_ANGLE_COUNT := fun _ => 0 }

/-- Draws of a batch that selects nothing. -/
def noDraws : BatchDraws ℚ := ⟨2, [], fun _ => 0, 0⟩

/-- The chain box with the cap `maxIntraMoves = 1`. -/
def cappedChainBox : SimBox ℚ := { chainBox with maxIntraMoves := 1 }

section ShapeDefs

variable {α : Type} [LinearOrderedField α]

/-- `Moved sb sb'`: `sb'` is `sb` with new atom coordinates, bond lengths, angle sizes
and union-find scratch, every other field being the same. -/
def Moved (sb sb' : SimBox α) : Prop :=
  sb' = { sb with
    unionFindParent := sb'.unionFindParent
    atomCoordinates := sb'.atomCoordinates
    bondLengths := sb'.bondLengths
    angleSizes := sb'.angleSizes }

/-- `Stepped sb sb'`: `sb'` differs from `sb` at most in the fields written by the two
batches of `intramolecularMove`: coordinates, bond lengths, angle sizes, their rollback
copies, the union-find scratch and the four move counters. -/
def Stepped (sb sb' : SimBox α) : Prop :=
  sb' = { sb with
    unionFindParent := sb'.unionFindParent
    atomCoordinates := sb'.atomCoordinates
    bondLengths := sb'.bondLengths
    angleSizes := sb'.angleSizes
    rollBackBondLengths := sb'.rollBackBondLengths
    rollBackAngleSizes := sb'.rollBackAngleSizes
    numBondMoves := sb'.numBondMoves
    numAcceptedBondMoves := sb'.numAcceptedBondMoves
    numAngleMoves := sb'.numAngleMoves
    numAcceptedAngleMoves := sb'.numAcceptedAngleMoves }

/-- The number of moves of a batch of `intramolecularMove` (lines 547-551 and 582-586):
`count` is the bond or angle count of the molecule and `draw` the value of
`(int)randomReal(2, count)`. -/
def batchSize (count draw maxIntraMoves : Nat) : Nat :=
  if count > 3 then min draw maxIntraMoves else count

end ShapeDefs

/-! ## System energy -/

section SystemEnergy

variable {α : Type} [LinearOrderedField α]

/-- `VERBOSE`. -/
def VERBOSE : Bool := true

/-- `SimulationStep::calcMoleculeEnergy`; `contribution currMol startMol` is the value
returned by the pure virtual `calcMolecularEnergyContribution(currMol, startMol)`. -/
def calcMoleculeEnergy (contribution : Nat → Nat → α) (M : CMath α) (sb : SimBox α)
    (currMol startMol : Nat) : α :=
  contribution currMol startMol + calcIntraMolecularEnergy M sb currMol

/-- The local variables of `SimulationStep::calcSystemEnergy` carried around its loop. -/
structure SystemEnergyLocals (α : Type) where
  total : α
  inter : α
  intra : α
  bondE : α
  angleE : α
  nonBondE : α
  totalBondE : α
  totalAngleE : α
  totalNonBondE : α

/-- `SimulationStep::calcSystemEnergy` (output omitted): returns the value returned by
the source together with the reference arguments `subLJ` and `subCharge` as they are
when it returns.  The box is only read. -/
def calcSystemEnergy (contribution : Nat → Nat → α) (M : CMath α) (sb : SimBox α)
    (subLJ subCharge : α) (numMolecules : Nat) : α × α × α :=
  let init : SystemEnergyLocals α :=
    { total := subLJ + subCharge, inter := 0, intra := 0, bondE := 0, angleE := 0,
      nonBondE := 0, totalBondE := 0, totalAngleE := 0, totalNonBondE := 0 }
  let st := forLoop numMolecules (fun mol (st : SystemEnergyLocals α) =>
    let st := { st with total := st.total + calcMoleculeEnergy contribution M sb mol mol }
    if VERBOSE then
      let st := { st with inter := st.inter + contribution mol mol }
      let st := { st with intra := st.intra + calcIntraMolecularEnergy M sb mol }
      let st := { st with bondE := bondEnergy sb mol }
      let st := { st with angleE := angleEnergy sb mol }
      let st := { st with nonBondE := calcIntraMolecularEnergy M sb mol - st.bondE - st.angleE }
      let st := { st with totalBondE := st.totalBondE + st.bondE }
      let st := { st with totalAngleE := st.totalAngleE + st.angleE }
      { st with totalNonBondE := st.totalNonBondE + st.nonBondE }
    else st) init
  (st.total, subLJ, subCharge)

end SystemEnergy

/-! ## The intramolecular energy as the specification words it -/

section EnergySpec

variable {α : Type} [LinearOrderedField α]

/-- `listed row x`: `x` occurs in the row before its `-1` terminator. -/
def listed (row : List Int) (x : Int) : Prop :=
  x ∈ row.takeWhile (fun v => decide (v ≠ -1))

instance listedDecidable (row : List Int) (x : Int) : Decidable (listed row x) := by
  unfold listed; infer_instance

/-- The factor `fudge(i, j)` of the specification (4.3), for local indices `i`, `j`. -/
def fudgeSpec (sb : SimBox α) (molType i j : Nat) : α :=
  if listed (sb.excludeAtoms molType i) (j : Int) then 0
  else if listed (sb.fudgeAtoms molType i) (j : Int) then 0.5
  else 1

/-- The bond term of the specification (4.3): the sum of `K (EQ - length)^2` over the
bonds of the molecule flagged `VARIABLE`. -/
def bondEnergySpec (sb : SimBox α) (m : Nat) : α :=
  Finset.sum (Finset.range (sb.MOL_BOND_COUNT m)) (fun k =>
    if sb.BOND_VARIABLE (sb.MOL_BOND_START m + k) then
      sb.BOND_KBOND (sb.MOL_BOND_START m + k) *
        (sb.BOND_EQDIST (sb.MOL_BOND_START m + k) - sb.bondLengths (sb.MOL_BOND_START m + k)) ^ 2
    else 0)

/-- The angle term of the specification (4.3). -/
def angleEnergySpec (sb : SimBox α) (m : Nat) : α :=
  Finset.sum (Finset.range (sb.MOL_ANGLE_COUNT m)) (fun k =>
    if sb.ANGLE_VARIABLE (sb.MOL_ANGLE_START m + k) then
      sb.ANGLE_KANGLE (sb.MOL_ANGLE_START m + k) *
        (sb.ANGLE_EQANGLE (sb.MOL_ANGLE_START m + k) - sb.angleSizes (sb.MOL_ANGLE_START m + k)) ^ 2
    else 0)

/-- The nonbonded energy of the pair of atoms with local indices `i`, `j` of the
specification (4.3). -/
def pairEnergySpec (M : CMath α) (sb : SimBox α) (m i j : Nat) : α :=
  let a := sb.MOL_START m + i
  let b := sb.MOL_START m + j
  let r2 := calcAtomDistSquared a b sb.atomCoordinates sb.size
  fudgeSpec sb (sb.MOL_TYPE m) i j *
    (calcLJEnergy M a b r2 sb.ATOM_SIGMA sb.ATOM_EPSILON +
      calcChargeEnergy a b (M.sqrt r2) sb.ATOM_CHARGE)

/-- The intramolecular energy of the specification (4.3): angle term, bond term and the
sum of the pair energies over the pairs `i < j` of atoms of the molecule. -/
def calcIntraMolecularEnergySpec (M : CMath α) (sb : SimBox α) (m : Nat) : α :=
  angleEnergySpec sb m + bondEnergySpec sb m +
    Finset.sum (Finset.range (sb.MOL_LEN m)) (fun i =>
      Finset.sum (Finset.range (sb.MOL_LEN m)) (fun j =>
        if i < j then pairEnergySpec M sb m i j else 0))

end EnergySpec

section StatisticsDefs

variable {α : Type}

/-- `AcceptedOnly s t`: the boxes `s` and `t` differ at most in the two counters of
accepted moves. -/
def AcceptedOnly (s t : SimBox α) : Prop :=
  t = { s with
    numAcceptedBondMoves := t.numAcceptedBondMoves
    numAcceptedAngleMoves := t.numAcceptedAngleMoves }

/-- `StatisticsOnly s t`: the boxes `s` and `t` differ at most in the two counters of
accepted moves and in the two maximum deltas. -/
def StatisticsOnly (s t : SimBox α) : Prop :=
  t = { s with
    numAcceptedBondMoves := t.numAcceptedBondMoves
    numAcceptedAngleMoves := t.numAcceptedAngleMoves
    maxBondDelta := t.maxBondDelta
    maxAngleDelta := t.maxAngleDelta }

end StatisticsDefs

/-! ## Groups of the union-find and paths of bonds -/

/-- `SameGroup p a b`: `a` and `b` reach the same root of `p`. -/
def SameGroup (p : Nat → Nat) (a b : Nat) : Prop :=
  ∃ r j k, ReachRoot p j a r ∧ ReachRoot p k b r

/-- `JoinedBelow n skip a1 a2 x y`: one of the pairs `(a1 k, a2 k)` with `k < n` that is
not skipped is the pair `(x, y)`. -/
def JoinedBelow (n : Nat) (skip : Nat → Prop) (a1 a2 : Nat → Nat) (x y : Nat) : Prop :=
  ∃ k, k < n ∧ ¬ skip k ∧ x = a1 k ∧ y = a2 k

section LinkDefs

variable {α : Type}

/-- `BondLinked sb m b x y`: a path of bonds of molecule `m`, none of them the bond with
local index `b`, leads from atom `x` to atom `y`. -/
def BondLinked (sb : SimBox α) (m b : Nat) (x y : Nat) : Prop :=
  Relation.EqvGen (JoinedBelow (sb.MOL_BOND_COUNT m) (fun k => k = b)
    (fun k => sb.BOND_A1_IDX (sb.MOL_BOND_START m + k))
    (fun k => sb.BOND_A2_IDX (sb.MOL_BOND_START m + k))) x y

/-- `AngleLinked sb m mid x y`: a path of bonds of molecule `m`, none of them with an end
at atom `mid`, leads from atom `x` to atom `y`. -/
def AngleLinked (sb : SimBox α) (m mid : Nat) (x y : Nat) : Prop :=
  Relation.EqvGen (JoinedBelow (sb.MOL_BOND_COUNT m)
    (fun k => sb.BOND_A1_IDX (sb.MOL_BOND_START m + k) = mid ∨
      sb.BOND_A2_IDX (sb.MOL_BOND_START m + k) = mid)
    (fun k => sb.BOND_A1_IDX (sb.MOL_BOND_START m + k))
    (fun k => sb.BOND_A2_IDX (sb.MOL_BOND_START m + k))) x y

end LinkDefs

section UnitVectorDef

variable {α : Type} [LinearOrderedField α]

/-- Component `d` of the unit vector from atom `e1` to atom `e2`. -/
def unitVector (M : CMath α) (c : Nat → Nat → α) (e1 e2 d : Nat) : α :=
  (c d e2 - c d e1) /
    M.sqrt ((c 0 e2 - c 0 e1) ^ 2 + (c 1 e2 - c 1 e1) ^ 2 + (c 2 e2 - c 2 e1) ^ 2)

end UnitVectorDef

section SidesDefs

variable {α : Type} [LinearOrderedField α]

/-- The first part of `SimCalcs::stretchBond`, up to the test `side1 == side2`: the
union phase and the two calls of `find`; returns `side1`, `side2` and the parent
array. -/
def bondSides (fuel : Nat) (sb : SimBox α) (molIdx bondIdx : Nat) :
    Option (Nat × Nat × (Nat → Nat)) := do
  let bondStart := sb.MOL_BOND_START molIdx
  let bondEnd := bondStart + sb.MOL_BOND_COUNT molIdx
  let startIdx := sb.MOL_START molIdx
  let molSize := sb.MOL_LEN molIdx
  let end1 := sb.BOND_A1_IDX (bondStart + bondIdx)
  let end2 := sb.BOND_A2_IDX (bondStart + bondIdx)
  let parent := forLoop molSize (fun i parent => Function.update parent i i) sb.unionFindParent
  let parent ← forLoopM (bondEnd - bondStart) (fun k parent =>
    let i := bondStart + k
    if i = bondIdx + bondStart then some parent
    else
      let a1 := sb.BOND_A1_IDX i - startIdx
      let a2 := sb.BOND_A2_IDX i - startIdx
      unionAtoms fuel parent a1 a2) parent
  let (side1, parent) ← find fuel parent (end1 - startIdx)
  let (side2, parent) ← find fuel parent (end2 - startIdx)
  some (side1, side2, parent)

/-- The first part of `SimCalcs::expandAngle`, up to the test `group1 == group2`: the
union phase and the two calls of `find`; returns `group1`, `group2` and the parent
array. -/
def angleSides (fuel : Nat) (sb : SimBox α) (molIdx angleIdx : Nat) :
    Option (Nat × Nat × (Nat → Nat)) := do
  let bondStart := sb.MOL_BOND_START molIdx
  let bondEnd := bondStart + sb.MOL_BOND_COUNT molIdx
  let angleStart := sb.MOL_ANGLE_START molIdx
  let startIdx := sb.MOL_START molIdx
  let molSize := sb.MOL_LEN molIdx
  let end1 := sb.ANGLE_A1_IDX (angleStart + angleIdx)
  let end2 := sb.ANGLE_A2_IDX (angleStart + angleIdx)
  let mid := sb.ANGLE_MID_IDX (angleStart + angleIdx)
  let parent := forLoop molSize (fun i parent => Function.update parent i i) sb.unionFindParent
  let parent ← forLoopM (bondEnd - bondStart) (fun k parent =>
    let i := bondStart + k
    let a1 := sb.BOND_A1_IDX i
    let a2 := sb.BOND_A2_IDX i
    if a1 = mid ∨ a2 = mid then some parent
    else unionAtoms fuel parent (a1 - startIdx) (a2 - startIdx)) parent
  let (group1, parent) ← find fuel parent (end1 - startIdx)
  let (group2, parent) ← find fuel parent (end2 - startIdx)
  some (group1, group2, parent)

/-- `SingleCycle sb m atom bond`: the bond graph of molecule `m` is a single cycle.  The
molecule has `n ≥ 3` atoms and `n` bonds; `atom 0, ..., atom (n - 1)` are atoms of `m`,
each once; `bond 0, ..., bond (n - 1)` are the local indices of its bonds, each once;
and bond `bond i` joins `atom i` with the next atom of the cycle, which is
`atom (i + 1)`, and `atom 0` after the last one. -/
structure SingleCycle (sb : SimBox α) (m : Nat) (atom bond : Nat → Nat) : Prop where
  size : 3 ≤ sb.MOL_LEN m
  count : sb.MOL_BOND_COUNT m = sb.MOL_LEN m
  atomIn : ∀ i, i < sb.MOL_LEN m → InMol sb m (atom i)
  atomInj : ∀ i j, i < sb.MOL_LEN m → j < sb.MOL_LEN m → atom i = atom j → i = j
  bondLt : ∀ i, i < sb.MOL_LEN m → bond i < sb.MOL_LEN m
  bondInj : ∀ i j, i < sb.MOL_LEN m → j < sb.MOL_LEN m → bond i = bond j → i = j
  bondSurj : ∀ b, b < sb.MOL_LEN m → ∃ i, i < sb.MOL_LEN m ∧ bond i = b
  joins : ∀ i, i < sb.MOL_LEN m →
    (sb.BOND_A1_IDX (sb.MOL_BOND_START m + bond i) = atom i ∧
      sb.BOND_A2_IDX (sb.MOL_BOND_START m + bond i) =
        atom (if i + 1 < sb.MOL_LEN m then i + 1 else 0)) ∨
    (sb.BOND_A1_IDX (sb.MOL_BOND_START m + bond i) =
        atom (if i + 1 < sb.MOL_LEN m then i + 1 else 0) ∧
      sb.BOND_A2_IDX (sb.MOL_BOND_START m + bond i) = atom i)

end SidesDefs

/-- A box with one molecule whose three atoms and three bonds `0 - 1`, `1 - 2`, `2 - 0`
form a ring. -/
def ringBox : SimBox ℚ :=
  { chainBox with
    atomCoordinates := fun d a =>
      if d = 0 then (if a = 1 then 1 else 0) else if d = 1 then (if a = 2 then 1 else 0) else 0
    MOL_BOND_COUNT := fun _ => 3
    BOND_A2_IDX := fun b => if b = 2 then 0 else b + 1 }

/-- The chain of atoms `0 - 1 - 2` on the x axis with its two bonds and its angle, as
`chainBox`, over any field. -/
def lineBox (α : Type) [LinearOrderedField α] : SimBox α where
  size := fun _ => 10
  kT := 1
  stepNum := 0
  numBondMoves := 0
  numAcceptedBondMoves := 0
  numAngleMoves := 0
  numAcceptedAngleMoves := 0
  maxTranslate := 1
  maxRotate := 1
  maxBondDelta := 1
  maxAngleDelta := 1
  maxIntraMoves := 5
  atomCoordinates := fun d a => if d = 0 then (a : α) else 0
  rollBackCoordinates := fun _ _ => 0
  ATOM_SIGMA := fun _ => 1
  ATOM_EPSILON := fun _ => 1
  ATOM_CHARGE := fun _ => 1
  MOL_START := fun _ => 0
  MOL_LEN := fun _ => 3
  MOL_TYPE := fun _ => 0
  MOL_BOND_START := fun _ => 0
  MOL_BOND_COUNT := fun _ => 2
  MOL_ANGLE_START := fun _ => 0
  MOL_ANGLE_COUNT := fun _ => 1
  MOL_PIDX_START := fun _ => 0
  primaryIndexes := fun _ => 0
  BOND_A1_IDX := fun b => b
  BOND_A2_IDX := fun b => b + 1
  BOND_EQDIST := fun _ => 1
  BOND_KBOND := fun _ => 1
  BOND_VARIABLE := fun _ => true
  bondLengths := fun _ => 1
  rollBackBondLengths := fun _ => 0
  ANGLE_A1_IDX := fun _ => 0
  ANGLE_MID_IDX := fun _ => 1
  ANGLE_A2_IDX := fun _ => 2
  ANGLE_EQANGLE := fun _ => 180
  ANGLE_KANGLE := fun _ => 1
  ANGLE_VARIABLE := fun _ => true
  angleSizes := fun _ => 180
  rollBackAngleSizes := fun _ => 0
  excludeAtoms := fun _ _ => [-1]
  fudgeAtoms := fun _ _ => [-1]
  unionFindParent := fun i => i

section InRange

variable {α : Type} [LinearOrderedField α]

/-- `SimCalcs::moleculesInRange`. -/
def moleculesInRange (p1Start p1End p2Start p2End : Nat) (atomCoords : Nat → Nat → α)
    (bSize : Nat → α) (primaryIndexes : Nat → Nat) (cutoff : α) : Bool :=
  let out := false
  forLoop (p1End - p1Start) (fun k1 out =>
    let p1Idx := p1Start + k1
    let p1 := primaryIndexes p1Idx
    forLoop (p2End - p2Start) (fun k2 out =>
      let p2Idx := p2Start + k2
      let p2 := primaryIndexes p2Idx
      out || decide (calcAtomDistSquared p1 p2 atomCoords bSize ≤ cutoff * cutoff)) out) out

end InRange

section PartitionDefs

variable {α : Type}

/-- The partition phase of `SimCalcs::stretchBond` (lines 322-335): the parent array is
reset to the identity on the local atoms and `unionAtoms` is applied across every bond
of the molecule but `bondIdx`; returns the parent array. -/
def bondPartition (fuel : Nat) (sb : SimBox α) (molIdx bondIdx : Nat) : Option (Nat → Nat) :=
  let bondStart := sb.MOL_BOND_START molIdx
  let bondEnd := bondStart + sb.MOL_BOND_COUNT molIdx
  let startIdx := sb.MOL_START molIdx
  let molSize := sb.MOL_LEN molIdx
  let parent := forLoop molSize (fun i parent => Function.update parent i i) sb.unionFindParent
  forLoopM (bondEnd - bondStart) (fun k parent =>
    let i := bondStart + k
    if i = bondIdx + bondStart then some parent
    else
      let a1 := sb.BOND_A1_IDX i - startIdx
      let a2 := sb.BOND_A2_IDX i - startIdx
      unionAtoms fuel parent a1 a2) parent

end PartitionDefs

/-- A call of `SimCalcs::find` or of `SimCalcs::unionAtoms`. -/
inductive UnionFindCall where
  | find (atomIdx : Nat)
  | unionAtoms (atom1 atom2 : Nat)

/-- The arguments of the call are indices below `n`. -/
def UnionFindCall.Below (n : Nat) : UnionFindCall → Prop
  | UnionFindCall.find atomIdx => atomIdx < n
  | UnionFindCall.unionAtoms atom1 atom2 => atom1 < n ∧ atom2 < n

/-- The array `unionFindParent` after a sequence of calls of `find` and `unionAtoms`. -/
def runCalls (fuel : Nat) : List UnionFindCall → (Nat → Nat) → Option (Nat → Nat)
  | [], parent => some parent
  | UnionFindCall.find atomIdx :: rest, parent =>
    (find fuel parent atomIdx).bind (fun r => runCalls fuel rest r.2)
  | UnionFindCall.unionAtoms atom1 atom2 :: rest, parent =>
    (unionAtoms fuel parent atom1 atom2).bind (runCalls fuel rest)

section DistanceDef

variable {α : Type} [LinearOrderedField α]

/-- The Euclidean distance, without periodic wrap, between the atoms `a` and `b`. -/
def atomDistance (M : CMath α) (c : Nat → Nat → α) (a b : Nat) : α :=
  M.sqrt ((c 0 b - c 0 a) ^ 2 + (c 1 b - c 1 a) ^ 2 + (c 2 b - c 2 a) ^ 2)

end DistanceDef

section AngleDefs

variable {α : Type} [LinearOrderedField α]

/-- The cosine of the geometric angle `e1 - mid - e2`: the scalar product of the vectors
from `mid` to `e1` and from `mid` to `e2` over the product of their lengths. -/
def angleCosine (M : CMath α) (c : Nat → Nat → α) (e1 mid e2 : Nat) : α :=
  ((c 0 e1 - c 0 mid) * (c 0 e2 - c 0 mid) + (c 1 e1 - c 1 mid) * (c 1 e2 - c 1 mid) +
      (c 2 e1 - c 2 mid) * (c 2 e2 - c 2 mid)) /
    (M.sqrt ((c 0 e1 - c 0 mid) ^ 2 + (c 1 e1 - c 1 mid) ^ 2 + (c 2 e1 - c 2 mid) ^ 2) *
      M.sqrt ((c 0 e2 - c 0 mid) ^ 2 + (c 1 e2 - c 1 mid) ^ 2 + (c 2 e2 - c 2 mid) ^ 2))

end AngleDefs

/-- The molecule of `lineBox` bent to a right angle: atom `0` at `(1, 0, 0)`, atom `1`
at the origin, atom `2` at `(0, 1, 0)`, with the bonds `0 - 1` and `1 - 2` and the
angle `0 - 1 - 2` of stored size `90`. -/
def bentBox (α : Type) [LinearOrderedField α] : SimBox α :=
  { lineBox α with
    atomCoordinates := fun d a =>
      if d = 0 ∧ a = 0 then 1 else if d = 1 ∧ a = 2 then 1 else 0
    angleSizes := fun _ => 90
    ANGLE_EQANGLE := fun _ => 90 }

section RigidDefs

variable {α : Type} [LinearOrderedField α]

/-- Component `d` (`0`, `1` or `2`) of a position. -/
def component (p : α × α × α) (d : Nat) : α :=
  if d = 0 then p.1 else if d = 1 then p.2.1 else p.2.2

/-- Component `d` of the translation vector `(deltaX, deltaY, deltaZ)` drawn by
`intermolecularMove`. -/
def translation (dr : MoveDraws α) (d : Nat) : α :=
  if d = 0 then dr.deltaX else if d = 1 then dr.deltaY else dr.deltaZ

end RigidDefs

/-! # Properties -/

/-! ## Loops, array writes and the index set -/

section LoopLemmas

theorem forLoop_inv {σ : Type} (P : Nat → σ → Prop) (n : Nat) (body : Nat → σ → σ) (s : σ)
    (h0 : P 0 s) (hstep : ∀ k, k < n → ∀ t, P k t → P (k + 1) (body k t)) :
    P n (forLoop n body s) := by
  induction n with
  | zero => exact h0
  | succ n ih =>
    exact hstep n (Nat.lt_succ_self n) _ (ih (fun k hk => hstep k (Nat.lt_succ_of_lt hk)))

theorem forLoopM_inv {σ : Type} (P : Nat → σ → Prop) (n : Nat) (body : Nat → σ → Option σ)
    (s : σ) (h0 : P 0 s)
    (hstep : ∀ k, k < n → ∀ t, P k t → ∃ t', body k t = some t' ∧ P (k + 1) t') :
    ∃ t, forLoopM n body s = some t ∧ P n t := by
  induction n with
  | zero => exact ⟨s, rfl, h0⟩
  | succ n ih =>
    obtain ⟨t, ht, hP⟩ := ih (fun k hk => hstep k (Nat.lt_succ_of_lt hk))
    obtain ⟨t', ht', hP'⟩ := hstep n (Nat.lt_succ_self n) t hP
    exact ⟨t', by simp [forLoopM, ht, ht'], hP'⟩

theorem bind_post {β γ : Type} {x : Option β} {f : β → Option γ} {Q : γ → Prop}
    (P : β → Prop) (hx : ∃ a, x = some a ∧ P a) (hf : ∀ a, P a → ∃ y, f a = some y ∧ Q y) :
    ∃ y, x.bind f = some y ∧ Q y := by
  obtain ⟨a, rfl, ha⟩ := hx
  exact hf a ha

theorem forLoop_congr {σ : Type} (n : Nat) (f g : Nat → σ → σ) (s : σ)
    (h : ∀ k, k < n → ∀ t, f k t = g k t) : forLoop n f s = forLoop n g s := by
  induction n with
  | zero => rfl
  | succ n ih =>
    simp only [forLoop]
    rw [ih (fun k hk => h k (Nat.lt_succ_of_lt hk)), h n (Nat.lt_succ_self n)]

theorem copyLoop_apply {β : Type} (n start : Nat) (g f0 : Nat → β) (b : Nat) :
    forLoop n (fun i f => Function.update f (i + start) (g (i + start))) f0 b =
      if start ≤ b ∧ b < start + n then g b else f0 b := by
  refine forLoop_inv (fun (k : Nat) (f : Nat → β) =>
    f b = if start ≤ b ∧ b < start + k then g b else f0 b) n _ f0 ?_ ?_
  · have : ¬ (start ≤ b ∧ b < start + 0) := by omega
    show f0 b = if start ≤ b ∧ b < start + 0 then g b else f0 b
    rw [if_neg this]
  · intro k _ t ht
    show Function.update t (k + start) (g (k + start)) b =
      if start ≤ b ∧ b < start + (k + 1) then g b else f0 b
    replace ht : t b = if start ≤ b ∧ b < start + k then g b else f0 b := ht
    by_cases e : b = k + start
    · subst e
      have : start ≤ k + start ∧ k + start < start + (k + 1) := by omega
      rw [if_pos this]; simp
    · rw [Function.update_noteq e, ht]
      by_cases h : start ≤ b ∧ b < start + k
      · rw [if_pos h, if_pos (by omega)]
      · rw [if_neg h, if_neg (by omega)]

theorem mem_setInsert {x y : Nat} : ∀ {l : List Nat}, y ∈ setInsert x l → y = x ∨ y ∈ l
  | [], h => by simp [setInsert] at h; exact Or.inl h
  | z :: zs, h => by
    simp only [setInsert] at h
    split_ifs at h
    · simp only [List.mem_cons] at h ⊢
      exact h
    · exact Or.inr h
    · simp only [List.mem_cons] at h ⊢
      rcases h with h | h
      · exact Or.inr (Or.inl h)
      · rcases mem_setInsert h with h | h
        · exact Or.inl h
        · exact Or.inr (Or.inr h)

theorem selectIndexes_mem {n : Nat} {P : Nat → Prop} :
    ∀ {draws indexes out : List Nat}, selectIndexes n draws indexes = some out →
      (∀ x ∈ draws, P x) → (∀ x ∈ indexes, P x) → ∀ x ∈ out, P x := by
  intro draws
  induction draws with
  | nil =>
    intro indexes out h _ hi
    simp only [selectIndexes] at h
    split_ifs at h
    simp only [Option.some.injEq] at h
    subst h
    exact hi
  | cons d ds ih =>
    intro indexes out h hd hi
    simp only [selectIndexes] at h
    split_ifs at h
    · refine ih h (fun x hx => hd x (List.mem_cons_of_mem _ hx)) ?_
      intro x hx
      rcases mem_setInsert hx with e | e
      · rw [e]; exact hd d (List.mem_cons_self _ _)
      · exact hi x e
    · simp only [Option.some.injEq] at h
      subst h
      exact hi

end LoopLemmas

/-! ## Union-find -/

section UnionFind

theorem ReachRoot.root {p : Nat → Nat} : ∀ {k a r : Nat}, ReachRoot p k a r → p r = r
  | 0, _, _, h => h.2
  | _ + 1, _, _, Or.inl h => h.2
  | _ + 1, _, _, Or.inr h => ReachRoot.root h.2

theorem ReachRoot.self {p : Nat → Nat} {r : Nat} (h : p r = r) : ∀ k, ReachRoot p k r r
  | 0 => ⟨rfl, h⟩
  | _ + 1 => Or.inl ⟨rfl, h⟩

theorem ReachRoot.of_root {p : Nat → Nat} {a : Nat} (ha : p a = a) :
    ∀ {k r : Nat}, ReachRoot p k a r → a = r
  | 0, _, h => h.1
  | _ + 1, _, Or.inl h => h.1
  | _ + 1, _, Or.inr h => absurd ha h.1

theorem ReachRoot.succ {p : Nat → Nat} : ∀ {k a r : Nat}, ReachRoot p k a r → ReachRoot p (k + 1) a r
  | 0, _, _, h => Or.inl h
  | _ + 1, _, _, Or.inl h => Or.inl h
  | _ + 1, _, _, Or.inr h => Or.inr ⟨h.1, ReachRoot.succ h.2⟩

theorem ReachRoot.mono {p : Nat → Nat} {k k' a r : Nat} (h : ReachRoot p k a r) (hk : k ≤ k') :
    ReachRoot p k' a r := by
  induction hk with
  | refl => exact h
  | step _ ih => exact ih.succ

theorem ReachRoot.unique {p : Nat → Nat} :
    ∀ {k k' a r r' : Nat}, ReachRoot p k a r → ReachRoot p k' a r' → r = r' := by
  intro k
  induction k with
  | zero =>
    intro k' a r r' h h'
    obtain ⟨rfl, hr⟩ := h
    exact ReachRoot.of_root hr h'
  | succ k ih =>
    intro k' a r r' h h'
    rcases h with ⟨rfl, hr⟩ | ⟨hne, h⟩
    · exact ReachRoot.of_root hr h'
    · cases k' with
      | zero => exact absurd (h'.1 ▸ h'.2) hne
      | succ k' =>
        rcases h' with ⟨rfl, hr⟩ | ⟨_, h'⟩
        · exact absurd hr hne
        · exact ih h h'

theorem find_spec : ∀ (k : Nat) (fuel : Nat) (p : Nat → Nat) (a r : Nat),
    ReachRoot p k a r → k < fuel → ∃ p', find fuel p a = some (r, p') ∧ Compressed p p' r := by
  intro k
  induction k with
  | zero =>
    intro fuel p a r h hf
    obtain ⟨rfl, hr⟩ := h
    obtain ⟨f, rfl⟩ : ∃ f, fuel = f + 1 := ⟨fuel - 1, by omega⟩
    exact ⟨p, by simp [find, hr], fun x => Or.inl rfl⟩
  | succ k ih =>
    intro fuel p a r h hf
    obtain ⟨f, rfl⟩ : ∃ f, fuel = f + 1 := ⟨fuel - 1, by omega⟩
    rcases h with ⟨rfl, hr⟩ | ⟨hne, h⟩
    · exact ⟨p, by simp [find, hr], fun x => Or.inl rfl⟩
    · obtain ⟨p1, hfind, hc⟩ := ih f p (p a) r h (by omega)
      refine ⟨Function.update p1 a r, by simp [find, hne, hfind], ?_⟩
      intro x
      by_cases hx : x = a
      · subst hx
        exact Or.inr ⟨by simp, hne, k + 1, Or.inr ⟨hne, h⟩⟩
      · rw [Function.update_noteq hx]
        exact hc x

theorem Compressed.reach {p p' : Nat → Nat} {r : Nat} (hc : Compressed p p' r) :
    ∀ {j x r' : Nat}, ReachRoot p j x r' → ReachRoot p' j x r' := by
  have hroot : ∀ y, p y = y → p' y = y := by
    intro y hy
    rcases hc y with h | ⟨_, h, _⟩
    · rw [h, hy]
    · exact absurd hy h
  intro j
  induction j with
  | zero =>
    intro x r' h
    exact ⟨h.1, hroot _ h.2⟩
  | succ j ih =>
    intro x r' h
    rcases h with ⟨rfl, hr⟩ | ⟨hne, h⟩
    · exact Or.inl ⟨rfl, hroot _ hr⟩
    · rcases hc x with e | ⟨e, _, j', hj'⟩
      · exact Or.inr ⟨by rw [e]; exact hne, by rw [e]; exact ih h⟩
      · have hrr : r = r' := ReachRoot.unique hj' (show ReachRoot p (j + 1) x r' from Or.inr ⟨hne, h⟩)
        subst hrr
        have hr : p r = r := h.root
        refine Or.inr ⟨?_, ?_⟩
        · rw [e]; intro hx; rw [← hx] at hne; exact hne hr
        · rw [e]; exact ReachRoot.self (hroot _ hr) j

theorem find_forest {fuel k n : Nat} {p : Nat → Nat} {a : Nat} (hF : Forest p k n) (ha : a < n)
    (hf : k < fuel) :
    ∃ r p', find fuel p a = some (r, p') ∧ Forest p' k n ∧ p' r = r := by
  obtain ⟨r, hr⟩ := hF a ha
  obtain ⟨p', hfind, hc⟩ := find_spec k fuel p a r hr hf
  refine ⟨r, p', hfind, ?_, ?_⟩
  · intro i hi
    obtain ⟨ri, hri⟩ := hF i hi
    exact ⟨ri, hc.reach hri⟩
  · exact (hc.reach (ReachRoot.self hr.root 0)).2

theorem reach_update_root {p : Nat → Nat} {r1 r2 : Nat} (h1 : p r1 = r1) (h2 : p r2 = r2)
    (hne : r1 ≠ r2) : ∀ {k a r : Nat}, ReachRoot p k a r →
      ∃ r', ReachRoot (Function.update p r1 r2) (k + 1) a r' := by
  have hr2 : Function.update p r1 r2 r2 = r2 := by
    rw [Function.update_noteq (Ne.symm hne)]; exact h2
  have base : ∀ (k r : Nat), p r = r → ∃ r', ReachRoot (Function.update p r1 r2) (k + 1) r r' := by
    intro k r hr
    by_cases e : r = r1
    · subst e
      exact ⟨r2, Or.inr ⟨by simp [hne.symm], by simp; exact ReachRoot.self hr2 k⟩⟩
    · exact ⟨r, Or.inl ⟨rfl, by rw [Function.update_noteq e]; exact hr⟩⟩
  intro k
  induction k with
  | zero =>
    intro a r h
    obtain ⟨rfl, hr⟩ := h
    exact base 0 _ hr
  | succ k ih =>
    intro a r h
    rcases h with ⟨rfl, hr⟩ | ⟨hna, h⟩
    · exact base _ _ hr
    · have ha1 : a ≠ r1 := by intro e; rw [e] at hna; exact hna h1
      obtain ⟨r', hr'⟩ := ih h
      refine ⟨r', Or.inr ⟨?_, ?_⟩⟩
      · rw [Function.update_noteq ha1]; exact hna
      · rw [Function.update_noteq ha1]; exact hr'

theorem unionAtoms_forest {fuel k n : Nat} {p : Nat → Nat} {a b : Nat} (hF : Forest p k n)
    (ha : a < n) (hb : b < n) (hf : k < fuel) :
    ∃ p', unionAtoms fuel p a b = some p' ∧ Forest p' (k + 1) n := by
  obtain ⟨r1, p1, hf1, hF1, hr1⟩ := find_forest hF ha hf
  obtain ⟨r2, p2, hf2, hF2, hr2⟩ := find_forest hF1 hb hf
  have hr1' : p2 r1 = r1 := by
    obtain ⟨r, hr⟩ := hF1 b hb
    obtain ⟨p2', hfind, hc⟩ := find_spec k fuel p1 b r hr hf
    rw [hfind] at hf2
    simp only [Option.some.injEq, Prod.mk.injEq] at hf2
    rw [← hf2.2]
    exact (hc.reach (ReachRoot.self hr1 0)).2
  by_cases e : r1 = r2
  · refine ⟨p2, by simp [unionAtoms, hf1, hf2, e], ?_⟩
    intro i hi
    obtain ⟨r, hr⟩ := hF2 i hi
    exact ⟨r, hr.succ⟩
  · refine ⟨Function.update p2 r1 r2, by simp [unionAtoms, hf1, hf2, e], ?_⟩
    intro i hi
    obtain ⟨r, hr⟩ := hF2 i hi
    exact reach_update_root hr1' hr2 e hr

theorem initParent_forest (n : Nat) (p : Nat → Nat) :
    Forest (forLoop n (fun i parent => Function.update parent i i) p) 0 n := by
  have h : ∀ i, i < n → forLoop n (fun i parent => Function.update parent i i) p i = i := by
    refine forLoop_inv (fun (k : Nat) (q : Nat → Nat) => ∀ i, i < k → q i = i) n _ p ?_ ?_
    · intro i hi; omega
    · intro k _ t ht i hi
      by_cases e : i = k
      · subst e; simp
      · rw [Function.update_noteq e]; exact ht i (by omega)
  intro i hi
  exact ⟨i, rfl, h i hi⟩

theorem Forest.weaken {p : Nat → Nat} {k k' n : Nat} (h : Forest p k n) (hk : k ≤ k') :
    Forest p k' n := fun i hi => let ⟨r, hr⟩ := h i hi; ⟨r, hr.mono hk⟩

end UnionFind

/-! ## Geometry and pair energies -/

section KernelLemmas

variable {α : Type} [LinearOrderedField α]

omit [LinearOrderedField α] in
theorem setCoord_apply (c : Nat → Nat → α) (d a : Nat) (v : α) (d' a' : Nat) :
    setCoord c d a v d' a' = if d' = d ∧ a' = a then v else c d' a' := by
  unfold setCoord
  by_cases hd : d' = d
  · subst hd
    by_cases ha : a' = a
    · subst ha; simp
    · simp [ha]
  · simp [hd]

theorem makePeriodic_eq_spec_aux (x : α) (d : Nat) (L : Nat → α) :
    makePeriodic x d L = makePeriodicSpec x d L := by
  have h1 : (-0.5 : α) * L d = -(L d) / 2 := by norm_num; ring
  have h2 : (0.5 : α) * L d = L d / 2 := by norm_num; ring
  simp only [makePeriodic, makePeriodicSpec, h1, h2]
  by_cases hlt : x < -(L d) / 2
  · have hgt : ¬ (x + 1 * L d > L d / 2) := by
      intro h; linarith
    rw [if_pos hlt, if_pos hlt, if_neg hgt]; ring
  · rw [if_neg hlt, if_neg hlt]
    have e : x + 0 * L d = x := by ring
    rw [e]
    by_cases hgt : x > L d / 2
    · rw [if_pos hgt, if_pos hgt]; ring
    · rw [if_neg hgt, if_neg hgt]; ring

theorem rotateAtom_apply (M : CMath α) (a p : Nat) (rx ry rz : α) (c : Nat → Nat → α)
    (d b : Nat) :
    rotateAtom M a p rx ry rz c d b =
      if b = a then
        (if d = 0 then (rotateAtomSpec M rx ry rz (atomPos c a) (atomPos c p)).1
         else if d = 1 then (rotateAtomSpec M rx ry rz (atomPos c a) (atomPos c p)).2.1
         else if d = 2 then (rotateAtomSpec M rx ry rz (atomPos c a) (atomPos c p)).2.2
         else c d b)
      else c d b := by
  have k : (180.0 : α) = 180 := by norm_num
  by_cases hb : b = a
  · subst hb
    rcases Nat.lt_or_ge d 3 with hd | hd
    · interval_cases d <;>
      · simp [rotateAtom, rotateX, rotateY, rotateZ, translateAtom, setCoord_apply,
          rotateAtomSpec, rotationXSpec, rotationYSpec, rotationZSpec, axisRotationSpec,
          atomPos, X_COORD, Y_COORD, Z_COORD, k]
        try ring
    · have h0 : d ≠ 0 := by omega
      have h1 : d ≠ 1 := by omega
      have h2 : d ≠ 2 := by omega
      simp [rotateAtom, rotateX, rotateY, rotateZ, translateAtom, setCoord_apply,
        X_COORD, Y_COORD, Z_COORD, h0, h1, h2]
  · simp [rotateAtom, rotateX, rotateY, rotateZ, translateAtom, setCoord_apply, hb]

theorem rotateAtom_distSq (M : CMath α) (hM : ∀ t, M.cos t ^ 2 + M.sin t ^ 2 = 1)
    (a p : Nat) (rx ry rz : α) (c : Nat → Nat → α) :
    (rotateAtom M a p rx ry rz c 0 a - rotateAtom M a p rx ry rz c 0 p) ^ 2 +
    (rotateAtom M a p rx ry rz c 1 a - rotateAtom M a p rx ry rz c 1 p) ^ 2 +
    (rotateAtom M a p rx ry rz c 2 a - rotateAtom M a p rx ry rz c 2 p) ^ 2 =
    (c 0 a - c 0 p) ^ 2 + (c 1 a - c 1 p) ^ 2 + (c 2 a - c 2 p) ^ 2 := by
  have hx := hM (rx * 3.14159265358979 / 180)
  have hy := hM (ry * 3.14159265358979 / 180)
  have hz := hM (rz * 3.14159265358979 / 180)
  by_cases hap : p = a
  · subst hap; simp
  · simp only [rotateAtom_apply, if_neg hap, if_true, rotateAtomSpec, rotationXSpec,
      rotationYSpec, rotationZSpec, axisRotationSpec, atomPos, X_COORD, Y_COORD, Z_COORD]
    simp only [show (1 : Nat) ≠ 0 by decide, show (2 : Nat) ≠ 0 by decide,
      show (2 : Nat) ≠ 1 by decide, if_false, if_true]
    generalize M.cos (rx * 3.14159265358979 / 180) = cx at hx ⊢
    generalize M.sin (rx * 3.14159265358979 / 180) = sx at hx ⊢
    generalize M.cos (ry * 3.14159265358979 / 180) = cy at hy ⊢
    generalize M.sin (ry * 3.14159265358979 / 180) = sy at hy ⊢
    generalize M.cos (rz * 3.14159265358979 / 180) = cz at hz ⊢
    generalize M.sin (rz * 3.14159265358979 / 180) = sz at hz ⊢
    generalize c 0 a - c 0 p = x0
    generalize c 1 a - c 1 p = y0
    generalize c 2 a - c 2 p = z0
    linear_combination (y0 ^ 2 + z0 ^ 2) * hx +
      ((z0 * cx - y0 * sx) ^ 2 + x0 ^ 2) * hy +
      ((x0 * cy - (z0 * cx - y0 * sx) * sy) ^ 2 + (y0 * cx + z0 * sx) ^ 2) * hz

theorem calcLJEnergy_eq (M : CMath α) (a1 a2 : Nat) (r2 : α) (sg ep : Nat → α) :
    calcLJEnergy M a1 a2 r2 sg ep =
      if r2 = 0 then 0
      else 4 * calcBlending M (ep a1) (ep a2) *
        ((calcBlending M (sg a1) (sg a2) ^ 2 / r2) ^ 6 -
         (calcBlending M (sg a1) (sg a2) ^ 2 / r2) ^ 3) := by
  unfold calcLJEnergy
  have z : (0.0 : α) = 0 := by norm_num
  have f : (4.0 : α) = 4 := by norm_num
  simp only [z, f]
  split_ifs
  · rfl
  · ring

end KernelLemmas

section RealLemmas

theorem quarterTurn_bounds :
    |Real.cos (314159265358979 / 200000000000000)| ≤ 1 / 1000000000000 ∧
    |Real.sin (314159265358979 / 200000000000000) - 1| ≤ 1 / 1000000000000 := by
  have hgt : (314159265358979323846 / 100000000000000000000 : ℝ) < Real.pi := by
    have := Real.pi_gt_d20
    norm_num at this ⊢
    linarith
  have hlt : Real.pi < (314159265358979323847 / 100000000000000000000 : ℝ) := by
    have := Real.pi_lt_d20
    norm_num at this ⊢
    linarith
  obtain ⟨δ, hδ⟩ : ∃ δ : ℝ, δ = Real.pi / 2 - 314159265358979 / 200000000000000 := ⟨_, rfl⟩
  have hθ : (314159265358979 / 200000000000000 : ℝ) = Real.pi / 2 - δ := by rw [hδ]; ring
  have hδ0 : 0 ≤ δ := by rw [hδ]; linarith
  have hδ1 : δ ≤ 1 / 100000000000000 := by rw [hδ]; linarith
  have hδpi : δ ≤ Real.pi := by linarith
  rw [hθ, Real.cos_pi_div_two_sub, Real.sin_pi_div_two_sub]
  have hs0 : 0 ≤ Real.sin δ := Real.sin_nonneg_of_nonneg_of_le_pi hδ0 hδpi
  have hs1 : Real.sin δ ≤ δ := Real.sin_le hδ0
  have hc0 : 1 - δ ^ 2 / 2 ≤ Real.cos δ := Real.one_sub_sq_div_two_le_cos
  have hc1 : Real.cos δ ≤ 1 := Real.cos_le_one δ
  have hδ2 : δ ^ 2 ≤ 1 / 100000000000000 := by nlinarith
  constructor
  · rw [abs_of_nonneg hs0]; linarith
  · rw [abs_of_nonpos (by linarith)]; linarith

theorem rotateAtom_quarterTurn :
    |rotateAtom (CMath.mk Real.sqrt Real.cos Real.sin Real.exp) 0 1 90 0 0
        (fun d b => if d = 1 ∧ b = 0 then (1 : ℝ) else 0) 0 0 - 0| ≤ 1e-12 ∧
    |rotateAtom (CMath.mk Real.sqrt Real.cos Real.sin Real.exp) 0 1 90 0 0
        (fun d b => if d = 1 ∧ b = 0 then (1 : ℝ) else 0) 1 0 - 0| ≤ 1e-12 ∧
    |rotateAtom (CMath.mk Real.sqrt Real.cos Real.sin Real.exp) 0 1 90 0 0
        (fun d b => if d = 1 ∧ b = 0 then (1 : ℝ) else 0) 2 0 - (-1)| ≤ 1e-12 := by
  obtain ⟨hc, hs⟩ := quarterTurn_bounds
  have e : (90 * 3.14159265358979 / 180 : ℝ) = 314159265358979 / 200000000000000 := by norm_num
  have e12 : (1e-12 : ℝ) = 1 / 1000000000000 := by norm_num
  rw [abs_sub_comm] at hs
  simp only [rotateAtom_apply, rotateAtomSpec, rotationXSpec, rotationYSpec, rotationZSpec,
      axisRotationSpec, atomPos, X_COORD, Y_COORD, Z_COORD, e, e12]
  refine ⟨?_, ?_, ?_⟩
  · norm_num
  · norm_num
    exact hc
  · norm_num
    have e2 : -Real.sin (314159265358979 / 200000000000000 : ℝ) + 1 =
        1 - Real.sin (314159265358979 / 200000000000000) := by ring
    rw [e2]
    exact hs

theorem calcLJEnergy_scenario :
    calcLJEnergy (CMath.mk Real.sqrt Real.cos Real.sin Real.exp) 0 1 1 (fun _ => 1) (fun _ => 1) = 0 ∧
    calcLJEnergy (CMath.mk Real.sqrt Real.cos Real.sin Real.exp) 0 1 ((2 : ℝ) ^ ((1 : ℝ) / 3))
      (fun _ => 1) (fun _ => 1) = -1 := by
  have hb : calcBlending (CMath.mk Real.sqrt Real.cos Real.sin Real.exp) (1 : ℝ) 1 = 1 := by
    simp [calcBlending]
  have h3 : ((2 : ℝ) ^ ((1 : ℝ) / 3)) ^ 3 = 2 := by
    rw [← Real.rpow_natCast, ← Real.rpow_mul (by norm_num)]
    norm_num
  have hne : ((2 : ℝ) ^ ((1 : ℝ) / 3)) ≠ 0 := by
    intro h; rw [h] at h3; norm_num at h3
  constructor
  · rw [calcLJEnergy_eq]; simp [hb]
  · rw [calcLJEnergy_eq, if_neg hne, hb]
    have e6 : ((2 : ℝ) ^ ((1 : ℝ) / 3)) ^ 6 = 4 := by
      have : ((2 : ℝ) ^ ((1 : ℝ) / 3)) ^ 6 = (((2 : ℝ) ^ ((1 : ℝ) / 3)) ^ 3) ^ 2 := by ring
      rw [this, h3]; norm_num
    rw [div_pow, div_pow, h3, e6]
    norm_num

end RealLemmas

/-! ## Frame of the moves -/

section FrameLemmas

variable {α : Type} [LinearOrderedField α]

omit [LinearOrderedField α] in
theorem Frame.refl (m : Nat) (sb : SimBox α) : Frame m sb sb :=
  ⟨rfl, rfl, rfl, rfl, rfl, rfl, rfl, rfl, rfl, rfl, rfl, rfl, rfl, rfl,
    fun _ _ _ => rfl, fun _ _ => rfl, fun _ _ => rfl⟩

omit [LinearOrderedField α] in
theorem Frame.trans {m : Nat} {s1 s2 s3 : SimBox α} (h12 : Frame m s1 s2) (h23 : Frame m s2 s3) :
    Frame m s1 s3 where
  molStart := h23.molStart.trans h12.molStart
  molLen := h23.molLen.trans h12.molLen
  bondStart := h23.bondStart.trans h12.bondStart
  bondCount := h23.bondCount.trans h12.bondCount
  angleStart := h23.angleStart.trans h12.angleStart
  angleCount := h23.angleCount.trans h12.angleCount
  bondA1 := h23.bondA1.trans h12.bondA1
  bondA2 := h23.bondA2.trans h12.bondA2
  angleA1 := h23.angleA1.trans h12.angleA1
  angleA2 := h23.angleA2.trans h12.angleA2
  maxIntra := h23.maxIntra.trans h12.maxIntra
  rbCoords := h23.rbCoords.trans h12.rbCoords
  rbBonds := h23.rbBonds.trans h12.rbBonds
  rbAngles := h23.rbAngles.trans h12.rbAngles
  coords := fun d a h => by
    rw [h23.coords d a (by simpa [InMol, h12.molStart, h12.molLen] using h), h12.coords d a h]
  bonds := fun b h => by
    rw [h23.bonds b (by simpa [h12.bondStart, h12.bondCount] using h), h12.bonds b h]
  angles := fun g h => by
    rw [h23.angles g (by simpa [h12.angleStart, h12.angleCount] using h), h12.angles g h]

omit [LinearOrderedField α] in
theorem Frame.wellFormed {m : Nat} {sb sb' : SimBox α} (h : Frame m sb sb')
    (hwf : WellFormed sb m) : WellFormed sb' m := by
  simpa [WellFormed, InMol, h.molStart, h.molLen, h.bondStart, h.bondCount, h.angleStart,
    h.angleCount, h.bondA1, h.bondA2, h.angleA1, h.angleA2] using hwf

omit [LinearOrderedField α] in
theorem writeDims_frame (c : Nat → Nat → α) (a : Nat) (f : Nat → (Nat → Nat → α) → α)
    (d b : Nat) (h : ¬ (d < NUM_DIMENSIONS ∧ b = a)) :
    forLoop NUM_DIMENSIONS (fun j aCoords => setCoord aCoords j a (f j aCoords)) c d b = c d b := by
  simp only [forLoop, NUM_DIMENSIONS, setCoord_apply] at h ⊢
  by_cases hb : b = a
  · have hd : ¬ d < 3 := fun hd => h ⟨hd, hb⟩
    have h0 : d ≠ 0 := by omega
    have h1 : d ≠ 1 := by omega
    have h2 : d ≠ 2 := by omega
    simp [h0, h1, h2]
  · simp [hb]

theorem stretchBond_frame (fuel : Nat) (M : CMath α) (sb : SimBox α) (m bondIdx : Nat) (x : α)
    (hwf : WellFormed sb m) (hfuel : sb.MOL_BOND_COUNT m < fuel)
    (hb : bondIdx < sb.MOL_BOND_COUNT m) :
    ∃ sb', stretchBond fuel M sb m bondIdx x = some sb' ∧ Frame m sb sb' := by
  unfold stretchBond
  simp only [Option.bind_eq_bind, Option.pure_def, Nat.add_sub_cancel_left]
  have hloc : ∀ a, InMol sb m a → a - sb.MOL_START m < sb.MOL_LEN m := by
    intro a ha; unfold InMol at ha; omega
  apply bind_post (fun p => Forest p (sb.MOL_BOND_COUNT m) (sb.MOL_LEN m))
  · apply forLoopM_inv (fun k p => Forest p k (sb.MOL_LEN m))
    · exact initParent_forest _ _
    · intro k hk p hp
      split_ifs
      · exact ⟨p, rfl, hp.weaken (Nat.le_succ k)⟩
      · exact unionAtoms_forest hp (hloc _ (hwf.1 k hk).1) (hloc _ (hwf.1 k hk).2) (by omega)
  · intro p hp
    obtain ⟨s1, p1, hf1, hF1, -⟩ := find_forest hp (hloc _ (hwf.1 bondIdx hb).1) hfuel
    rw [hf1]
    simp only [Option.some_bind]
    obtain ⟨s2, p2, hf2, hF2, -⟩ := find_forest hF1 (hloc _ (hwf.1 bondIdx hb).2) hfuel
    rw [hf2]
    simp only [Option.some_bind]
    by_cases hs : s1 = s2
    · rw [if_pos hs]
      exact ⟨_, rfl, ⟨rfl, rfl, rfl, rfl, rfl, rfl, rfl, rfl, rfl, rfl, rfl, rfl, rfl, rfl,
        fun _ _ _ => rfl, fun _ _ => rfl, fun _ _ => rfl⟩⟩
    · rw [if_neg hs]
      apply bind_post (fun st : (Nat → Nat) × (Nat → Nat → α) =>
        Forest st.1 (sb.MOL_BOND_COUNT m) (sb.MOL_LEN m) ∧
        ∀ d a, ¬ (d < NUM_DIMENSIONS ∧ InMol sb m a) → st.2 d a = sb.atomCoordinates d a)
      · apply forLoopM_inv (fun (_ : Nat) (st : (Nat → Nat) × (Nat → Nat → α)) =>
          Forest st.1 (sb.MOL_BOND_COUNT m) (sb.MOL_LEN m) ∧
          ∀ d a, ¬ (d < NUM_DIMENSIONS ∧ InMol sb m a) → st.2 d a = sb.atomCoordinates d a)
        · exact ⟨hF2, fun _ _ _ => rfl⟩
        · intro k hk t ht
          obtain ⟨r, p', hf, hF, -⟩ := find_forest ht.1 hk hfuel
          rw [hf]
          have hnot : ∀ d a, ¬ (d < NUM_DIMENSIONS ∧ InMol sb m a) →
              ¬ (d < NUM_DIMENSIONS ∧ a = k + sb.MOL_START m) := by
            intro d a h h'
            apply h
            refine ⟨h'.1, ?_⟩
            unfold InMol
            omega
          simp only []
          split_ifs
          · refine ⟨_, rfl, hF, ?_⟩
            intro d a h
            exact (writeDims_frame _ _ _ d a (hnot d a h)).trans (ht.2 d a h)
          · refine ⟨_, rfl, hF, ?_⟩
            intro d a h
            exact (writeDims_frame _ _ _ d a (hnot d a h)).trans (ht.2 d a h)
      · intro st hst
        refine ⟨_, rfl, ⟨rfl, rfl, rfl, rfl, rfl, rfl, rfl, rfl, rfl, rfl, rfl, rfl, rfl, rfl,
          hst.2, ?_, fun _ _ => rfl⟩⟩
        intro b hb'
        have : b ≠ sb.MOL_BOND_START m + bondIdx := by
          intro e; apply hb'; omega
        exact Function.update_noteq this _ _

theorem rotateAboutNormal_frame (M : CMath α) (normal mvector : Nat → α) (theta : α) (i : Nat)
    (c : Nat → Nat → α) (d b : Nat) (h : ¬ (d < NUM_DIMENSIONS ∧ b = i)) :
    rotateAboutNormal M normal mvector theta i c d b = c d b := by
  unfold rotateAboutNormal
  exact writeDims_frame _ _ _ d b h

theorem expandAngle_frame (fuel : Nat) (M : CMath α) (sb : SimBox α) (m angleIdx : Nat) (x : α)
    (hwf : WellFormed sb m) (hfuel : sb.MOL_BOND_COUNT m < fuel)
    (hb : angleIdx < sb.MOL_ANGLE_COUNT m) :
    ∃ sb', expandAngle fuel M sb m angleIdx x = some sb' ∧ Frame m sb sb' := by
  unfold expandAngle
  simp only [Option.bind_eq_bind, Option.pure_def, Nat.add_sub_cancel_left]
  have hloc : ∀ a, InMol sb m a → a - sb.MOL_START m < sb.MOL_LEN m := by
    intro a ha; unfold InMol at ha; omega
  apply bind_post (fun p => Forest p (sb.MOL_BOND_COUNT m) (sb.MOL_LEN m))
  · apply forLoopM_inv (fun k p => Forest p k (sb.MOL_LEN m))
    · exact initParent_forest _ _
    · intro k hk p hp
      split_ifs
      · exact ⟨p, rfl, hp.weaken (Nat.le_succ k)⟩
      · exact unionAtoms_forest hp (hloc _ (hwf.1 k hk).1) (hloc _ (hwf.1 k hk).2) (by omega)
  · intro p hp
    obtain ⟨s1, p1, hf1, hF1, -⟩ := find_forest hp (hloc _ (hwf.2 angleIdx hb).1) hfuel
    rw [hf1]
    simp only [Option.some_bind]
    obtain ⟨s2, p2, hf2, hF2, -⟩ := find_forest hF1 (hloc _ (hwf.2 angleIdx hb).2) hfuel
    rw [hf2]
    simp only [Option.some_bind]
    by_cases hs : s1 = s2
    · rw [if_pos hs]
      exact ⟨_, rfl, ⟨rfl, rfl, rfl, rfl, rfl, rfl, rfl, rfl, rfl, rfl, rfl, rfl, rfl, rfl,
        fun _ _ _ => rfl, fun _ _ => rfl, fun _ _ => rfl⟩⟩
    · rw [if_neg hs]
      apply bind_post (fun st : (Nat → Nat) × (Nat → Nat → α) =>
        Forest st.1 (sb.MOL_BOND_COUNT m) (sb.MOL_LEN m) ∧
        ∀ d a, ¬ (d < NUM_DIMENSIONS ∧ InMol sb m a) → st.2 d a = sb.atomCoordinates d a)
      · apply forLoopM_inv (fun (_ : Nat) (st : (Nat → Nat) × (Nat → Nat → α)) =>
          Forest st.1 (sb.MOL_BOND_COUNT m) (sb.MOL_LEN m) ∧
          ∀ d a, ¬ (d < NUM_DIMENSIONS ∧ InMol sb m a) → st.2 d a = sb.atomCoordinates d a)
        · exact ⟨hF2, fun _ _ _ => rfl⟩
        · intro k hk t ht
          obtain ⟨r, p', hf, hF, -⟩ := find_forest ht.1 hk hfuel
          rw [hf]
          obtain ⟨r', p'', hf', hF', -⟩ := find_forest hF hk hfuel
          have hnot : ∀ d a, ¬ (d < NUM_DIMENSIONS ∧ InMol sb m a) →
              ¬ (d < NUM_DIMENSIONS ∧ a = sb.MOL_START m + k) := by
            intro d a h h'
            apply h
            refine ⟨h'.1, ?_⟩
            unfold InMol
            omega
          simp only []
          split_ifs
          · refine ⟨_, rfl, hF, ?_⟩
            intro d a h
            exact (rotateAboutNormal_frame _ _ _ _ _ _ d a (hnot d a h)).trans (ht.2 d a h)
          · rw [hf']
            simp only []
            split_ifs
            · refine ⟨_, rfl, hF', ?_⟩
              intro d a h
              exact (rotateAboutNormal_frame _ _ _ _ _ _ d a (hnot d a h)).trans (ht.2 d a h)
            · exact ⟨_, rfl, hF', ht.2⟩
      · intro st hst
        refine ⟨_, rfl, ⟨rfl, rfl, rfl, rfl, rfl, rfl, rfl, rfl, rfl, rfl, rfl, rfl, rfl, rfl,
          hst.2, fun _ _ => rfl, ?_⟩⟩
        intro b hb'
        have : b ≠ sb.MOL_ANGLE_START m + angleIdx := by
          intro e; apply hb'; omega
        exact Function.update_noteq this _ _

theorem moveSelected_frame (m : Nat) (move : SimBox α → Nat → α → Option (SimBox α))
    (P : Nat → Prop) (W : SimBox α → Prop)
    (hW : ∀ sb sb', W sb → Frame m sb sb' → W sb')
    (hmove : ∀ sb idx x, W sb → P idx → ∃ sb', move sb idx x = some sb' ∧ Frame m sb sb')
    (scaleFactor : α) (dist : Nat → α) (sb0 : SimBox α) :
    ∀ (l : List Nat) (k : Nat) (sb : SimBox α), W sb → Frame m sb0 sb → (∀ i ∈ l, P i) →
      ∃ sb', moveSelected move scaleFactor dist l k sb = some sb' ∧ Frame m sb0 sb' := by
  intro l
  induction l with
  | nil => intro k sb _ h0 _; exact ⟨sb, rfl, h0⟩
  | cons idx rest ih =>
    intro k sb hw h0 hl
    obtain ⟨sb1, h1, hF1⟩ := hmove sb idx (scaleFactor * dist k) hw (hl idx (List.mem_cons_self _ _))
    obtain ⟨sb2, h2, hF2⟩ := ih (k + 1) sb1 (hW sb sb1 hw hF1) (h0.trans hF1)
      (fun i hi => hl i (List.mem_cons_of_mem _ hi))
    exact ⟨sb2, by simp [moveSelected, h1, h2], hF2⟩

theorem translateAtom_frame (a : Nat) (dX dY dZ : α) (c : Nat → Nat → α) (d b : Nat)
    (h : ¬ (d < NUM_DIMENSIONS ∧ b = a)) : translateAtom a dX dY dZ c d b = c d b := by
  simp only [translateAtom, setCoord_apply, X_COORD, Y_COORD, Z_COORD, NUM_DIMENSIONS] at h ⊢
  by_cases hb : b = a
  · have hd : ¬ d < 3 := fun hd => h ⟨hd, hb⟩
    have h0 : d ≠ 0 := by omega
    have h1 : d ≠ 1 := by omega
    have h2 : d ≠ 2 := by omega
    simp [h0, h1, h2]
  · simp [hb]

theorem rotateAtom_frame (M : CMath α) (a p : Nat) (rx ry rz : α) (c : Nat → Nat → α) (d b : Nat)
    (h : ¬ (d < NUM_DIMENSIONS ∧ b = a)) : rotateAtom M a p rx ry rz c d b = c d b := by
  simp only [rotateAtom, rotateX, rotateY, rotateZ, translateAtom, setCoord_apply, X_COORD,
    Y_COORD, Z_COORD, NUM_DIMENSIONS] at h ⊢
  by_cases hb : b = a
  · have hd : ¬ d < 3 := fun hd => h ⟨hd, hb⟩
    have h0 : d ≠ 0 := by omega
    have h1 : d ≠ 1 := by omega
    have h2 : d ≠ 2 := by omega
    simp [h0, h1, h2]
  · simp [hb]

theorem keepMoleculeInBox_frame (m : Nat) (c : Nat → Nat → α) (S L P : Nat → Nat)
    (pIdxes : Nat → Nat) (bSize : Nat → α) (d a : Nat)
    (h : ¬ (d < NUM_DIMENSIONS ∧ S m ≤ a ∧ a < S m + L m)) :
    keepMoleculeInBox m c S L P pIdxes bSize d a = c d a := by
  unfold keepMoleculeInBox
  refine forLoop_inv (fun (_ : Nat) (c' : Nat → Nat → α) => c' d a = c d a) NUM_DIMENSIONS _ c rfl ?_
  intro i hi t ht
  have inner : ∀ (f : (Nat → Nat → α) → Nat → α),
      forLoop (L m) (fun k aCoords => setCoord aCoords i (S m + k) (f aCoords k)) t d a = c d a := by
    intro f
    refine forLoop_inv (fun (_ : Nat) (c' : Nat → Nat → α) => c' d a = c d a) (L m) _ t ht ?_
    intro k hk u hu
    rw [setCoord_apply, if_neg, hu]
    rintro ⟨rfl, rfl⟩
    exact h ⟨hi, by omega, by omega⟩
  simp only []
  split_ifs
  · exact inner (fun aCoords k => aCoords i (S m + k) + bSize i)
  · exact inner (fun aCoords k => aCoords i (S m + k) - bSize i)
  · exact ht

theorem intermolecularMove_coords (M : CMath α) (sb : SimBox α) (m : Nat) (dr : MoveDraws α)
    (hv : dr.vertexIdx < sb.MOL_LEN m) :
    (∀ d i, d < NUM_DIMENSIONS → i < sb.MOL_LEN m →
      (intermolecularMove M sb m dr).rollBackCoordinates d i =
        sb.atomCoordinates d (sb.MOL_START m + i)) ∧
    (∀ d a, ¬ (d < NUM_DIMENSIONS ∧ InMol sb m a) →
      (intermolecularMove M sb m dr).atomCoordinates d a = sb.atomCoordinates d a) := by
  have loop := forLoop_inv (fun (k : Nat) (st : (Nat → Nat → α) × (Nat → Nat → α)) =>
      (∀ d i, d < NUM_DIMENSIONS → i < k → st.1 d i = sb.atomCoordinates d (sb.MOL_START m + i)) ∧
      (∀ d a, ¬ (d < NUM_DIMENSIONS ∧ sb.MOL_START m ≤ a ∧ a < sb.MOL_START m + k) →
        st.2 d a = sb.atomCoordinates d a)) (sb.MOL_LEN m)
    (fun i (st : (Nat → Nat → α) × (Nat → Nat → α)) =>
      let rBCoords := forLoop NUM_DIMENSIONS (fun j rBCoords =>
        setCoord rBCoords j i (st.2 j (sb.MOL_START m + i))) st.1
      if i = dr.vertexIdx then (rBCoords, st.2)
      else
        let aCoords := rotateAtom M (sb.MOL_START m + i) (sb.MOL_START m + dr.vertexIdx)
          dr.rotX dr.rotY dr.rotZ st.2
        let aCoords := translateAtom (sb.MOL_START m + i) dr.deltaX dr.deltaY dr.deltaZ aCoords
        (rBCoords, aCoords)) (sb.rollBackCoordinates, sb.atomCoordinates)
    ⟨fun _ _ _ hi => absurd hi (Nat.not_lt_zero _), fun _ _ _ => rfl⟩ ?_
  · obtain ⟨hrb, hc⟩ := loop
    refine ⟨hrb, ?_⟩
    intro d a h
    have hnv : ¬ (d < NUM_DIMENSIONS ∧ a = sb.MOL_START m + dr.vertexIdx) := by
      intro h'; apply h; refine ⟨h'.1, ?_⟩; unfold InMol; omega
    have hnv' : ∀ j, j < NUM_DIMENSIONS → ¬ (d = j ∧ a = sb.MOL_START m + dr.vertexIdx) :=
      fun j hj h' => hnv ⟨h'.1 ▸ hj, h'.2⟩
    unfold intermolecularMove
    simp only []
    rw [keepMoleculeInBox_frame _ _ _ _ _ _ _ _ _ h, setCoord_apply,
      if_neg (hnv' 2 (by decide)), setCoord_apply, if_neg (hnv' 1 (by decide)), setCoord_apply,
      if_neg (hnv' 0 (by decide))]
    exact hc d a (fun h' => h ⟨h'.1, h'.2⟩)
  · intro k hk t ht
    have hsave : ∀ d i, d < NUM_DIMENSIONS → i < k + 1 →
        forLoop NUM_DIMENSIONS (fun j rBCoords =>
          setCoord rBCoords j k (t.2 j (sb.MOL_START m + k))) t.1 d i =
        sb.atomCoordinates d (sb.MOL_START m + i) := by
      intro d i hd hi
      have hcur : ∀ j, t.2 j (sb.MOL_START m + k) = sb.atomCoordinates j (sb.MOL_START m + k) :=
        fun j => ht.2 j _ (by omega)
      simp only [forLoop, NUM_DIMENSIONS, setCoord_apply, hcur] at hd ⊢
      by_cases e : i = k
      · subst e
        interval_cases d <;> simp
      · have := ht.1 d i hd (by omega)
        simp [e, this]
    simp only []
    split_ifs with hvk
    · refine ⟨hsave, ?_⟩
      intro d a h
      exact ht.2 d a (by omega)
    · refine ⟨hsave, ?_⟩
      intro d a h
      have hne : ¬ (d < NUM_DIMENSIONS ∧ a = sb.MOL_START m + k) := by omega
      show translateAtom (sb.MOL_START m + k) dr.deltaX dr.deltaY dr.deltaZ
        (rotateAtom M (sb.MOL_START m + k) (sb.MOL_START m + dr.vertexIdx) dr.rotX dr.rotY
          dr.rotZ t.2) d a = sb.atomCoordinates d a
      rw [translateAtom_frame _ _ _ _ _ _ _ hne, rotateAtom_frame _ _ _ _ _ _ _ _ _ hne]
      exact ht.2 d a (by omega)

omit [LinearOrderedField α] in
theorem rollback_bondLengths (sb : SimBox α) (m b : Nat) :
    (rollback sb m).bondLengths b =
      if sb.MOL_BOND_START m ≤ b ∧ b < sb.MOL_BOND_START m + sb.MOL_BOND_COUNT m
      then sb.rollBackBondLengths b else sb.bondLengths b := by
  simp only [rollback, rollbackBonds, rollbackAngles]
  exact copyLoop_apply _ _ _ _ b

omit [LinearOrderedField α] in
theorem rollback_angleSizes (sb : SimBox α) (m g : Nat) :
    (rollback sb m).angleSizes g =
      if sb.MOL_ANGLE_START m ≤ g ∧ g < sb.MOL_ANGLE_START m + sb.MOL_ANGLE_COUNT m
      then sb.rollBackAngleSizes g else sb.angleSizes g := by
  simp only [rollback, rollbackBonds, rollbackAngles]
  exact copyLoop_apply _ _ _ _ g

omit [LinearOrderedField α] in
theorem rollback_atomCoordinates (sb : SimBox α) (m d a : Nat) :
    (rollback sb m).atomCoordinates d a =
      if d < NUM_DIMENSIONS ∧ InMol sb m a
      then sb.rollBackCoordinates d (a - sb.MOL_START m) else sb.atomCoordinates d a := by
  simp only [rollback, rollbackBonds, rollbackAngles]
  have outer := forLoop_inv (fun (k : Nat) (c : Nat → Nat → α) =>
      c d a = if d < k ∧ InMol sb m a then sb.rollBackCoordinates d (a - sb.MOL_START m)
        else sb.atomCoordinates d a) NUM_DIMENSIONS
    (fun i aCoords => forLoop (sb.MOL_LEN m) (fun j aCoords =>
      setCoord aCoords i (sb.MOL_START m + j) (sb.rollBackCoordinates i j)) aCoords)
    sb.atomCoordinates ?_ ?_
  · exact outer
  · show sb.atomCoordinates d a = _
    rw [if_neg (by omega)]
  · intro k _ t ht
    replace ht : t d a = if d < k ∧ InMol sb m a
        then sb.rollBackCoordinates d (a - sb.MOL_START m) else sb.atomCoordinates d a := ht
    have inner := forLoop_inv (fun (j : Nat) (c : Nat → Nat → α) =>
        c d a = if (d < k ∧ InMol sb m a) ∨
            (d = k ∧ sb.MOL_START m ≤ a ∧ a < sb.MOL_START m + j)
          then sb.rollBackCoordinates d (a - sb.MOL_START m) else sb.atomCoordinates d a)
      (sb.MOL_LEN m)
      (fun j aCoords => setCoord aCoords k (sb.MOL_START m + j) (sb.rollBackCoordinates k j))
      t ?_ ?_
    · show forLoop (sb.MOL_LEN m) (fun j aCoords =>
        setCoord aCoords k (sb.MOL_START m + j) (sb.rollBackCoordinates k j)) t d a = _
      replace inner : forLoop (sb.MOL_LEN m) (fun j aCoords =>
          setCoord aCoords k (sb.MOL_START m + j) (sb.rollBackCoordinates k j)) t d a =
          if (d < k ∧ InMol sb m a) ∨
            (d = k ∧ sb.MOL_START m ≤ a ∧ a < sb.MOL_START m + sb.MOL_LEN m)
          then sb.rollBackCoordinates d (a - sb.MOL_START m) else sb.atomCoordinates d a := inner
      rw [inner]
      unfold InMol
      by_cases h : d < k + 1 ∧ sb.MOL_START m ≤ a ∧ a < sb.MOL_START m + sb.MOL_LEN m
      · rw [if_pos h, if_pos (by omega)]
      · rw [if_neg h, if_neg (by omega)]
    · show t d a = _
      rw [ht]
      unfold InMol
      by_cases h : d < k ∧ sb.MOL_START m ≤ a ∧ a < sb.MOL_START m + sb.MOL_LEN m
      · rw [if_pos h, if_pos (Or.inl h)]
      · rw [if_neg h, if_neg (by omega)]
    · intro j _ u hu
      replace hu : u d a = if (d < k ∧ InMol sb m a) ∨
            (d = k ∧ sb.MOL_START m ≤ a ∧ a < sb.MOL_START m + j)
          then sb.rollBackCoordinates d (a - sb.MOL_START m) else sb.atomCoordinates d a := hu
      show setCoord u k (sb.MOL_START m + j) (sb.rollBackCoordinates k j) d a = _
      rw [setCoord_apply]
      unfold InMol at hu ⊢
      by_cases e : d = k ∧ a = sb.MOL_START m + j
      · obtain ⟨rfl, rfl⟩ := e
        rw [if_pos ⟨rfl, rfl⟩, if_pos (by omega), Nat.add_sub_cancel_left]
      · rw [if_neg e, hu]
        by_cases h : (d < k ∧ sb.MOL_START m ≤ a ∧ a < sb.MOL_START m + sb.MOL_LEN m) ∨
            (d = k ∧ sb.MOL_START m ≤ a ∧ a < sb.MOL_START m + j)
        · rw [if_pos h, if_pos (by omega)]
        · rw [if_neg h, if_neg (by omega)]

omit [LinearOrderedField α] in
theorem Frame.of_fields {m : Nat} {sb sb' : SimBox α}
    (h1 : sb'.MOL_START = sb.MOL_START) (h2 : sb'.MOL_LEN = sb.MOL_LEN)
    (h3 : sb'.MOL_BOND_START = sb.MOL_BOND_START) (h4 : sb'.MOL_BOND_COUNT = sb.MOL_BOND_COUNT)
    (h5 : sb'.MOL_ANGLE_START = sb.MOL_ANGLE_START)
    (h6 : sb'.MOL_ANGLE_COUNT = sb.MOL_ANGLE_COUNT)
    (h7 : sb'.BOND_A1_IDX = sb.BOND_A1_IDX) (h8 : sb'.BOND_A2_IDX = sb.BOND_A2_IDX)
    (h9 : sb'.ANGLE_A1_IDX = sb.ANGLE_A1_IDX) (h10 : sb'.ANGLE_A2_IDX = sb.ANGLE_A2_IDX)
    (h11 : sb'.maxIntraMoves = sb.maxIntraMoves)
    (h12 : sb'.rollBackCoordinates = sb.rollBackCoordinates)
    (h13 : sb'.rollBackBondLengths = sb.rollBackBondLengths)
    (h14 : sb'.rollBackAngleSizes = sb.rollBackAngleSizes)
    (h15 : sb'.atomCoordinates = sb.atomCoordinates) (h16 : sb'.bondLengths = sb.bondLengths)
    (h17 : sb'.angleSizes = sb.angleSizes) : Frame m sb sb' :=
  ⟨h1, h2, h3, h4, h5, h6, h7, h8, h9, h10, h11, h12, h13, h14,
    fun _ _ _ => by rw [h15], fun _ _ => by rw [h16], fun _ _ => by rw [h17]⟩

omit [LinearOrderedField α] in
theorem Frame.ite {m : Nat} {sb : SimBox α} (c : Prop) [Decidable c] (s1 s2 : SimBox α)
    (h1 : Frame m sb s1) (h2 : Frame m sb s2) : Frame m sb (if c then s1 else s2) := by
  split_ifs
  · exact h1
  · exact h2

theorem bondBatch_frame (fuel : Nat) (M : CMath α) (sb : SimBox α) (m : Nat) (bd : BatchDraws α)
    (isf ce : α) (hwf : WellFormed sb m) (hfuel : sb.MOL_BOND_COUNT m < fuel)
    (hdraws : ∀ x ∈ bd.indexes, x < sb.MOL_BOND_COUNT m)
    (hsel : (selectIndexes (if sb.MOL_BOND_COUNT m > 3 then min bd.numToMove sb.maxIntraMoves
      else sb.MOL_BOND_COUNT m) bd.indexes []).isSome = true) :
    ∃ r, bondBatch fuel M sb m bd isf ce = some r ∧ Frame m sb r.1 := by
  unfold bondBatch
  simp only [Option.bind_eq_bind, Option.pure_def]
  obtain ⟨idxs, hidx⟩ := Option.isSome_iff_exists.mp hsel
  rw [hidx]
  simp only [Option.some_bind]
  have hmem : ∀ x ∈ idxs, x < sb.MOL_BOND_COUNT m :=
    selectIndexes_mem hidx hdraws (fun x hx => absurd hx (List.not_mem_nil x))
  apply bind_post (fun s => Frame m sb s)
  · apply moveSelected_frame m
      (fun sb bondIdx stretchDist => stretchBond fuel M sb m bondIdx stretchDist)
      (fun i => i < sb.MOL_BOND_COUNT m)
      (fun s => WellFormed s m ∧ s.MOL_BOND_COUNT = sb.MOL_BOND_COUNT)
      (fun s s' hw hF => ⟨hF.wellFormed hw.1, hF.bondCount.trans hw.2⟩)
      (fun s idx x hw hi => stretchBond_frame fuel M s m idx x hw.1 (by rw [hw.2]; exact hfuel)
        (by rw [hw.2]; exact hi))
    · exact ⟨hwf, rfl⟩
    · exact Frame.of_fields rfl rfl rfl rfl rfl rfl rfl rfl rfl rfl rfl rfl rfl rfl rfl rfl rfl
    · exact hmem
  · intro s hs
    refine ⟨_, rfl, ?_⟩
    exact Frame.ite _ _ _ (hs.trans (Frame.of_fields rfl rfl rfl rfl rfl rfl rfl rfl rfl rfl rfl
      rfl rfl rfl rfl rfl rfl)) hs

theorem angleBatch_frame (fuel : Nat) (M : CMath α) (sb : SimBox α) (m : Nat) (ad : BatchDraws α)
    (isf ce : α) (hwf : WellFormed sb m) (hfuel : sb.MOL_BOND_COUNT m < fuel)
    (hdraws : ∀ x ∈ ad.indexes, x < sb.MOL_ANGLE_COUNT m)
    (hsel : (selectIndexes (if sb.MOL_ANGLE_COUNT m > 3 then min ad.numToMove sb.maxIntraMoves
      else sb.MOL_ANGLE_COUNT m) ad.indexes []).isSome = true) :
    ∃ r, angleBatch fuel M sb m ad isf ce = some r ∧ Frame m sb r.1 := by
  unfold angleBatch
  simp only [Option.bind_eq_bind, Option.pure_def]
  obtain ⟨idxs, hidx⟩ := Option.isSome_iff_exists.mp hsel
  rw [hidx]
  simp only [Option.some_bind]
  have hmem : ∀ x ∈ idxs, x < sb.MOL_ANGLE_COUNT m :=
    selectIndexes_mem hidx hdraws (fun x hx => absurd hx (List.not_mem_nil x))
  apply bind_post (fun s => Frame m sb s)
  · apply moveSelected_frame m
      (fun sb angle expandDist => expandAngle fuel M sb m angle expandDist)
      (fun i => i < sb.MOL_ANGLE_COUNT m)
      (fun s => WellFormed s m ∧ s.MOL_BOND_COUNT = sb.MOL_BOND_COUNT ∧
        s.MOL_ANGLE_COUNT = sb.MOL_ANGLE_COUNT)
      (fun s s' hw hF => ⟨hF.wellFormed hw.1, hF.bondCount.trans hw.2.1,
        hF.angleCount.trans hw.2.2⟩)
      (fun s idx x hw hi => expandAngle_frame fuel M s m idx x hw.1
        (by rw [hw.2.1]; exact hfuel) (by rw [hw.2.2]; exact hi))
    · exact ⟨hwf, rfl, rfl⟩
    · exact Frame.of_fields rfl rfl rfl rfl rfl rfl rfl rfl rfl rfl rfl rfl rfl rfl rfl rfl rfl
    · exact hmem
  · intro s hs
    refine ⟨_, rfl, ?_⟩
    exact Frame.ite _ _ _ (hs.trans (Frame.of_fields rfl rfl rfl rfl rfl rfl rfl rfl rfl rfl rfl
      rfl rfl rfl rfl rfl rfl)) hs

theorem tuneDeltas_frame (m : Nat) (sb : SimBox α) (angleDelta : α) :
    Frame m sb (tuneDeltas sb angleDelta) := by
  unfold tuneDeltas
  simp only []
  split_ifs <;>
    exact Frame.of_fields rfl rfl rfl rfl rfl rfl rfl rfl rfl rfl rfl rfl rfl rfl rfl rfl rfl

theorem intramolecularMove_frame (fuel : Nat) (M : CMath α) (sb : SimBox α) (m : Nat)
    (bd ad : BatchDraws α) (hwf : WellFormed sb m) (hfuel : sb.MOL_BOND_COUNT m < fuel)
    (hbd : ∀ x ∈ bd.indexes, x < sb.MOL_BOND_COUNT m)
    (had : ∀ x ∈ ad.indexes, x < sb.MOL_ANGLE_COUNT m)
    (hbsel : (selectIndexes (if sb.MOL_BOND_COUNT m > 3 then min bd.numToMove sb.maxIntraMoves
      else sb.MOL_BOND_COUNT m) bd.indexes []).isSome = true)
    (hasel : (selectIndexes (if sb.MOL_ANGLE_COUNT m > 3 then min ad.numToMove sb.maxIntraMoves
      else sb.MOL_ANGLE_COUNT m) ad.indexes []).isSome = true) :
    ∃ sb', intramolecularMove fuel M sb m bd ad = some sb' ∧
      Frame m (saveAngles (saveBonds sb m) m) sb' := by
  unfold intramolecularMove
  simp only [Option.bind_eq_bind, Option.pure_def]
  have hB : (ENABLE_BOND ≠ 0) = True := eq_true (by decide)
  have hA : (ENABLE_ANGLE ≠ 0) = True := eq_true (by decide)
  simp only [hB, hA, if_true]
  apply bind_post (fun r => Frame m (saveAngles (saveBonds sb m) m) r.1)
  · exact bondBatch_frame fuel M _ m bd _ _ hwf hfuel hbd hbsel
  · intro r hr
    apply bind_post (fun r' => Frame m (saveAngles (saveBonds sb m) m) r'.1)
    · have h := angleBatch_frame fuel M r.1 m ad
        (0.25 + 0.75 / ((max (ENABLE_BOND + ENABLE_ANGLE + ENABLE_DIHEDRAL) 1 : Nat) : α)) r.2
        (hr.wellFormed hwf)
        (by rw [hr.bondCount]; exact hfuel) (by rw [hr.angleCount]; exact had)
        (by rw [hr.angleCount, hr.maxIntra]; exact hasel)
      obtain ⟨r', h1, h2⟩ := h
      exact ⟨r', h1, hr.trans h2⟩
    · intro r' hr'
      split_ifs
      · exact ⟨_, rfl, hr'.trans (tuneDeltas_frame m _ _)⟩
      · exact ⟨_, rfl, hr'⟩

end FrameLemmas

/-! ## The claims -/

section Claims

variable {α : Type} [LinearOrderedField α]

/-- Claim C1: rollback is an identity.  For a box whose bonds and angles of molecule `m`
join atoms of `m`, a vertex draw below the length of `m`, index draws below the bond
and angle counts that fill both selection loops, and fuel above the bond count,
`changeMolecule` returns a box, `rollback` of that box has exactly the atom
coordinates, bond lengths and angle sizes of the box before the move, and
`changeMolecule` itself changes no coordinate, bond length or angle size outside `m`. -/
theorem changeMolecule_rollback (fuel : Nat) (M : CMath α) (sb : SimBox α) (m : Nat)
    (d : MoveDraws α) (bd ad : BatchDraws α)
    (hwf : WellFormed sb m) (hfuel : sb.MOL_BOND_COUNT m < fuel)
    (hv : d.vertexIdx < sb.MOL_LEN m)
    (hbd : ∀ x ∈ bd.indexes, x < sb.MOL_BOND_COUNT m)
    (had : ∀ x ∈ ad.indexes, x < sb.MOL_ANGLE_COUNT m)
    (hbsel : (selectIndexes (if sb.MOL_BOND_COUNT m > 3 then min bd.numToMove sb.maxIntraMoves
      else sb.MOL_BOND_COUNT m) bd.indexes []).isSome = true)
    (hasel : (selectIndexes (if sb.MOL_ANGLE_COUNT m > 3 then min ad.numToMove sb.maxIntraMoves
      else sb.MOL_ANGLE_COUNT m) ad.indexes []).isSome = true) :
    ∃ sb', changeMolecule fuel M sb m d bd ad = some sb' ∧
      (rollback sb' m).atomCoordinates = sb.atomCoordinates ∧
      (rollback sb' m).bondLengths = sb.bondLengths ∧
      (rollback sb' m).angleSizes = sb.angleSizes ∧
      (∀ dim a, ¬ InMol sb m a → sb'.atomCoordinates dim a = sb.atomCoordinates dim a) ∧
      (∀ b, ¬ (sb.MOL_BOND_START m ≤ b ∧ b < sb.MOL_BOND_START m + sb.MOL_BOND_COUNT m) →
        sb'.bondLengths b = sb.bondLengths b) ∧
      (∀ g, ¬ (sb.MOL_ANGLE_START m ≤ g ∧ g < sb.MOL_ANGLE_START m + sb.MOL_ANGLE_COUNT m) →
        sb'.angleSizes g = sb.angleSizes g) := by
  obtain ⟨hrb, hco⟩ := intermolecularMove_coords M sb m d hv
  obtain ⟨sb', hsome, hF⟩ := intramolecularMove_frame fuel M (intermolecularMove M sb m d) m bd ad
    hwf hfuel hbd had hbsel hasel
  have e1 : sb'.MOL_START = sb.MOL_START := hF.molStart
  have e2 : sb'.MOL_LEN = sb.MOL_LEN := hF.molLen
  have e3 : sb'.rollBackCoordinates = (intermolecularMove M sb m d).rollBackCoordinates :=
    hF.rbCoords
  have e4 : sb'.MOL_BOND_START = sb.MOL_BOND_START := hF.bondStart
  have e5 : sb'.MOL_BOND_COUNT = sb.MOL_BOND_COUNT := hF.bondCount
  have e6 : sb'.MOL_ANGLE_START = sb.MOL_ANGLE_START := hF.angleStart
  have e7 : sb'.MOL_ANGLE_COUNT = sb.MOL_ANGLE_COUNT := hF.angleCount
  refine ⟨sb', hsome, ?_, ?_, ?_, ?_, hF.bonds, hF.angles⟩
  · funext dim a
    rw [rollback_atomCoordinates]
    simp only [InMol, e1, e2, e3]
    by_cases h : dim < NUM_DIMENSIONS ∧ InMol sb m a
    · rw [if_pos h]
      have := hrb dim (a - sb.MOL_START m) h.1 (by have := h.2; unfold InMol at this; omega)
      rw [show sb.MOL_START m + (a - sb.MOL_START m) = a by
        have := h.2; unfold InMol at this; omega] at this
      exact this
    · rw [if_neg h]
      exact (hF.coords dim a h).trans (hco dim a h)
  · funext b
    rw [rollback_bondLengths]
    simp only [e4, e5, hF.rbBonds]
    by_cases h : sb.MOL_BOND_START m ≤ b ∧ b < sb.MOL_BOND_START m + sb.MOL_BOND_COUNT m
    · rw [if_pos h]
      exact (copyLoop_apply _ _ _ _ b).trans (if_pos h)
    · rw [if_neg h]
      exact hF.bonds b h
  · funext g
    rw [rollback_angleSizes]
    simp only [e6, e7, hF.rbAngles]
    by_cases h : sb.MOL_ANGLE_START m ≤ g ∧ g < sb.MOL_ANGLE_START m + sb.MOL_ANGLE_COUNT m
    · rw [if_pos h]
      exact (copyLoop_apply _ _ _ _ g).trans (if_pos h)
    · rw [if_neg h]
      exact hF.angles g h
  · intro dim a h
    exact (hF.coords dim a (fun h' => h h'.2)).trans (hco dim a (fun h' => h h'.2))

/-- Witness of `changeMolecule_rollback` on the three-atom chain `chainBox`. -/
theorem changeMolecule_rollback_witness :
    WellFormed chainBox 0 ∧ chainBox.MOL_BOND_COUNT 0 < 3 ∧
    chainMoveDraws.vertexIdx < chainBox.MOL_LEN 0 ∧
    (∀ x ∈ chainBondDraws.indexes, x < chainBox.MOL_BOND_COUNT 0) ∧
    (∀ x ∈ chainAngleDraws.indexes, x < chainBox.MOL_ANGLE_COUNT 0) ∧
    (selectIndexes (if chainBox.MOL_BOND_COUNT 0 > 3
      then min chainBondDraws.numToMove chainBox.maxIntraMoves
      else chainBox.MOL_BOND_COUNT 0) chainBondDraws.indexes []).isSome = true ∧
    (selectIndexes (if chainBox.MOL_ANGLE_COUNT 0 > 3
      then min chainAngleDraws.numToMove chainBox.maxIntraMoves
      else chainBox.MOL_ANGLE_COUNT 0) chainAngleDraws.indexes []).isSome = true ∧
    ∃ sb', changeMolecule 3 ratMath chainBox 0 chainMoveDraws chainBondDraws chainAngleDraws =
        some sb' ∧
      (rollback sb' 0).atomCoordinates = chainBox.atomCoordinates ∧
      (rollback sb' 0).bondLengths = chainBox.bondLengths ∧
      (rollback sb' 0).angleSizes = chainBox.angleSizes ∧
      (∀ dim a, ¬ InMol chainBox 0 a →
        sb'.atomCoordinates dim a = chainBox.atomCoordinates dim a) ∧
      (∀ b, ¬ (chainBox.MOL_BOND_START 0 ≤ b ∧
          b < chainBox.MOL_BOND_START 0 + chainBox.MOL_BOND_COUNT 0) →
        sb'.bondLengths b = chainBox.bondLengths b) ∧
      (∀ g, ¬ (chainBox.MOL_ANGLE_START 0 ≤ g ∧
          g < chainBox.MOL_ANGLE_START 0 + chainBox.MOL_ANGLE_COUNT 0) →
        sb'.angleSizes g = chainBox.angleSizes g) :=
  have h1 : WellFormed chainBox 0 := by
    constructor
    · intro k hk
      simp only [chainBox, InMol] at hk ⊢
      omega
    · intro k hk
      simp only [chainBox, InMol] at hk ⊢
      omega
  have h2 : chainBox.MOL_BOND_COUNT 0 < 3 := by decide
  have h3 : chainMoveDraws.vertexIdx < chainBox.MOL_LEN 0 := by decide
  have h4 : ∀ x ∈ chainBondDraws.indexes, x < chainBox.MOL_BOND_COUNT 0 := by decide
  have h5 : ∀ x ∈ chainAngleDraws.indexes, x < chainBox.MOL_ANGLE_COUNT 0 := by decide
  have h6 : (selectIndexes (if chainBox.MOL_BOND_COUNT 0 > 3
      then min chainBondDraws.numToMove chainBox.maxIntraMoves
      else chainBox.MOL_BOND_COUNT 0) chainBondDraws.indexes []).isSome = true := by decide
  have h7 : (selectIndexes (if chainBox.MOL_ANGLE_COUNT 0 > 3
      then min chainAngleDraws.numToMove chainBox.maxIntraMoves
      else chainBox.MOL_ANGLE_COUNT 0) chainAngleDraws.indexes []).isSome = true := by decide
  ⟨h1, h2, h3, h4, h5, h6, h7,
    changeMolecule_rollback 3 ratMath chainBox 0 chainMoveDraws chainBondDraws chainAngleDraws
      h1 h2 h3 h4 h5 h6 h7⟩

/-- Claim C2: `makePeriodic` returns the piecewise value of the specification, and with
`L = 10` it maps `6` to `-4`, `-6` to `4` and `3` to `3`. -/
theorem makePeriodic_refines_spec (x : α) (d : Nat) (L : Nat → α) :
    makePeriodic x d L = makePeriodicSpec x d L ∧
    makePeriodic (6 : α) 0 (fun _ => 10) = -4 ∧
    makePeriodic (-6 : α) 0 (fun _ => 10) = 4 ∧
    makePeriodic (3 : α) 0 (fun _ => 10) = 3 := by
  refine ⟨makePeriodic_eq_spec_aux x d L, ?_, ?_, ?_⟩ <;>
  · simp only [makePeriodic]; norm_num

/-- Claim C3: periodic wrap idempotence.  For a box length `L d > 0` and `|x| < 1.5 * L d`,
applying `makePeriodic` twice gives the same value as applying it once. -/
theorem makePeriodic_idempotent (x : α) (d : Nat) (L : Nat → α) (hL : 0 < L d) (hx : |x| < 1.5 * L d) :
    makePeriodic (makePeriodic x d L) d L = makePeriodic x d L := by
  have _hpos := hL
  have hx1 : |x| < 3 / 2 * L d := by
    have : (1.5 : α) = 3 / 2 := by norm_num
    rwa [this] at hx
  obtain ⟨hlo, hhi⟩ := abs_lt.mp hx1
  rw [makePeriodic_eq_spec_aux, makePeriodic_eq_spec_aux]
  simp only [makePeriodicSpec]
  by_cases hlt : x < -(L d) / 2
  · have a1 : ¬ (x + L d < -(L d) / 2) := by intro h; linarith
    have a2 : ¬ (x + L d > L d / 2) := by intro h; linarith
    simp [hlt, a1, a2]
  · by_cases hgt : x > L d / 2
    · have a1 : ¬ (x - L d < -(L d) / 2) := by intro h; linarith
      have a2 : ¬ (x - L d > L d / 2) := by intro h; linarith
      simp [hlt, hgt, a1, a2]
    · simp [hlt, hgt]

/-- Witness of `makePeriodic_idempotent` at `x = 6`, `L = 10`. -/
theorem makePeriodic_idempotent_witness :
    (0 : ℚ) < (fun _ => 10 : Nat → ℚ) 0 ∧ |(6 : ℚ)| < 1.5 * (fun _ => 10 : Nat → ℚ) 0 ∧
    makePeriodic (makePeriodic (6 : ℚ) 0 (fun _ => 10)) 0 (fun _ => 10) =
      makePeriodic (6 : ℚ) 0 (fun _ => 10) :=
  ⟨by norm_num, by norm_num [abs_of_pos],
    makePeriodic_idempotent (6 : ℚ) 0 (fun _ => 10) (by norm_num) (by norm_num [abs_of_pos])⟩

/-- Claim C4: `rotateAtom a pivot rx ry rz` sets the position of atom `a` to
`pivot + Rz(Ry(Rx(coords[a] - pivot)))`, each axis rotation acting on the two remaining
coordinates as in `axisRotationSpec` (angles in degrees, converted with the literal
`3.14159265358979 / 180`), and changes no other entry; the atom `(0,1,0)` turned by
`rx = 90` about a pivot at the origin lands within `1e-12` of `(0,0,-1)`. -/
theorem rotateAtom_spec (M : CMath α) (a p : Nat) (rx ry rz : α) (c : Nat → Nat → α)
    (d b : Nat) :
    rotateAtom M a p rx ry rz c d b =
      (if b = a then
        (if d = 0 then (rotateAtomSpec M rx ry rz (atomPos c a) (atomPos c p)).1
         else if d = 1 then (rotateAtomSpec M rx ry rz (atomPos c a) (atomPos c p)).2.1
         else if d = 2 then (rotateAtomSpec M rx ry rz (atomPos c a) (atomPos c p)).2.2
         else c d b)
      else c d b) ∧
    (|rotateAtom (CMath.mk Real.sqrt Real.cos Real.sin Real.exp) 0 1 90 0 0
        (fun d b => if d = 1 ∧ b = 0 then (1 : ℝ) else 0) 0 0 - 0| ≤ 1e-12 ∧
     |rotateAtom (CMath.mk Real.sqrt Real.cos Real.sin Real.exp) 0 1 90 0 0
        (fun d b => if d = 1 ∧ b = 0 then (1 : ℝ) else 0) 1 0 - 0| ≤ 1e-12 ∧
     |rotateAtom (CMath.mk Real.sqrt Real.cos Real.sin Real.exp) 0 1 90 0 0
        (fun d b => if d = 1 ∧ b = 0 then (1 : ℝ) else 0) 2 0 - (-1)| ≤ 1e-12) :=
  ⟨rotateAtom_apply M a p rx ry rz c d b, rotateAtom_quarterTurn⟩

/-- Claim C5: rotation norm preservation.  Over the reals the Euclidean distance between
atom `a` and the pivot atom `p` is the same before and after `rotateAtom a p rx ry rz`. -/
theorem rotateAtom_preserves_distance (a p : Nat) (rx ry rz : ℝ) (c : Nat → Nat → ℝ) :
    Real.sqrt (
      (rotateAtom (CMath.mk Real.sqrt Real.cos Real.sin Real.exp) a p rx ry rz c 0 a -
        rotateAtom (CMath.mk Real.sqrt Real.cos Real.sin Real.exp) a p rx ry rz c 0 p) ^ 2 +
      (rotateAtom (CMath.mk Real.sqrt Real.cos Real.sin Real.exp) a p rx ry rz c 1 a -
        rotateAtom (CMath.mk Real.sqrt Real.cos Real.sin Real.exp) a p rx ry rz c 1 p) ^ 2 +
      (rotateAtom (CMath.mk Real.sqrt Real.cos Real.sin Real.exp) a p rx ry rz c 2 a -
        rotateAtom (CMath.mk Real.sqrt Real.cos Real.sin Real.exp) a p rx ry rz c 2 p) ^ 2) =
    Real.sqrt ((c 0 a - c 0 p) ^ 2 + (c 1 a - c 1 p) ^ 2 + (c 2 a - c 2 p) ^ 2) := by
  rw [rotateAtom_distSq _ (fun t => Real.cos_sq_add_sin_sq t)]

/-- Claim C6: translation invariance of the intramolecular energy.  Adding a vector `t` to
the coordinates of every atom of molecule `m` leaves `calcIntraMolecularEnergy m`
unchanged. -/
theorem calcIntraMolecularEnergy_translation_invariant (M : CMath α) (sb : SimBox α) (m : Nat) (t : Nat → α) :
    calcIntraMolecularEnergy M
      { sb with atomCoordinates := fun d a =>
          if sb.MOL_START m ≤ a ∧ a < sb.MOL_START m + sb.MOL_LEN m
          then sb.atomCoordinates d a + t d else sb.atomCoordinates d a } m =
    calcIntraMolecularEnergy M sb m := by
  unfold calcIntraMolecularEnergy
  have hA : ∀ c : Nat → Nat → α, angleEnergy { sb with atomCoordinates := c } m = angleEnergy sb m :=
    fun _ => rfl
  have hB : ∀ c : Nat → Nat → α, bondEnergy { sb with atomCoordinates := c } m = bondEnergy sb m :=
    fun _ => rfl
  simp only [hA, hB]
  apply forLoop_congr
  intro ki hki out
  apply forLoop_congr
  intro kj hkj out2
  have hi : sb.MOL_START m ≤ sb.MOL_START m + ki ∧
      sb.MOL_START m + ki < sb.MOL_START m + sb.MOL_LEN m := by omega
  have hj : sb.MOL_START m ≤ sb.MOL_START m + ki + 1 + kj ∧
      sb.MOL_START m + ki + 1 + kj < sb.MOL_START m + sb.MOL_LEN m := by omega
  have hd : calcAtomDistSquared (sb.MOL_START m + ki) (sb.MOL_START m + ki + 1 + kj)
      (fun d a => if sb.MOL_START m ≤ a ∧ a < sb.MOL_START m + sb.MOL_LEN m
          then sb.atomCoordinates d a + t d else sb.atomCoordinates d a) sb.size =
      calcAtomDistSquared (sb.MOL_START m + ki) (sb.MOL_START m + ki + 1 + kj)
        sb.atomCoordinates sb.size := by
    simp only [calcAtomDistSquared, if_pos hi, if_pos hj, add_sub_add_right_eq_sub]
  simp only [hd]

/-- Claim C7: `calcBlending a b` is `sqrt |a * b|` and is symmetric in `a` and `b`. -/
theorem calcBlending_geometric_mean (M : CMath α) (a b : α) :
    calcBlending M a b = M.sqrt |a * b| ∧ calcBlending M a b = calcBlending M b a := by
  constructor
  · unfold calcBlending
    split_ifs with h
    · rw [abs_of_nonneg h]
    · rw [abs_of_neg (not_le.mp h)]; congr 1; ring
  · unfold calcBlending
    rw [mul_comm b a]
    have : -1 * b * a = -1 * a * b := by ring
    rw [this]

/-- Claim C8: `calcLJEnergy` is `0` when `r2 = 0` and otherwise `4 * eps * (s^12 - s^6)` with
`s^2 = sigma^2 / r2`, `sigma` and `eps` being the blended parameters; with
`sigma = eps = 1`, `r2 = 1` gives `0` and `r2 = 2^(1/3)` gives `-1`. -/
theorem calcLJEnergy_spec (M : CMath α) (a1 a2 : Nat) (r2 : α) (sg ep : Nat → α) :
    calcLJEnergy M a1 a2 r2 sg ep =
      (if r2 = 0 then 0
      else 4 * calcBlending M (ep a1) (ep a2) *
        ((calcBlending M (sg a1) (sg a2) ^ 2 / r2) ^ 6 -
         (calcBlending M (sg a1) (sg a2) ^ 2 / r2) ^ 3)) ∧
    (calcLJEnergy (CMath.mk Real.sqrt Real.cos Real.sin Real.exp) 0 1 1 (fun _ => 1) (fun _ => 1) = 0 ∧
     calcLJEnergy (CMath.mk Real.sqrt Real.cos Real.sin Real.exp) 0 1 ((2 : ℝ) ^ ((1 : ℝ) / 3)) (fun _ => 1) (fun _ => 1) = -1) :=
  ⟨calcLJEnergy_eq M a1 a2 r2 sg ep, calcLJEnergy_scenario⟩

/-- Claim C9: `calcChargeEnergy` is `0` when `r = 0` and otherwise `332.06 * q1 * q2 / r`;
with `q1 = q2 = 1` and `r = 1` it is `332.06`. -/
theorem calcChargeEnergy_spec (a1 a2 : Nat) (r : α) (q : Nat → α) :
    calcChargeEnergy a1 a2 r q = (if r = 0 then 0 else 332.06 * q a1 * q a2 / r) ∧
    calcChargeEnergy 0 1 (1 : α) (fun _ => 1) = 332.06 := by
  constructor
  · unfold calcChargeEnergy
    have : (0.0 : α) = 0 := by norm_num
    simp only [this]
    split_ifs
    · rfl
    · ring
  · norm_num [calcChargeEnergy]

/-- Claim C10: for a temperature parameter `kT ≠ 0`, `acceptMove` with the uniform draw
`u` accepts exactly when `newEnergy < oldEnergy` or
`exp (-(newEnergy - oldEnergy) / kT) ≥ u`; for energies `10` then `5` it accepts for
every `u`, and for `5` then `10` with `kT = 5` it accepts exactly when `u ≤ exp (-1)`.
At `kT = 0` the code divides by zero, which the exact division of the model does not
follow, so that case is excluded. -/
theorem acceptMove_spec (M : CMath α) (kT oldEnergy newEnergy u : α) (hkT : kT ≠ 0) :
    (acceptMove M kT oldEnergy newEnergy u = true ↔
      (newEnergy < oldEnergy ∨ M.exp (-(newEnergy - oldEnergy) / kT) ≥ u)) ∧
    acceptMove M kT 10 5 u = true ∧
    (∀ v : ℝ, acceptMove (CMath.mk Real.sqrt Real.cos Real.sin Real.exp) 5 5 10 v = true ↔ v ≤ Real.exp (-1)) := by
  have _hk := hkT
  refine ⟨?_, ?_, ?_⟩
  · unfold acceptMove
    by_cases h : newEnergy < oldEnergy <;> simp [h]
  · unfold acceptMove
    rw [if_pos (by norm_num)]
  · intro v
    unfold acceptMove
    rw [if_neg (by norm_num)]
    have e : (-((10 : ℝ) - 5) / 5) = -1 := by norm_num
    rw [e]
    simp

/-- Witness of `acceptMove_spec`: with `kT = 5`, energies `5` then `10` and the draw
`1 / 4`, the move is accepted exactly when `exp (-(10 - 5) / 5) ≥ 1 / 4`, and the move
from energy `10` to `5` is accepted. -/
theorem acceptMove_spec_witness :
    (5 : ℝ) ≠ 0 ∧
    (acceptMove (CMath.mk Real.sqrt Real.cos Real.sin Real.exp) 5 5 10 (1 / 4) = true ↔
      ((10 : ℝ) < 5 ∨ Real.exp (-(10 - 5) / 5) ≥ 1 / 4)) ∧
    acceptMove (CMath.mk Real.sqrt Real.cos Real.sin Real.exp) 5 10 5 (1 / 4) = true :=
  have h := acceptMove_spec (CMath.mk Real.sqrt Real.cos Real.sin Real.exp) 5 5 10 (1 / 4)
    (by norm_num)
  ⟨by norm_num, h.1, h.2.1⟩

end Claims

section Tuning

/-- Claim C20, the constant of the code: `DEG2RAD * 180` is the literal
`3.14159256358979323846264`, whose digits `56` and `65` are transposed; it differs from
`pi` by more than `8e-8`, whereas the literal `3.14159265358979` of `rotateX` is within
`1e-13` of `pi`. -/
theorem DEG2RAD_literal_off :
    (8 / 100000000 : ℝ) < |(DEG2RAD : ℝ) * 180 - Real.pi| ∧
    |(3.14159265358979 : ℝ) - Real.pi| < 1e-13 := by
  have hgt : (314159265358979323846 / 100000000000000000000 : ℝ) < Real.pi := by
    have := Real.pi_gt_d20
    norm_num at this ⊢
    linarith
  have hlt : Real.pi < (314159265358979323847 / 100000000000000000000 : ℝ) := by
    have := Real.pi_lt_d20
    norm_num at this ⊢
    linarith
  constructor
  · have e : (DEG2RAD : ℝ) * 180 = 314159256358979323846264 / 100000000000000000000000 := by
      unfold DEG2RAD; norm_num
    rw [e, abs_of_neg (by linarith)]
    linarith
  · have e : (3.14159265358979 : ℝ) = 314159265358979 / 100000000000000 := by norm_num
    have e13 : (1e-13 : ℝ) = 1 / 10000000000000 := by norm_num
    rw [e, e13, abs_of_neg (by linarith)]
    linarith

end Tuning

section KeepInBox

variable {α : Type} [LinearOrderedField α]

omit [LinearOrderedField α] in
theorem shiftLoop_apply (len start i : Nat) (f : α → α) (t : Nat → Nat → α) (d a : Nat) :
    forLoop len (fun k aCoords => setCoord aCoords i (start + k) (f (aCoords i (start + k)))) t d a =
      if d = i ∧ start ≤ a ∧ a < start + len then f (t d a) else t d a := by
  refine forLoop_inv (fun (n : Nat) (c : Nat → Nat → α) =>
    (c d a = if d = i ∧ start ≤ a ∧ a < start + n then f (t d a) else t d a) ∧
    ∀ a', start + n ≤ a' → c i a' = t i a') len _ t ⟨?_, fun _ _ => rfl⟩ ?_ |>.1
  · rw [if_neg (by omega)]
  · intro k _ u hu
    obtain ⟨hu1, hu2⟩ := hu
    refine ⟨?_, ?_⟩
    · show setCoord u i (start + k) (f (u i (start + k))) d a = _
      rw [setCoord_apply]
      by_cases e : d = i ∧ a = start + k
      · obtain ⟨rfl, rfl⟩ := e
        rw [if_pos ⟨rfl, rfl⟩, if_pos (by omega), hu2 _ (le_refl _)]
      · rw [if_neg e, hu1]
        by_cases h : d = i ∧ start ≤ a ∧ a < start + k
        · rw [if_pos h, if_pos (by omega)]
        · rw [if_neg h, if_neg (by omega)]
    · intro a' ha'
      show setCoord u i (start + k) (f (u i (start + k))) i a' = _
      rw [setCoord_apply, if_neg (by omega)]
      exact hu2 a' (by omega)

theorem keepMoleculeInBox_apply (m : Nat) (c : Nat → Nat → α) (S L P : Nat → Nat)
    (pIdxes : Nat → Nat) (bSize : Nat → α) (d a : Nat) (hd : d < NUM_DIMENSIONS) :
    keepMoleculeInBox m c S L P pIdxes bSize d a =
      if S m ≤ a ∧ a < S m + L m then
        (if c d (pIdxes (P m)) < 0 then c d a + bSize d
         else if c d (pIdxes (P m)) > bSize d then c d a - bSize d else c d a)
      else c d a := by
  unfold keepMoleculeInBox
  have key := forLoop_inv (fun (n : Nat) (c' : Nat → Nat → α) =>
      (∀ d' a', n ≤ d' → c' d' a' = c d' a') ∧
      (d < n → c' d a =
        if S m ≤ a ∧ a < S m + L m then
          (if c d (pIdxes (P m)) < 0 then c d a + bSize d
           else if c d (pIdxes (P m)) > bSize d then c d a - bSize d else c d a)
        else c d a)) NUM_DIMENSIONS
    (fun i aCoords =>
      if aCoords i (pIdxes (P m)) < 0 then
        forLoop (L m) (fun k aCoords =>
          setCoord aCoords i (S m + k) (aCoords i (S m + k) + bSize i)) aCoords
      else if aCoords i (pIdxes (P m)) > bSize i then
        forLoop (L m) (fun k aCoords =>
          setCoord aCoords i (S m + k) (aCoords i (S m + k) - bSize i)) aCoords
      else aCoords) c ⟨fun _ _ _ => rfl, fun h => absurd h (Nat.not_lt_zero _)⟩ ?_
  · exact key.2 hd
  · intro i _ t ht
    obtain ⟨ht1, ht2⟩ := ht
    have hp : t i (pIdxes (P m)) = c i (pIdxes (P m)) := ht1 i _ (le_refl _)
    have hadd := shiftLoop_apply (L m) (S m) i (fun x => x + bSize i) t
    have hsub := shiftLoop_apply (L m) (S m) i (fun x => x - bSize i) t
    simp only [] at hadd hsub
    simp only [hp]
    have step : ∀ d' a',
        (if c i (pIdxes (P m)) < 0 then
          forLoop (L m) (fun k aCoords =>
            setCoord aCoords i (S m + k) (aCoords i (S m + k) + bSize i)) t
        else if c i (pIdxes (P m)) > bSize i then
          forLoop (L m) (fun k aCoords =>
            setCoord aCoords i (S m + k) (aCoords i (S m + k) - bSize i)) t
        else t) d' a' =
        if d' = i ∧ S m ≤ a' ∧ a' < S m + L m then
          (if c i (pIdxes (P m)) < 0 then t d' a' + bSize i
           else if c i (pIdxes (P m)) > bSize i then t d' a' - bSize i else t d' a')
        else t d' a' := by
      intro d' a'
      by_cases h1 : c i (pIdxes (P m)) < 0
      · rw [if_pos h1, hadd]
        by_cases hin : d' = i ∧ S m ≤ a' ∧ a' < S m + L m
        · rw [if_pos hin, if_pos hin, if_pos h1]
        · rw [if_neg hin, if_neg hin]
      · rw [if_neg h1]
        by_cases h2 : c i (pIdxes (P m)) > bSize i
        · rw [if_pos h2, hsub]
          by_cases hin : d' = i ∧ S m ≤ a' ∧ a' < S m + L m
          · rw [if_pos hin, if_pos hin, if_neg h1, if_pos h2]
          · rw [if_neg hin, if_neg hin]
        · rw [if_neg h2]
          by_cases hin : d' = i ∧ S m ≤ a' ∧ a' < S m + L m
          · rw [if_pos hin, if_neg h1, if_neg h2]
          · rw [if_neg hin]
    refine ⟨?_, ?_⟩
    · intro d' a' hd'
      rw [step, if_neg (by omega)]
      exact ht1 d' a' (by omega)
    · intro hlt
      rw [step]
      by_cases e : d = i
      · subst e
        have hda : t d a = c d a := ht1 d a (le_refl _)
        by_cases hin : S m ≤ a ∧ a < S m + L m
        · rw [if_pos ⟨rfl, hin⟩, if_pos hin, hda]
        · rw [if_neg (fun h => hin h.2), if_neg hin, hda]
      · rw [if_neg (fun h => e h.1)]
        exact ht2 (by omega)

theorem keepMoleculeInBox_primary (m : Nat) (c : Nat → Nat → α) (S L P : Nat → Nat)
    (pIdxes : Nat → Nat) (bSize : Nat → α) (d : Nat) (hd : d < NUM_DIMENSIONS)
    (hp : S m ≤ pIdxes (P m) ∧ pIdxes (P m) < S m + L m) :
    keepMoleculeInBox m c S L P pIdxes bSize d (pIdxes (P m)) =
      if c d (pIdxes (P m)) < 0 then c d (pIdxes (P m)) + bSize d
      else if c d (pIdxes (P m)) > bSize d then c d (pIdxes (P m)) - bSize d
      else c d (pIdxes (P m)) := by
  rw [keepMoleculeInBox_apply m c S L P pIdxes bSize d _ hd, if_pos hp]

/-- Claim C15 as amended: for a dimension `d` with `L[d] > 0` in which the primary-index
atom of `m` (an atom of `m`) lies in `[-L[d], 2 L[d]]` before `keepMoleculeInBox m`, its
coordinate afterwards lies in the closed interval `[0, L[d]]`. -/
theorem keepMoleculeInBox_primary_in_box (m : Nat) (c : Nat → Nat → α) (S L P : Nat → Nat)
    (pIdxes : Nat → Nat) (bSize : Nat → α) (d : Nat) (hd : d < NUM_DIMENSIONS)
    (hp : S m ≤ pIdxes (P m) ∧ pIdxes (P m) < S m + L m)
    (hL : 0 < bSize d) (hlo : -bSize d ≤ c d (pIdxes (P m)))
    (hhi : c d (pIdxes (P m)) ≤ 2 * bSize d) :
    0 ≤ keepMoleculeInBox m c S L P pIdxes bSize d (pIdxes (P m)) ∧
    keepMoleculeInBox m c S L P pIdxes bSize d (pIdxes (P m)) ≤ bSize d := by
  have _hpos := hL
  rw [keepMoleculeInBox_primary m c S L P pIdxes bSize d hd hp]
  by_cases h1 : c d (pIdxes (P m)) < 0
  · rw [if_pos h1]
    exact ⟨by linarith, by linarith⟩
  · rw [if_neg h1]
    by_cases h2 : c d (pIdxes (P m)) > bSize d
    · rw [if_pos h2]
      exact ⟨by linarith, by linarith⟩
    · rw [if_neg h2]
      exact ⟨by linarith, by linarith⟩

/-- Counterexample to claim C15 as stated: with `L = 10` a primary-index atom at
coordinate `10` stays at `10`, which is not in `[0, 10)`. -/
theorem keepMoleculeInBox_boundary_counterexample :
    (0 : ℚ) < (fun _ => 10 : Nat → ℚ) 0 ∧
    -(fun _ => 10 : Nat → ℚ) 0 ≤ (fun _ _ => 10 : Nat → Nat → ℚ) 0 0 ∧
    (fun _ _ => 10 : Nat → Nat → ℚ) 0 0 ≤ 2 * (fun _ => 10 : Nat → ℚ) 0 ∧
    ¬ (0 ≤ keepMoleculeInBox 0 (fun _ _ => (10 : ℚ)) (fun _ => 0) (fun _ => 1) (fun _ => 0)
          (fun _ => 0) (fun _ => 10) 0 0 ∧
       keepMoleculeInBox 0 (fun _ _ => (10 : ℚ)) (fun _ => 0) (fun _ => 1) (fun _ => 0)
          (fun _ => 0) (fun _ => 10) 0 0 < (fun _ => 10 : Nat → ℚ) 0) := by
  have h := keepMoleculeInBox_primary 0 (fun _ _ => (10 : ℚ)) (fun _ => 0) (fun _ => 1)
    (fun _ => 0) (fun _ => 0) (fun _ => 10) 0 (by decide) (by decide)
  rw [h]
  norm_num

end KeepInBox

/-- Witness of `keepMoleculeInBox_primary_in_box` for the atom at `-3` in a box of
length `10`. -/
theorem keepMoleculeInBox_primary_in_box_witness :
    (0 : Nat) < NUM_DIMENSIONS ∧
    ((fun _ => 0 : Nat → Nat) 0 ≤ (fun _ => 0 : Nat → Nat) ((fun _ => 0 : Nat → Nat) 0) ∧
      (fun _ => 0 : Nat → Nat) ((fun _ => 0 : Nat → Nat) 0) <
        (fun _ => 0 : Nat → Nat) 0 + (fun _ => 1 : Nat → Nat) 0) ∧
    (0 : ℚ) < (fun _ => 10 : Nat → ℚ) 0 ∧
    -(fun _ => 10 : Nat → ℚ) 0 ≤ (fun _ _ => -3 : Nat → Nat → ℚ) 0 0 ∧
    (fun _ _ => -3 : Nat → Nat → ℚ) 0 0 ≤ 2 * (fun _ => 10 : Nat → ℚ) 0 ∧
    (0 ≤ keepMoleculeInBox 0 (fun _ _ => (-3 : ℚ)) (fun _ => 0) (fun _ => 1) (fun _ => 0)
          (fun _ => 0) (fun _ => 10) 0 0 ∧
     keepMoleculeInBox 0 (fun _ _ => (-3 : ℚ)) (fun _ => 0) (fun _ => 1) (fun _ => 0)
          (fun _ => 0) (fun _ => 10) 0 0 ≤ 10) :=
  have h := keepMoleculeInBox_primary_in_box 0 (fun _ _ => (-3 : ℚ)) (fun _ => 0) (fun _ => 1)
    (fun _ => 0) (fun _ => 0) (fun _ => 10) 0 (by decide) (by decide) (by norm_num)
    (by norm_num) (by norm_num)
  ⟨by decide, by decide, by norm_num, by norm_num, by norm_num, h.1, h.2⟩


section Shape

variable {α : Type} [LinearOrderedField α]

omit [LinearOrderedField α] in
theorem moved_refl (sb : SimBox α) : Moved sb sb := rfl

omit [LinearOrderedField α] in
theorem moved_trans {s1 s2 s3 : SimBox α} (h12 : Moved s1 s2) (h23 : Moved s2 s3) :
    Moved s1 s3 := by
  unfold Moved at *
  rw [h23, h12]

theorem stretchBond_moved {fuel : Nat} {M : CMath α} {sb sb' : SimBox α} {m idx : Nat} {x : α}
    (h : stretchBond fuel M sb m idx x = some sb') : Moved sb sb' := by
  unfold stretchBond at h
  simp only [Option.bind_eq_bind, Option.pure_def, Option.bind_eq_some] at h
  obtain ⟨p, -, r1, -, r2, -, h⟩ := h
  by_cases hs : r1.1 = r2.1
  · rw [if_pos hs] at h
    simp only [Option.some.injEq] at h
    subst h
    rfl
  · rw [if_neg hs] at h
    simp only [Option.bind_eq_some, Option.some.injEq] at h
    obtain ⟨st, -, h⟩ := h
    subst h
    rfl

theorem expandAngle_moved {fuel : Nat} {M : CMath α} {sb sb' : SimBox α} {m idx : Nat} {x : α}
    (h : expandAngle fuel M sb m idx x = some sb') : Moved sb sb' := by
  unfold expandAngle at h
  simp only [Option.bind_eq_bind, Option.pure_def, Option.bind_eq_some] at h
  obtain ⟨p, -, r1, -, r2, -, h⟩ := h
  by_cases hs : r1.1 = r2.1
  · rw [if_pos hs] at h
    simp only [Option.some.injEq] at h
    subst h
    rfl
  · rw [if_neg hs] at h
    simp only [Option.bind_eq_some, Option.some.injEq] at h
    obtain ⟨st, -, h⟩ := h
    subst h
    rfl

theorem moveSelected_moved (move : SimBox α → Nat → α → Option (SimBox α))
    (hmove : ∀ s i x s', move s i x = some s' → Moved s s') (scaleFactor : α) (dist : Nat → α) :
    ∀ (l : List Nat) (k : Nat) (sb sb' : SimBox α),
      moveSelected move scaleFactor dist l k sb = some sb' → Moved sb sb' := by
  intro l
  induction l with
  | nil =>
    intro k sb sb' h
    simp only [moveSelected, Option.some.injEq] at h
    subst h
    rfl
  | cons idx rest ih =>
    intro k sb sb' h
    simp only [moveSelected, Option.bind_eq_some] at h
    obtain ⟨s1, h1, h2⟩ := h
    exact moved_trans (hmove _ _ _ _ h1) (ih _ _ _ h2)

theorem bondBatch_eq (fuel : Nat) (M : CMath α) (sb : SimBox α) (m : Nat) (bd : BatchDraws α)
    (isf ce : α) :
    bondBatch fuel M sb m bd isf ce =
      (selectIndexes (batchSize (sb.MOL_BOND_COUNT m) bd.numToMove sb.maxIntraMoves)
        bd.indexes []).bind (fun indexes =>
      (moveSelected (fun sb bondIdx stretchDist => stretchBond fuel M sb m bondIdx stretchDist)
        (0.25 + (0.75 / ((batchSize (sb.MOL_BOND_COUNT m) bd.numToMove sb.maxIntraMoves : Nat) : α))
          * isf) bd.dist indexes 0
        { sb with numBondMoves := sb.numBondMoves +
            batchSize (sb.MOL_BOND_COUNT m) bd.numToMove sb.maxIntraMoves }).bind (fun sM =>
      some (if acceptMove M sM.kT ce (calcIntraMolecularEnergy M sM m) bd.accept then
          { sM with numAcceptedBondMoves := sM.numAcceptedBondMoves +
              batchSize (sb.MOL_BOND_COUNT m) bd.numToMove sb.maxIntraMoves }
        else sM, calcIntraMolecularEnergy M sM m))) := rfl

theorem angleBatch_eq (fuel : Nat) (M : CMath α) (sb : SimBox α) (m : Nat) (ad : BatchDraws α)
    (isf ce : α) :
    angleBatch fuel M sb m ad isf ce =
      (selectIndexes (batchSize (sb.MOL_ANGLE_COUNT m) ad.numToMove sb.maxIntraMoves)
        ad.indexes []).bind (fun indexes =>
      (moveSelected (fun sb angle expandDist => expandAngle fuel M sb m angle expandDist)
        (0.25 + (0.75 / ((batchSize (sb.MOL_ANGLE_COUNT m) ad.numToMove sb.maxIntraMoves : Nat) : α))
          * isf) ad.dist indexes 0
        { sb with numAngleMoves := sb.numAngleMoves +
            batchSize (sb.MOL_ANGLE_COUNT m) ad.numToMove sb.maxIntraMoves }).bind (fun sM =>
      some (if acceptMove M sM.kT ce (calcIntraMolecularEnergy M sM m) ad.accept then
          { sM with numAcceptedAngleMoves := sM.numAcceptedAngleMoves +
              batchSize (sb.MOL_ANGLE_COUNT m) ad.numToMove sb.maxIntraMoves }
        else sM, calcIntraMolecularEnergy M sM m))) := rfl

theorem bondBatch_counts {fuel : Nat} {M : CMath α} {sb : SimBox α} {m : Nat}
    {bd : BatchDraws α} {isf ce : α} {r : SimBox α × α}
    (h : bondBatch fuel M sb m bd isf ce = some r) :
    Stepped sb r.1 ∧
    r.1.numBondMoves = sb.numBondMoves +
      batchSize (sb.MOL_BOND_COUNT m) bd.numToMove sb.maxIntraMoves ∧
    (r.1.numAcceptedBondMoves = sb.numAcceptedBondMoves ∨
      r.1.numAcceptedBondMoves = sb.numAcceptedBondMoves +
        batchSize (sb.MOL_BOND_COUNT m) bd.numToMove sb.maxIntraMoves) ∧
    r.1.numAngleMoves = sb.numAngleMoves ∧
    r.1.numAcceptedAngleMoves = sb.numAcceptedAngleMoves ∧
    r.1.rollBackBondLengths = sb.rollBackBondLengths ∧
    r.1.rollBackAngleSizes = sb.rollBackAngleSizes := by
  rw [bondBatch_eq] at h
  simp only [Option.bind_eq_some, Option.some.injEq] at h
  obtain ⟨idx, -, sM, hM, rfl⟩ := h
  have hmv := moveSelected_moved _ (fun _ _ _ _ h => stretchBond_moved h) _ _ _ _ _ _ hM
  unfold Moved at hmv
  unfold Stepped
  by_cases hc : acceptMove M sM.kT ce (calcIntraMolecularEnergy M sM m) bd.accept = true
  · simp only [if_pos hc]
    refine ⟨?_, ?_, Or.inr ?_, ?_, ?_, ?_, ?_⟩ <;> rw [hmv]
  · simp only [if_neg hc]
    refine ⟨?_, ?_, Or.inl ?_, ?_, ?_, ?_, ?_⟩ <;> rw [hmv]

theorem angleBatch_counts {fuel : Nat} {M : CMath α} {sb : SimBox α} {m : Nat}
    {ad : BatchDraws α} {isf ce : α} {r : SimBox α × α}
    (h : angleBatch fuel M sb m ad isf ce = some r) :
    Stepped sb r.1 ∧
    r.1.numAngleMoves = sb.numAngleMoves +
      batchSize (sb.MOL_ANGLE_COUNT m) ad.numToMove sb.maxIntraMoves ∧
    (r.1.numAcceptedAngleMoves = sb.numAcceptedAngleMoves ∨
      r.1.numAcceptedAngleMoves = sb.numAcceptedAngleMoves +
        batchSize (sb.MOL_ANGLE_COUNT m) ad.numToMove sb.maxIntraMoves) ∧
    r.1.numBondMoves = sb.numBondMoves ∧
    r.1.numAcceptedBondMoves = sb.numAcceptedBondMoves ∧
    r.1.rollBackBondLengths = sb.rollBackBondLengths ∧
    r.1.rollBackAngleSizes = sb.rollBackAngleSizes := by
  rw [angleBatch_eq] at h
  simp only [Option.bind_eq_some, Option.some.injEq] at h
  obtain ⟨idx, -, sM, hM, rfl⟩ := h
  have hmv := moveSelected_moved _ (fun _ _ _ _ h => expandAngle_moved h) _ _ _ _ _ _ hM
  unfold Moved at hmv
  unfold Stepped
  by_cases hc : acceptMove M sM.kT ce (calcIntraMolecularEnergy M sM m) ad.accept = true
  · simp only [if_pos hc]
    refine ⟨?_, ?_, Or.inr ?_, ?_, ?_, ?_, ?_⟩ <;> rw [hmv]
  · simp only [if_neg hc]
    refine ⟨?_, ?_, Or.inl ?_, ?_, ?_, ?_, ?_⟩ <;> rw [hmv]

omit [LinearOrderedField α] in
theorem stepped_trans {s1 s2 s3 : SimBox α} (h12 : Stepped s1 s2) (h23 : Stepped s2 s3) :
    Stepped s1 s3 := by
  unfold Stepped at *
  rw [h23, h12]

theorem intramolecularMove_shape {fuel : Nat} {M : CMath α} {sb sb' : SimBox α} {m : Nat}
    {bd ad : BatchDraws α} (h : intramolecularMove fuel M sb m bd ad = some sb') :
    ∃ sbT, Stepped sb sbT ∧
      sb' = (if sb.stepNum ≠ 0 ∧ sb.stepNum % 1000 = 0 then tuneDeltas sbT sb.maxAngleDelta
        else sbT) ∧
      sbT.numBondMoves = sb.numBondMoves +
        batchSize (sb.MOL_BOND_COUNT m) bd.numToMove sb.maxIntraMoves ∧
      (sbT.numAcceptedBondMoves = sb.numAcceptedBondMoves ∨
        sbT.numAcceptedBondMoves = sb.numAcceptedBondMoves +
          batchSize (sb.MOL_BOND_COUNT m) bd.numToMove sb.maxIntraMoves) ∧
      sbT.numAngleMoves = sb.numAngleMoves +
        batchSize (sb.MOL_ANGLE_COUNT m) ad.numToMove sb.maxIntraMoves ∧
      (sbT.numAcceptedAngleMoves = sb.numAcceptedAngleMoves ∨
        sbT.numAcceptedAngleMoves = sb.numAcceptedAngleMoves +
          batchSize (sb.MOL_ANGLE_COUNT m) ad.numToMove sb.maxIntraMoves) := by
  unfold intramolecularMove at h
  have hB : (ENABLE_BOND ≠ 0) = True := eq_true (by decide)
  have hA : (ENABLE_ANGLE ≠ 0) = True := eq_true (by decide)
  have hT : (ENABLE_TUNING = true) = True := eq_true (by decide)
  simp only [Option.bind_eq_bind, Option.pure_def, hB, hA, hT, if_true, true_and,
    Option.bind_eq_some] at h
  obtain ⟨r1, h1, r2, h2, h3⟩ := h
  obtain ⟨b1, b2, b3, b4, b5, -, -⟩ := bondBatch_counts h1
  obtain ⟨a1, a2, a3, a4, a5, -, -⟩ := angleBatch_counts h2
  have hS : Stepped sb (saveAngles (saveBonds sb m) m) := rfl
  have hst : Stepped sb r2.1 := stepped_trans hS (stepped_trans b1 a1)
  have e1 : r1.1.MOL_ANGLE_COUNT = sb.MOL_ANGLE_COUNT := by unfold Stepped at b1; rw [b1]; rfl
  have e2 : r1.1.maxIntraMoves = sb.maxIntraMoves := by unfold Stepped at b1; rw [b1]; rfl
  have e3 : r2.1.stepNum = sb.stepNum := by unfold Stepped at hst; rw [hst]
  refine ⟨r2.1, hst, ?_, ?_, ?_, ?_, ?_⟩
  · rw [e3] at h3
    by_cases ht : sb.stepNum ≠ 0 ∧ sb.stepNum % 1000 = 0
    · rw [if_pos ht] at h3 ⊢
      simp only [Option.some.injEq] at h3
      exact h3.symm
    · rw [if_neg ht] at h3 ⊢
      simp only [Option.some.injEq] at h3
      exact h3.symm
  · rw [a4, b2]; rfl
  · rw [a5]; exact b3
  · rw [a2, b4, e1, e2]; rfl
  · rw [e1, e2, b5] at a3; exact a3

end Shape

section TuningClaims

variable {α : Type} [LinearOrderedField α]

theorem tuneDeltas_maxBondDelta (sb : SimBox α) (angleDelta : α) :
    (tuneDeltas sb angleDelta).maxBondDelta =
      if |(sb.numAcceptedBondMoves : α) / (sb.numBondMoves : α) - TARGET_RATIO| > RATIO_MARGIN
      then sb.maxBondDelta + sb.maxBondDelta *
        ((sb.numAcceptedBondMoves : α) / (sb.numBondMoves : α) - TARGET_RATIO)
      else sb.maxBondDelta := by
  unfold tuneDeltas
  simp only []
  split_ifs <;> rfl

theorem tuneDeltas_maxAngleDelta (sb : SimBox α) (angleDelta : α) :
    (tuneDeltas sb angleDelta).maxAngleDelta =
      if |angleDelta| > RATIO_MARGIN
      then sb.maxAngleDelta + sb.maxAngleDelta *
        ((sb.numAcceptedAngleMoves : α) / (sb.numAngleMoves : α) - TARGET_RATIO)
      else sb.maxAngleDelta := by
  unfold tuneDeltas
  simp only []
  split_ifs <;> rfl

/-- Claim C13: tuning monotonicity.  At a tuning tick with `maxBondDelta > 0`,
`intramolecularMove` returns `tuneDeltas sbT` of the box `sbT` left by the two batches,
whose `maxBondDelta` is still that of the start; if the bond counters of `sbT` (read by
the tuning block) have a positive total and a ratio above `0.4 + 1e-4`, `maxBondDelta`
after the call is strictly greater than before, and strictly smaller if the ratio is
below `0.4 - 1e-4`. -/
theorem tuning_monotone (fuel : Nat) (M : CMath α) (sb : SimBox α) (m : Nat)
    (bd ad : BatchDraws α) (hwf : WellFormed sb m) (hfuel : sb.MOL_BOND_COUNT m < fuel)
    (hbd : ∀ x ∈ bd.indexes, x < sb.MOL_BOND_COUNT m)
    (had : ∀ x ∈ ad.indexes, x < sb.MOL_ANGLE_COUNT m)
    (hbsel : (selectIndexes (if sb.MOL_BOND_COUNT m > 3 then min bd.numToMove sb.maxIntraMoves
      else sb.MOL_BOND_COUNT m) bd.indexes []).isSome = true)
    (hasel : (selectIndexes (if sb.MOL_ANGLE_COUNT m > 3 then min ad.numToMove sb.maxIntraMoves
      else sb.MOL_ANGLE_COUNT m) ad.indexes []).isSome = true)
    (htick : sb.stepNum ≠ 0 ∧ sb.stepNum % 1000 = 0) (hpos : 0 < sb.maxBondDelta) :
    ∃ sb' sbT, intramolecularMove fuel M sb m bd ad = some sb' ∧
      sb' = tuneDeltas sbT sb.maxAngleDelta ∧
      sbT.maxBondDelta = sb.maxBondDelta ∧
      sbT.numBondMoves = sb.numBondMoves +
        batchSize (sb.MOL_BOND_COUNT m) bd.numToMove sb.maxIntraMoves ∧
      (sbT.numAcceptedBondMoves = sb.numAcceptedBondMoves ∨
        sbT.numAcceptedBondMoves = sb.numAcceptedBondMoves +
          batchSize (sb.MOL_BOND_COUNT m) bd.numToMove sb.maxIntraMoves) ∧
      (0 < sbT.numBondMoves →
        (sbT.numAcceptedBondMoves : α) / (sbT.numBondMoves : α) > 0.4 + 1e-4 →
        sb.maxBondDelta < sb'.maxBondDelta) ∧
      (0 < sbT.numBondMoves →
        (sbT.numAcceptedBondMoves : α) / (sbT.numBondMoves : α) < 0.4 - 1e-4 →
        sb'.maxBondDelta < sb.maxBondDelta) := by
  obtain ⟨sb', hsome, -⟩ := intramolecularMove_frame fuel M sb m bd ad hwf hfuel hbd had
    hbsel hasel
  obtain ⟨sbT, hst, hsb', hn, hacc, -, -⟩ := intramolecularMove_shape hsome
  rw [if_pos htick] at hsb'
  have hmax : sbT.maxBondDelta = sb.maxBondDelta := by unfold Stepped at hst; rw [hst]
  have hval := tuneDeltas_maxBondDelta sbT sb.maxAngleDelta
  rw [← hsb', hmax] at hval
  have e4 : (0.4 : α) = 2 / 5 := by norm_num
  have em : (1e-4 : α) = 1 / 10000 := by norm_num
  have eT : ( TARGET_RATIO : α) = 2 / 5 := by unfold TARGET_RATIO; norm_num
  have eR : (RATIO_MARGIN : α) = 1 / 10000 := by unfold RATIO_MARGIN; norm_num
  rw [eT, eR] at hval
  refine ⟨sb', sbT, hsome, hsb', hmax, hn, hacc, ?_, ?_⟩
  · intro _ hr
    rw [e4, em] at hr
    have hd : (sbT.numAcceptedBondMoves : α) / (sbT.numBondMoves : α) - 2 / 5 > 1 / 10000 := by
      linarith
    rw [hval, if_pos (lt_of_lt_of_le hd (le_abs_self _))]
    have : 0 < sb.maxBondDelta *
        ((sbT.numAcceptedBondMoves : α) / (sbT.numBondMoves : α) - 2 / 5) :=
      mul_pos hpos (by linarith)
    linarith
  · intro _ hr
    rw [e4, em] at hr
    have hd : (sbT.numAcceptedBondMoves : α) / (sbT.numBondMoves : α) - 2 / 5 < -(1 / 10000) := by
      linarith
    have habs : |(sbT.numAcceptedBondMoves : α) / (sbT.numBondMoves : α) - 2 / 5| > 1 / 10000 := by
      rw [abs_of_neg (by linarith)]; linarith
    rw [hval, if_pos habs]
    have : sb.maxBondDelta *
        ((sbT.numAcceptedBondMoves : α) / (sbT.numBondMoves : α) - 2 / 5) < 0 :=
      mul_neg_of_pos_of_neg hpos (by linarith)
    linarith

end TuningClaims

/-- Witness of `tuning_monotone` on `tickBox`, where `9` bond moves out of `10` were
accepted: the call makes `maxBondDelta` strictly greater. -/
theorem tuning_monotone_witness :
    WellFormed tickBox 0 ∧ tickBox.MOL_BOND_COUNT 0 < 1 ∧
    (∀ x ∈ noDraws.indexes, x < tickBox.MOL_BOND_COUNT 0) ∧
    (∀ x ∈ noDraws.indexes, x < tickBox.MOL_ANGLE_COUNT 0) ∧
    (selectIndexes (if tickBox.MOL_BOND_COUNT 0 > 3
      then min noDraws.numToMove tickBox.maxIntraMoves
      else tickBox.MOL_BOND_COUNT 0) noDraws.indexes []).isSome = true ∧
    (selectIndexes (if tickBox.MOL_ANGLE_COUNT 0 > 3
      then min noDraws.numToMove tickBox.maxIntraMoves
      else tickBox.MOL_ANGLE_COUNT 0) noDraws.indexes []).isSome = true ∧
    (tickBox.stepNum ≠ 0 ∧ tickBox.stepNum % 1000 = 0) ∧ 0 < tickBox.maxBondDelta ∧
    ∃ sb', intramolecularMove 1 ratMath tickBox 0 noDraws noDraws = some sb' ∧
      tickBox.maxBondDelta < sb'.maxBondDelta := by
  have h1 : WellFormed tickBox 0 :=
    ⟨fun k hk => absurd hk (Nat.not_lt_zero k), fun k hk => absurd hk (Nat.not_lt_zero k)⟩
  have h2 : tickBox.MOL_BOND_COUNT 0 < 1 := by decide
  have h3 : ∀ x ∈ noDraws.indexes, x < tickBox.MOL_BOND_COUNT 0 := by decide
  have h4 : ∀ x ∈ noDraws.indexes, x < tickBox.MOL_ANGLE_COUNT 0 := by decide
  have h5 : tickBox.stepNum ≠ 0 ∧ tickBox.stepNum % 1000 = 0 := by decide
  have h6 : 0 < tickBox.maxBondDelta := by norm_num [tickBox, chainBox]
  have h7 : (selectIndexes (if tickBox.MOL_BOND_COUNT 0 > 3
      then min noDraws.numToMove tickBox.maxIntraMoves
      else tickBox.MOL_BOND_COUNT 0) noDraws.indexes []).isSome = true := by decide
  have h8 : (selectIndexes (if tickBox.MOL_ANGLE_COUNT 0 > 3
      then min noDraws.numToMove tickBox.maxIntraMoves
      else tickBox.MOL_ANGLE_COUNT 0) noDraws.indexes []).isSome = true := by decide
  obtain ⟨sb', sbT, hs, -, -, hn, hacc, hup, -⟩ :=
    tuning_monotone 1 ratMath tickBox 0 noDraws noDraws h1 h2 h3 h4 h7 h8 h5 h6
  have hn' : sbT.numBondMoves = 10 := hn
  have hacc' : sbT.numAcceptedBondMoves = 9 := by
    rcases hacc with h | h <;> exact h
  refine ⟨h1, h2, h3, h4, h7, h8, h5, h6, sb', hs, hup (by rw [hn']; decide) ?_⟩
  rw [hn', hacc']
  norm_num

/-- Claim C14, the code at the failing input: the angle branch of the tuning block tests
`|angleDelta|` (the value of `maxAngleDelta` at the start of the call), not `|diff|`.  On
`tickBox` the angle ratio is `0.40001`, so `|diff| = 1e-5` is within the margin, and yet
`intramolecularMove` changes `maxAngleDelta` from `1` to `1.00001`. -/
theorem angle_tuning_tests_delta :
    (∀ (sb : SimBox ℚ) (angleDelta : ℚ), (tuneDeltas sb angleDelta).maxAngleDelta =
      if |angleDelta| > RATIO_MARGIN
      then sb.maxAngleDelta + sb.maxAngleDelta *
        ((sb.numAcceptedAngleMoves : ℚ) / (sb.numAngleMoves : ℚ) - TARGET_RATIO)
      else sb.maxAngleDelta) ∧
    (tickBox.stepNum ≠ 0 ∧ tickBox.stepNum % 1000 = 0) ∧
    |(tickBox.numAcceptedAngleMoves : ℚ) / (tickBox.numAngleMoves : ℚ) - 0.4| ≤ 1e-4 ∧
    tickBox.maxAngleDelta = 1 ∧
    ∃ sb', intramolecularMove 1 ratMath tickBox 0 noDraws noDraws = some sb' ∧
      sb'.maxAngleDelta = 100001 / 100000 := by
  have h1 : WellFormed tickBox 0 :=
    ⟨fun k hk => absurd hk (Nat.not_lt_zero k), fun k hk => absurd hk (Nat.not_lt_zero k)⟩
  obtain ⟨sb', hsome, -⟩ := intramolecularMove_frame 1 ratMath tickBox 0 noDraws noDraws h1
    (by decide) (by decide) (by decide) (by decide) (by decide)
  obtain ⟨sbT, hst, hsb', -, -, hn, hacc⟩ := intramolecularMove_shape hsome
  rw [if_pos (by decide)] at hsb'
  have hmax : sbT.maxAngleDelta = 1 := by unfold Stepped at hst; rw [hst]; rfl
  have hn' : sbT.numAngleMoves = 100000 := hn
  have hacc' : sbT.numAcceptedAngleMoves = 40001 := by
    rcases hacc with h | h <;> exact h
  refine ⟨tuneDeltas_maxAngleDelta, by decide, ?_, rfl, sb', hsome, ?_⟩
  · norm_num [tickBox, chainBox, abs_le]
  · rw [hsb', tuneDeltas_maxAngleDelta, hmax, hn', hacc']
    norm_num [tickBox, chainBox, RATIO_MARGIN, TARGET_RATIO]

section BatchSizeClaims

variable {α : Type} [LinearOrderedField α]

/-- Claim C18 as amended: `intramolecularMove` returns `sbT` (tuned at a tick), where
`sbT` has `numBondMoves` and `numAngleMoves` grown by the batch sizes; a batch size is
`min draw maxIntraMoves` when the count exceeds `3` and the count itself, without cap,
when it is at most `3`; hence it is at most `maxIntraMoves` or at most `3`. -/
theorem batch_size_cap (fuel : Nat) (M : CMath α) (sb : SimBox α) (m : Nat)
    (bd ad : BatchDraws α) (hwf : WellFormed sb m) (hfuel : sb.MOL_BOND_COUNT m < fuel)
    (hbd : ∀ x ∈ bd.indexes, x < sb.MOL_BOND_COUNT m)
    (had : ∀ x ∈ ad.indexes, x < sb.MOL_ANGLE_COUNT m)
    (hbsel : (selectIndexes (if sb.MOL_BOND_COUNT m > 3 then min bd.numToMove sb.maxIntraMoves
      else sb.MOL_BOND_COUNT m) bd.indexes []).isSome = true)
    (hasel : (selectIndexes (if sb.MOL_ANGLE_COUNT m > 3 then min ad.numToMove sb.maxIntraMoves
      else sb.MOL_ANGLE_COUNT m) ad.indexes []).isSome = true) :
    ∃ sb' sbT, intramolecularMove fuel M sb m bd ad = some sb' ∧
      sb' = (if sb.stepNum ≠ 0 ∧ sb.stepNum % 1000 = 0 then tuneDeltas sbT sb.maxAngleDelta
        else sbT) ∧
      sbT.numBondMoves = sb.numBondMoves +
        batchSize (sb.MOL_BOND_COUNT m) bd.numToMove sb.maxIntraMoves ∧
      sbT.numAngleMoves = sb.numAngleMoves +
        batchSize (sb.MOL_ANGLE_COUNT m) ad.numToMove sb.maxIntraMoves ∧
      batchSize (sb.MOL_BOND_COUNT m) bd.numToMove sb.maxIntraMoves =
        (if sb.MOL_BOND_COUNT m > 3 then min bd.numToMove sb.maxIntraMoves
          else sb.MOL_BOND_COUNT m) ∧
      batchSize (sb.MOL_ANGLE_COUNT m) ad.numToMove sb.maxIntraMoves =
        (if sb.MOL_ANGLE_COUNT m > 3 then min ad.numToMove sb.maxIntraMoves
          else sb.MOL_ANGLE_COUNT m) ∧
      batchSize (sb.MOL_BOND_COUNT m) bd.numToMove sb.maxIntraMoves ≤ max 3 sb.maxIntraMoves ∧
      batchSize (sb.MOL_ANGLE_COUNT m) ad.numToMove sb.maxIntraMoves ≤ max 3 sb.maxIntraMoves := by
  obtain ⟨sb', hsome, -⟩ := intramolecularMove_frame fuel M sb m bd ad hwf hfuel hbd had
    hbsel hasel
  obtain ⟨sbT, -, hsb', hn, -, ha, -⟩ := intramolecularMove_shape hsome
  have hle : ∀ c d x : Nat, batchSize c d x ≤ max 3 x := by
    intro c d x
    unfold batchSize
    split_ifs with h
    · exact le_trans (min_le_right d x) (le_max_right 3 x)
    · exact le_trans (by omega) (le_max_left 3 x)
  exact ⟨sb', sbT, hsome, hsb', hn, ha, rfl, rfl, hle _ _ _, hle _ _ _⟩

end BatchSizeClaims

/-- Witness of `batch_size_cap` on the chain box with `maxIntraMoves = 1`. -/
theorem batch_size_cap_witness :
    WellFormed cappedChainBox 0 ∧ cappedChainBox.MOL_BOND_COUNT 0 < 3 ∧
    (∀ x ∈ chainBondDraws.indexes, x < cappedChainBox.MOL_BOND_COUNT 0) ∧
    (∀ x ∈ chainAngleDraws.indexes, x < cappedChainBox.MOL_ANGLE_COUNT 0) ∧
    (selectIndexes (if cappedChainBox.MOL_BOND_COUNT 0 > 3
      then min chainBondDraws.numToMove cappedChainBox.maxIntraMoves
      else cappedChainBox.MOL_BOND_COUNT 0) chainBondDraws.indexes []).isSome = true ∧
    (selectIndexes (if cappedChainBox.MOL_ANGLE_COUNT 0 > 3
      then min chainAngleDraws.numToMove cappedChainBox.maxIntraMoves
      else cappedChainBox.MOL_ANGLE_COUNT 0) chainAngleDraws.indexes []).isSome = true ∧
    ∃ sb', intramolecularMove 3 ratMath cappedChainBox 0 chainBondDraws chainAngleDraws =
        some sb' ∧
      sb'.numBondMoves = cappedChainBox.numBondMoves + 2 ∧
      sb'.numAngleMoves = cappedChainBox.numAngleMoves + 1 := by
  have h1 : WellFormed cappedChainBox 0 := by
    constructor
    · intro k hk
      simp only [cappedChainBox, chainBox, InMol] at hk ⊢
      omega
    · intro k hk
      simp only [cappedChainBox, chainBox, InMol] at hk ⊢
      omega
  have h2 : cappedChainBox.MOL_BOND_COUNT 0 < 3 := by decide
  have h3 : ∀ x ∈ chainBondDraws.indexes, x < cappedChainBox.MOL_BOND_COUNT 0 := by decide
  have h4 : ∀ x ∈ chainAngleDraws.indexes, x < cappedChainBox.MOL_ANGLE_COUNT 0 := by decide
  have h5 : (selectIndexes (if cappedChainBox.MOL_BOND_COUNT 0 > 3
      then min chainBondDraws.numToMove cappedChainBox.maxIntraMoves
      else cappedChainBox.MOL_BOND_COUNT 0) chainBondDraws.indexes []).isSome = true := by decide
  have h6 : (selectIndexes (if cappedChainBox.MOL_ANGLE_COUNT 0 > 3
      then min chainAngleDraws.numToMove cappedChainBox.maxIntraMoves
      else cappedChainBox.MOL_ANGLE_COUNT 0) chainAngleDraws.indexes []).isSome = true := by decide
  obtain ⟨sb', sbT, hs, hsb', hn, ha, -, -, -, -⟩ :=
    batch_size_cap 3 ratMath cappedChainBox 0 chainBondDraws chainAngleDraws h1 h2 h3 h4 h5 h6
  rw [if_neg (by decide)] at hsb'
  subst hsb'
  exact ⟨h1, h2, h3, h4, h5, h6, sb', hs, hn, ha⟩

/-- Counterexample to claim C18 as stated: on the chain box with two bonds and
`maxIntraMoves = 1` one call of `intramolecularMove` raises `numBondMoves` by `2`, more
than `maxIntraMoves`. -/
theorem batch_size_cap_counterexample :
    ∃ sb', intramolecularMove 3 ratMath cappedChainBox 0 chainBondDraws chainAngleDraws =
        some sb' ∧
      ¬ (sb'.numBondMoves ≤ cappedChainBox.numBondMoves + cappedChainBox.maxIntraMoves) := by
  have h1 : WellFormed cappedChainBox 0 := by
    constructor
    · intro k hk
      simp only [cappedChainBox, chainBox, InMol] at hk ⊢
      omega
    · intro k hk
      simp only [cappedChainBox, chainBox, InMol] at hk ⊢
      omega
  obtain ⟨sb', hsome, -⟩ := intramolecularMove_frame 3 ratMath cappedChainBox 0 chainBondDraws
    chainAngleDraws h1 (by decide) (by decide) (by decide) (by decide) (by decide)
  obtain ⟨sbT, -, hsb', hn, -, -, -⟩ := intramolecularMove_shape hsome
  rw [if_neg (by decide)] at hsb'
  subst hsb'
  refine ⟨sb', hsome, ?_⟩
  rw [hn]
  decide

/-! ## Groups of the union-find -/

section Groups

theorem sameGroup_symm {p : Nat → Nat} {a b : Nat} (h : SameGroup p a b) : SameGroup p b a :=
  let ⟨r, j, k, h1, h2⟩ := h
  ⟨r, k, j, h2, h1⟩

theorem sameGroup_trans {p : Nat → Nat} {a b c : Nat} (h1 : SameGroup p a b)
    (h2 : SameGroup p b c) : SameGroup p a c := by
  obtain ⟨r, j, k, ha, hb⟩ := h1
  obtain ⟨r', j', k', hb', hc⟩ := h2
  have e := ReachRoot.unique hb hb'
  subst e
  exact ⟨r, j, k', ha, hc⟩

theorem sameGroup_self {p : Nat → Nat} {k n x : Nat} (hF : Forest p k n) (hx : x < n) :
    SameGroup p x x :=
  let ⟨r, hr⟩ := hF x hx
  ⟨r, k, k, hr, hr⟩

theorem sameGroup_root {p : Nat → Nat} {a b r j : Nat} (h : SameGroup p a b)
    (ha : ReachRoot p j a r) : ∃ k, ReachRoot p k b r := by
  obtain ⟨r', j', k, ha', hb⟩ := h
  have e := ReachRoot.unique ha ha'
  subst e
  exact ⟨k, hb⟩

theorem sameGroup_iff_of_preserves {p p' : Nat → Nat} {k n : Nat} (hF : Forest p k n)
    (hfw : ∀ j x r, ReachRoot p j x r → ReachRoot p' j x r) {x y : Nat} (hx : x < n)
    (hy : y < n) : SameGroup p' x y ↔ SameGroup p x y := by
  constructor
  · intro h
    obtain ⟨rx, hrx⟩ := hF x hx
    obtain ⟨ry, hry⟩ := hF y hy
    obtain ⟨ky, hy'⟩ := sameGroup_root h (hfw _ _ _ hrx)
    have e := ReachRoot.unique hy' (hfw _ _ _ hry)
    subst e
    exact ⟨_, _, _, hrx, hry⟩
  · rintro ⟨r, j, k', ha, hb⟩
    exact ⟨r, j, k', hfw _ _ _ ha, hfw _ _ _ hb⟩

theorem find_sem {fuel k n : Nat} {p : Nat → Nat} {a : Nat} (hF : Forest p k n) (ha : a < n)
    (hf : k < fuel) :
    ∃ r p', find fuel p a = some (r, p') ∧ ReachRoot p k a r ∧ Forest p' k n ∧
      ∀ j x r', ReachRoot p j x r' → ReachRoot p' j x r' := by
  obtain ⟨r, hr⟩ := hF a ha
  obtain ⟨p', hfind, hc⟩ := find_spec k fuel p a r hr hf
  exact ⟨r, p', hfind, hr, fun i hi => let ⟨ri, hri⟩ := hF i hi; ⟨ri, hc.reach hri⟩,
    fun _ _ _ h => hc.reach h⟩

theorem reach_update_track {p : Nat → Nat} {r1 r2 : Nat} (h1 : p r1 = r1) (h2 : p r2 = r2)
    (hne : r1 ≠ r2) : ∀ {k a r : Nat}, ReachRoot p k a r →
      ReachRoot (Function.update p r1 r2) (k + 1) a (if r = r1 then r2 else r) := by
  have hr2 : Function.update p r1 r2 r2 = r2 := by
    rw [Function.update_noteq (Ne.symm hne)]; exact h2
  have base : ∀ (k r : Nat), p r = r →
      ReachRoot (Function.update p r1 r2) (k + 1) r (if r = r1 then r2 else r) := by
    intro k r hr
    by_cases e : r = r1
    · subst e
      rw [if_pos rfl]
      exact Or.inr ⟨by simp [hne.symm], by simp; exact ReachRoot.self hr2 k⟩
    · rw [if_neg e]
      exact Or.inl ⟨rfl, by rw [Function.update_noteq e]; exact hr⟩
  intro k
  induction k with
  | zero =>
    intro a r h
    obtain ⟨rfl, hr⟩ := h
    exact base 0 _ hr
  | succ k ih =>
    intro a r h
    rcases h with ⟨rfl, hr⟩ | ⟨hna, h⟩
    · exact base _ _ hr
    · have ha1 : a ≠ r1 := by intro e; rw [e] at hna; exact hna h1
      refine Or.inr ⟨?_, ?_⟩
      · rw [Function.update_noteq ha1]; exact hna
      · rw [Function.update_noteq ha1]; exact ih h

theorem unionAtoms_sem {fuel k n : Nat} {p : Nat → Nat} {a b : Nat} (hF : Forest p k n)
    (ha : a < n) (hb : b < n) (hf : k < fuel) :
    ∃ p', unionAtoms fuel p a b = some p' ∧ Forest p' (k + 1) n ∧
      ∀ x y, x < n → y < n →
        (SameGroup p' x y ↔ SameGroup p x y ∨ (SameGroup p x a ∧ SameGroup p y b) ∨
          (SameGroup p x b ∧ SameGroup p y a)) := by
  obtain ⟨r1, p1, hf1, hr1, hF1, fw1⟩ := find_sem hF ha hf
  obtain ⟨r2, p2, hf2, hr2, hF2, fw2⟩ := find_sem hF1 hb hf
  have fw : ∀ j x r, ReachRoot p j x r → ReachRoot p2 j x r :=
    fun j x r h => fw2 _ _ _ (fw1 _ _ _ h)
  have ha2 : ReachRoot p2 k a r1 := fw _ _ _ hr1
  have hb2 : ReachRoot p2 k b r2 := fw2 _ _ _ hr2
  have iff2 : ∀ x y, x < n → y < n → (SameGroup p2 x y ↔ SameGroup p x y) :=
    fun x y hx hy => sameGroup_iff_of_preserves hF fw hx hy
  by_cases e : r1 = r2
  · refine ⟨p2, by simp [unionAtoms, hf1, hf2, e], fun i hi =>
      let ⟨r, hr⟩ := hF2 i hi; ⟨r, hr.succ⟩, ?_⟩
    intro x y hx hy
    rw [iff2 x y hx hy]
    constructor
    · exact fun h => Or.inl h
    · have hab : SameGroup p a b := by
        rw [← iff2 a b ha hb]
        exact ⟨r1, k, k, ha2, e ▸ hb2⟩
      rintro (h | ⟨h1, h2⟩ | ⟨h1, h2⟩)
      · exact h
      · exact sameGroup_trans h1 (sameGroup_trans hab (sameGroup_symm h2))
      · exact sameGroup_trans h1 (sameGroup_trans (sameGroup_symm hab) (sameGroup_symm h2))
  · have track := fun {j x r} (h : ReachRoot p2 j x r) =>
      reach_update_track ha2.root hb2.root e h
    refine ⟨Function.update p2 r1 r2, by simp [unionAtoms, hf1, hf2, e], fun i hi =>
      let ⟨r, hr⟩ := hF2 i hi; ⟨_, track hr⟩, ?_⟩
    intro x y hx hy
    rw [← iff2 x y hx hy, ← iff2 x a hx ha, ← iff2 y b hy hb, ← iff2 x b hx hb,
      ← iff2 y a hy ha]
    obtain ⟨rx, hrx⟩ := hF2 x hx
    obtain ⟨ry, hry⟩ := hF2 y hy
    have tx := track hrx
    have ty := track hry
    constructor
    · intro h
      obtain ⟨ky, hy'⟩ := sameGroup_root h tx
      have hnr := ReachRoot.unique hy' ty
      by_cases ex : rx = r1
      · by_cases ey : ry = r1
        · exact Or.inl ⟨r1, _, _, ex ▸ hrx, ey ▸ hry⟩
        · rw [if_pos ex, if_neg ey] at hnr
          exact Or.inr (Or.inl ⟨⟨r1, _, _, ex ▸ hrx, ha2⟩, ⟨r2, _, _, hnr ▸ hry, hb2⟩⟩)
      · by_cases ey : ry = r1
        · rw [if_neg ex, if_pos ey] at hnr
          exact Or.inr (Or.inr ⟨⟨r2, _, _, hnr ▸ hrx, hb2⟩, ⟨r1, _, _, ey ▸ hry, ha2⟩⟩)
        · rw [if_neg ex, if_neg ey] at hnr
          exact Or.inl ⟨rx, _, _, hrx, hnr ▸ hry⟩
    · have ta := track ha2
      have tb := track hb2
      rw [if_pos rfl] at ta
      rw [if_neg (Ne.symm e)] at tb
      rintro (h | ⟨h1, h2⟩ | ⟨h1, h2⟩)
      · obtain ⟨r, j, k', hx', hy'⟩ := h
        exact ⟨_, _, _, track hx', track hy'⟩
      · obtain ⟨r, j, k', hx', ha'⟩ := h1
        obtain ⟨r', j', k'', hy', hb'⟩ := h2
        have e1 := ReachRoot.unique ha' ha2
        have e2 := ReachRoot.unique hb' hb2
        subst e1
        subst e2
        have t1 := track hx'
        have t2 := track hy'
        rw [if_pos rfl] at t1
        rw [if_neg (Ne.symm e)] at t2
        exact ⟨_, _, _, t1, t2⟩
      · obtain ⟨r, j, k', hx', hb'⟩ := h1
        obtain ⟨r', j', k'', hy', ha'⟩ := h2
        have e1 := ReachRoot.unique ha' ha2
        have e2 := ReachRoot.unique hb' hb2
        subst e1
        subst e2
        have t1 := track hx'
        have t2 := track hy'
        rw [if_neg (Ne.symm e)] at t1
        rw [if_pos rfl] at t2
        exact ⟨_, _, _, t1, t2⟩

end Groups

section UnionPhase

theorem joinedBelow_mono {n n' : Nat} {skip : Nat → Prop} {a1 a2 : Nat → Nat} (h : n ≤ n')
    {x y : Nat} (hxy : Relation.EqvGen (JoinedBelow n skip a1 a2) x y) :
    Relation.EqvGen (JoinedBelow n' skip a1 a2) x y :=
  Relation.EqvGen.mono (fun _ _ ⟨k, hk, hs, hx, hy⟩ => ⟨k, lt_of_lt_of_le hk h, hs, hx, hy⟩) hxy

theorem joinedBelow_skip {n : Nat} {skip : Nat → Prop} {a1 a2 : Nat → Nat} (hs : skip n)
    {x y : Nat} (hxy : Relation.EqvGen (JoinedBelow (n + 1) skip a1 a2) x y) :
    Relation.EqvGen (JoinedBelow n skip a1 a2) x y := by
  refine Relation.EqvGen.mono ?_ hxy
  rintro a b ⟨k, hk, hsk, hx, hy⟩
  have hne : k ≠ n := fun e => hsk (e ▸ hs)
  exact ⟨k, by omega, hsk, hx, hy⟩

theorem unionPhase_sem (n cnt fuel : Nat) (skip : Nat → Prop) [DecidablePred skip]
    (a1 a2 : Nat → Nat) (p0 : Nat → Nat) (hends : ∀ k, k < cnt → a1 k < n ∧ a2 k < n)
    (hfuel : cnt < fuel) (h0 : Forest p0 0 n) :
    ∃ p, forLoopM cnt (fun k p => if skip k then some p else unionAtoms fuel p (a1 k) (a2 k))
        p0 = some p ∧ Forest p cnt n ∧
      ∀ x y, x < n → y < n →
        (SameGroup p x y ↔ Relation.EqvGen (JoinedBelow cnt skip a1 a2) x y) := by
  have main := forLoopM_inv (fun (j : Nat) (p : Nat → Nat) => Forest p j n ∧
      (∀ x y, Relation.EqvGen (JoinedBelow j skip a1 a2) x y →
        x = y ∨ (x < n ∧ y < n ∧ SameGroup p x y)) ∧
      (∀ x y, x < n → y < n → SameGroup p x y →
        Relation.EqvGen (JoinedBelow j skip a1 a2) x y)) cnt
    (fun k p => if skip k then some p else unionAtoms fuel p (a1 k) (a2 k)) p0 ?_ ?_
  · obtain ⟨p, hp, hF, hs, hc⟩ := main
    refine ⟨p, hp, hF, fun x y hx hy => ⟨hc x y hx hy, fun h => ?_⟩⟩
    rcases hs x y h with e | ⟨_, _, h'⟩
    · subst e; exact sameGroup_self hF hx
    · exact h'
  · refine ⟨h0, ?_, ?_⟩
    · intro x y h
      left
      induction h with
      | rel x y h => obtain ⟨k, hk, _⟩ := h; exact absurd hk (Nat.not_lt_zero k)
      | refl x => rfl
      | symm x y _ ih => exact ih.symm
      | trans x y z _ _ ih1 ih2 => exact ih1.trans ih2
    · intro x y hx hy h
      obtain ⟨rx, hrx⟩ := h0 x hx
      obtain ⟨ry, hry⟩ := h0 y hy
      obtain ⟨r, j, k, hx', hy'⟩ := h
      have e1 : x = r := ReachRoot.of_root (hrx.1 ▸ hrx.2) hx'
      have e2 : y = r := ReachRoot.of_root (hry.1 ▸ hry.2) hy'
      rw [e1, e2]
      exact Relation.EqvGen.refl r
  · intro j hj p hP
    obtain ⟨hF, hs, hc⟩ := hP
    by_cases hsk : skip j
    · refine ⟨p, by simp only [hsk, if_true], hF.weaken (Nat.le_succ j), ?_, ?_⟩
      · intro x y h
        exact hs x y (joinedBelow_skip hsk h)
      · intro x y hx hy h
        exact joinedBelow_mono (Nat.le_succ j) (hc x y hx hy h)
    · obtain ⟨ha, hb⟩ := hends j hj
      obtain ⟨p', hu, hF', hiff⟩ := unionAtoms_sem hF ha hb (show j < fuel by omega)
      have hab : SameGroup p' (a1 j) (a2 j) :=
        (hiff _ _ ha hb).2 (Or.inr (Or.inl ⟨sameGroup_self hF ha, sameGroup_self hF hb⟩))
      refine ⟨p', by simp only [hsk, if_false]; exact hu, hF', ?_, ?_⟩
      · intro x y h
        induction h with
        | rel x y h =>
          obtain ⟨k, hk, hnk, rfl, rfl⟩ := h
          right
          by_cases e : k = j
          · subst e
            exact ⟨ha, hb, hab⟩
          · have hk' : k < j := by omega
            obtain ⟨hka, hkb⟩ := hends k (by omega)
            refine ⟨hka, hkb, ?_⟩
            rcases hs _ _ (Relation.EqvGen.rel _ _ ⟨k, hk', hnk, rfl, rfl⟩) with e' | ⟨_, _, h'⟩
            · rw [← e']
              exact sameGroup_self hF' hka
            · exact (hiff _ _ hka hkb).2 (Or.inl h')
        | refl x => exact Or.inl rfl
        | symm x y _ ih =>
          rcases ih with e | ⟨h1, h2, h3⟩
          · exact Or.inl e.symm
          · exact Or.inr ⟨h2, h1, sameGroup_symm h3⟩
        | trans x y z _ _ ih1 ih2 =>
          rcases ih1 with e | ⟨h1, h2, h3⟩
          · rw [e]; exact ih2
          · rcases ih2 with e | ⟨h1', h2', h3'⟩
            · rw [← e]; exact Or.inr ⟨h1, h2, h3⟩
            · exact Or.inr ⟨h1, h2', sameGroup_trans h3 h3'⟩
      · intro x y hx hy h
        have up : ∀ u w, u < n → w < n → SameGroup p u w →
            Relation.EqvGen (JoinedBelow (j + 1) skip a1 a2) u w :=
          fun u w hu hw h' => joinedBelow_mono (Nat.le_succ j) (hc u w hu hw h')
        have edge : Relation.EqvGen (JoinedBelow (j + 1) skip a1 a2) (a1 j) (a2 j) :=
          Relation.EqvGen.rel _ _ ⟨j, Nat.lt_succ_self j, hsk, rfl, rfl⟩
        rcases (hiff x y hx hy).1 h with h' | ⟨h1, h2⟩ | ⟨h1, h2⟩
        · exact up x y hx hy h'
        · exact Relation.EqvGen.trans _ _ _ (up _ _ hx ha h1)
            (Relation.EqvGen.trans _ _ _ edge
              (Relation.EqvGen.symm _ _ (up _ _ hy hb h2)))
        · exact Relation.EqvGen.trans _ _ _ (up _ _ hx hb h1)
            (Relation.EqvGen.trans _ _ _ (Relation.EqvGen.symm _ _ edge)
              (Relation.EqvGen.symm _ _ (up _ _ hy ha h2)))

end UnionPhase

section BondGroups

variable {α : Type} [LinearOrderedField α]

theorem reach_back {p p' : Nat → Nat} {k n : Nat} (hF : Forest p k n)
    (hfw : ∀ j x r, ReachRoot p j x r → ReachRoot p' j x r) {x j r : Nat} (hx : x < n)
    (h : ReachRoot p' j x r) : ReachRoot p k x r := by
  obtain ⟨r0, hr0⟩ := hF x hx
  have e := ReachRoot.unique (hfw _ _ _ hr0) h
  subst e
  exact hr0

theorem eqvGen_local (s cnt : Nat) (skip skip' : Nat → Prop) (A1 A2 : Nat → Nat)
    (hsk : ∀ k, skip' k ↔ skip k) (hge : ∀ k, k < cnt → s ≤ A1 k ∧ s ≤ A2 k) {x y : Nat}
    (hx : s ≤ x) (hy : s ≤ y) :
    Relation.EqvGen (JoinedBelow cnt skip' (fun k => A1 k - s) (fun k => A2 k - s))
        (x - s) (y - s) ↔
      Relation.EqvGen (JoinedBelow cnt skip A1 A2) x y := by
  constructor
  · have aux : ∀ u w, Relation.EqvGen (JoinedBelow cnt skip' (fun k => A1 k - s)
        (fun k => A2 k - s)) u w → Relation.EqvGen (JoinedBelow cnt skip A1 A2) (u + s) (w + s) := by
      intro u w h
      induction h with
      | rel u w h =>
        obtain ⟨k, hk, hnk, rfl, rfl⟩ := h
        refine Relation.EqvGen.rel _ _ ⟨k, hk, fun h' => hnk ((hsk k).2 h'), ?_, ?_⟩
        · exact Nat.sub_add_cancel (hge k hk).1
        · exact Nat.sub_add_cancel (hge k hk).2
      | refl u => exact Relation.EqvGen.refl _
      | symm u w _ ih => exact Relation.EqvGen.symm _ _ ih
      | trans u w z _ _ ih1 ih2 => exact Relation.EqvGen.trans _ _ _ ih1 ih2
    intro h
    have h' := aux _ _ h
    rw [Nat.sub_add_cancel hx, Nat.sub_add_cancel hy] at h'
    exact h'
  · intro h
    clear hx hy
    induction h with
    | rel u w h =>
      obtain ⟨k, hk, hnk, rfl, rfl⟩ := h
      exact Relation.EqvGen.rel _ _ ⟨k, hk, fun h' => hnk ((hsk k).1 h'), rfl, rfl⟩
    | refl u => exact Relation.EqvGen.refl _
    | symm u w _ ih => exact Relation.EqvGen.symm _ _ ih
    | trans u w z _ _ ih1 ih2 => exact Relation.EqvGen.trans _ _ _ ih1 ih2

omit [LinearOrderedField α] in
theorem writeDims_apply (c : Nat → Nat → α) (a : Nat) (g : Nat → α → α) (d b : Nat) :
    forLoop NUM_DIMENSIONS (fun j t => setCoord t j a (g j (t j a))) c d b =
      if d < NUM_DIMENSIONS ∧ b = a then g d (c d a) else c d b := by
  simp only [forLoop, NUM_DIMENSIONS, setCoord_apply]
  by_cases hb : b = a
  · subst hb
    rcases d with _ | _ | _ | d
    · simp
    · simp
    · simp
    · have h3 : ¬ (d + 1 + 1 + 1 < 3) := by omega
      simp [h3]
  · simp [hb]

theorem sideRoot_iff {pU : Nat → Nat} {k x y r : Nat} (hy : ReachRoot pU k y r) :
    (∃ j, ReachRoot pU j x r) ↔ SameGroup pU x y := by
  constructor
  · rintro ⟨j, h⟩
    exact ⟨r, j, k, h, hy⟩
  · intro h
    exact sameGroup_root (sameGroup_symm h) hy

theorem stretchBond_sem (fuel : Nat) (M : CMath α) (sb : SimBox α) (m b : Nat) (D : α)
    (hwf : WellFormed sb m) (hfuel : sb.MOL_BOND_COUNT m < fuel)
    (hb : b < sb.MOL_BOND_COUNT m) :
    ∃ sb', stretchBond fuel M sb m b D = some sb' ∧
      (BondLinked sb m b (sb.BOND_A1_IDX (sb.MOL_BOND_START m + b))
          (sb.BOND_A2_IDX (sb.MOL_BOND_START m + b)) →
        sb' = { sb with unionFindParent := sb'.unionFindParent }) ∧
      (¬ BondLinked sb m b (sb.BOND_A1_IDX (sb.MOL_BOND_START m + b))
          (sb.BOND_A2_IDX (sb.MOL_BOND_START m + b)) →
        sb' = { sb with
          unionFindParent := sb'.unionFindParent
          atomCoordinates := sb'.atomCoordinates
          bondLengths := Function.update sb.bondLengths (sb.MOL_BOND_START m + b)
            (sb.bondLengths (sb.MOL_BOND_START m + b) + D) } ∧
        (∀ d a, ¬ (d < NUM_DIMENSIONS ∧ InMol sb m a) →
          sb'.atomCoordinates d a = sb.atomCoordinates d a) ∧
        ∀ d a, d < NUM_DIMENSIONS → InMol sb m a →
          (BondLinked sb m b a (sb.BOND_A2_IDX (sb.MOL_BOND_START m + b)) →
            sb'.atomCoordinates d a = sb.atomCoordinates d a +
              unitVector M sb.atomCoordinates (sb.BOND_A1_IDX (sb.MOL_BOND_START m + b))
                (sb.BOND_A2_IDX (sb.MOL_BOND_START m + b)) d / 2 * D) ∧
          (¬ BondLinked sb m b a (sb.BOND_A2_IDX (sb.MOL_BOND_START m + b)) →
            sb'.atomCoordinates d a = sb.atomCoordinates d a -
              unitVector M sb.atomCoordinates (sb.BOND_A1_IDX (sb.MOL_BOND_START m + b))
                (sb.BOND_A2_IDX (sb.MOL_BOND_START m + b)) d / 2 * D)) := by
  have hloc : ∀ a, InMol sb m a → a - sb.MOL_START m < sb.MOL_LEN m := by
    intro a ha; unfold InMol at ha; omega
  have hends : ∀ k, k < sb.MOL_BOND_COUNT m →
      sb.BOND_A1_IDX (sb.MOL_BOND_START m + k) - sb.MOL_START m < sb.MOL_LEN m ∧
      sb.BOND_A2_IDX (sb.MOL_BOND_START m + k) - sb.MOL_START m < sb.MOL_LEN m :=
    fun k hk => ⟨hloc _ (hwf.1 k hk).1, hloc _ (hwf.1 k hk).2⟩
  have hge : ∀ k, k < sb.MOL_BOND_COUNT m →
      sb.MOL_START m ≤ sb.BOND_A1_IDX (sb.MOL_BOND_START m + k) ∧
      sb.MOL_START m ≤ sb.BOND_A2_IDX (sb.MOL_BOND_START m + k) :=
    fun k hk => ⟨(hwf.1 k hk).1.1, (hwf.1 k hk).2.1⟩
  obtain ⟨pU, hU, hFU, hiffU⟩ := unionPhase_sem (sb.MOL_LEN m) (sb.MOL_BOND_COUNT m) fuel
    (fun k => sb.MOL_BOND_START m + k = b + sb.MOL_BOND_START m)
    (fun k => sb.BOND_A1_IDX (sb.MOL_BOND_START m + k) - sb.MOL_START m)
    (fun k => sb.BOND_A2_IDX (sb.MOL_BOND_START m + k) - sb.MOL_START m)
    (forLoop (sb.MOL_LEN m) (fun i parent => Function.update parent i i) sb.unionFindParent)
    hends hfuel (initParent_forest _ _)
  have hlink : ∀ x y, InMol sb m x → InMol sb m y →
      (SameGroup pU (x - sb.MOL_START m) (y - sb.MOL_START m) ↔ BondLinked sb m b x y) := by
    intro x y hx hy
    rw [hiffU _ _ (hloc x hx) (hloc y hy)]
    exact eqvGen_local (sb.MOL_START m) (sb.MOL_BOND_COUNT m) (fun k => k = b) _
      (fun k => sb.BOND_A1_IDX (sb.MOL_BOND_START m + k))
      (fun k => sb.BOND_A2_IDX (sb.MOL_BOND_START m + k))
      (fun k => by constructor <;> intro h <;> omega) hge hx.1 hy.1
  have he1 := (hwf.1 b hb).1
  have he2 := (hwf.1 b hb).2
  obtain ⟨s1, p1, hf1, hr1, hF1, fw1⟩ := find_sem hFU (hloc _ he1) hfuel
  obtain ⟨s2, p2, hf2, hr2, hF2, fw2⟩ := find_sem hF1 (hloc _ he2) hfuel
  have hr2U := reach_back hFU fw1 (hloc _ he2) hr2
  have fw12 : ∀ j x r, ReachRoot pU j x r → ReachRoot p2 j x r :=
    fun j x r h => fw2 _ _ _ (fw1 _ _ _ h)
  have hside : s1 = s2 ↔ BondLinked sb m b (sb.BOND_A1_IDX (sb.MOL_BOND_START m + b))
      (sb.BOND_A2_IDX (sb.MOL_BOND_START m + b)) := by
    rw [← hlink _ _ he1 he2, ← sideRoot_iff hr2U]
    constructor
    · intro e; exact ⟨_, e ▸ hr1⟩
    · rintro ⟨j, h⟩; exact ReachRoot.unique hr1 h
  have hden : forLoop NUM_DIMENSIONS (fun i denon => denon +
      (sb.atomCoordinates i (sb.BOND_A2_IDX (sb.MOL_BOND_START m + b)) -
        sb.atomCoordinates i (sb.BOND_A1_IDX (sb.MOL_BOND_START m + b))) *
      (sb.atomCoordinates i (sb.BOND_A2_IDX (sb.MOL_BOND_START m + b)) -
        sb.atomCoordinates i (sb.BOND_A1_IDX (sb.MOL_BOND_START m + b)))) (0.0 : α) =
      (sb.atomCoordinates 0 (sb.BOND_A2_IDX (sb.MOL_BOND_START m + b)) -
        sb.atomCoordinates 0 (sb.BOND_A1_IDX (sb.MOL_BOND_START m + b))) ^ 2 +
      (sb.atomCoordinates 1 (sb.BOND_A2_IDX (sb.MOL_BOND_START m + b)) -
        sb.atomCoordinates 1 (sb.BOND_A1_IDX (sb.MOL_BOND_START m + b))) ^ 2 +
      (sb.atomCoordinates 2 (sb.BOND_A2_IDX (sb.MOL_BOND_START m + b)) -
        sb.atomCoordinates 2 (sb.BOND_A1_IDX (sb.MOL_BOND_START m + b))) ^ 2 := by
    simp only [forLoop, NUM_DIMENSIONS]
    norm_num
    ring
  have hV : ∀ d, (sb.atomCoordinates d (sb.BOND_A2_IDX (sb.MOL_BOND_START m + b)) -
        sb.atomCoordinates d (sb.BOND_A1_IDX (sb.MOL_BOND_START m + b))) /
      M.sqrt (forLoop NUM_DIMENSIONS (fun i denon => denon +
        (sb.atomCoordinates i (sb.BOND_A2_IDX (sb.MOL_BOND_START m + b)) -
          sb.atomCoordinates i (sb.BOND_A1_IDX (sb.MOL_BOND_START m + b))) *
        (sb.atomCoordinates i (sb.BOND_A2_IDX (sb.MOL_BOND_START m + b)) -
          sb.atomCoordinates i (sb.BOND_A1_IDX (sb.MOL_BOND_START m + b)))) (0.0 : α)) / 2.0 =
      unitVector M sb.atomCoordinates (sb.BOND_A1_IDX (sb.MOL_BOND_START m + b))
        (sb.BOND_A2_IDX (sb.MOL_BOND_START m + b)) d / 2 := by
    intro d
    rw [hden]
    unfold unitVector
    norm_num
  unfold stretchBond
  simp only [Option.bind_eq_bind, Option.pure_def, Nat.add_sub_cancel_left]
  rw [hU]
  simp only [Option.some_bind, hf1, hf2]
  by_cases hs : s1 = s2
  · rw [if_pos hs]
    exact ⟨_, rfl, fun _ => rfl, fun h => absurd (hside.1 hs) h⟩
  · rw [if_neg hs]
    simp only [hV]
    have hnl : ¬ BondLinked sb m b (sb.BOND_A1_IDX (sb.MOL_BOND_START m + b))
        (sb.BOND_A2_IDX (sb.MOL_BOND_START m + b)) := fun h => hs (hside.2 h)
    apply bind_post (fun st : (Nat → Nat) × (Nat → Nat → α) =>
        Forest st.1 (sb.MOL_BOND_COUNT m) (sb.MOL_LEN m) ∧
        (∀ j x r, ReachRoot pU j x r → ReachRoot st.1 j x r) ∧
        (∀ d a, ¬ (d < NUM_DIMENSIONS ∧ sb.MOL_START m ≤ a ∧ a < sb.MOL_START m + sb.MOL_LEN m) →
          st.2 d a = sb.atomCoordinates d a) ∧
        (∀ d a, d < NUM_DIMENSIONS → sb.MOL_START m ≤ a → a < sb.MOL_START m + sb.MOL_LEN m →
          ((∃ j, ReachRoot pU j (a - sb.MOL_START m) s2) →
            st.2 d a = sb.atomCoordinates d a +
              unitVector M sb.atomCoordinates (sb.BOND_A1_IDX (sb.MOL_BOND_START m + b))
                (sb.BOND_A2_IDX (sb.MOL_BOND_START m + b)) d / 2 * D) ∧
          (¬ (∃ j, ReachRoot pU j (a - sb.MOL_START m) s2) →
            st.2 d a = sb.atomCoordinates d a -
              unitVector M sb.atomCoordinates (sb.BOND_A1_IDX (sb.MOL_BOND_START m + b))
                (sb.BOND_A2_IDX (sb.MOL_BOND_START m + b)) d / 2 * D)))
    · apply forLoopM_inv (fun (i : Nat) (st : (Nat → Nat) × (Nat → Nat → α)) =>
        Forest st.1 (sb.MOL_BOND_COUNT m) (sb.MOL_LEN m) ∧
        (∀ j x r, ReachRoot pU j x r → ReachRoot st.1 j x r) ∧
        (∀ d a, ¬ (d < NUM_DIMENSIONS ∧ sb.MOL_START m ≤ a ∧ a < sb.MOL_START m + i) →
          st.2 d a = sb.atomCoordinates d a) ∧
        (∀ d a, d < NUM_DIMENSIONS → sb.MOL_START m ≤ a → a < sb.MOL_START m + i →
          ((∃ j, ReachRoot pU j (a - sb.MOL_START m) s2) →
            st.2 d a = sb.atomCoordinates d a +
              unitVector M sb.atomCoordinates (sb.BOND_A1_IDX (sb.MOL_BOND_START m + b))
                (sb.BOND_A2_IDX (sb.MOL_BOND_START m + b)) d / 2 * D) ∧
          (¬ (∃ j, ReachRoot pU j (a - sb.MOL_START m) s2) →
            st.2 d a = sb.atomCoordinates d a -
              unitVector M sb.atomCoordinates (sb.BOND_A1_IDX (sb.MOL_BOND_START m + b))
                (sb.BOND_A2_IDX (sb.MOL_BOND_START m + b)) d / 2 * D)))
      · exact ⟨hF2, fw12, fun _ _ _ => rfl, fun d a _ h1 h2 => absurd h2 (by omega)⟩
      · intro i hi st hinv
        obtain ⟨hFs, fws, hout, hin⟩ := hinv
        obtain ⟨r, p', hf, hr, hF', fw'⟩ := find_sem hFs hi hfuel
        have hrU := reach_back hFU fws hi hr
        have hroot : r = s2 ↔ ∃ j, ReachRoot pU j i s2 := by
          constructor
          · intro e; exact ⟨_, e ▸ hrU⟩
          · rintro ⟨j, h⟩; exact ReachRoot.unique hrU h
        rw [hf]
        simp only []
        have hcur : ∀ d, st.2 d (i + sb.MOL_START m) =
            sb.atomCoordinates d (i + sb.MOL_START m) :=
          fun d => hout d _ (fun h => absurd h.2.2 (by omega))
        by_cases hrs : r = s2
        · rw [if_pos hrs]
          refine ⟨_, rfl, hF', fun j x r' h => fw' _ _ _ (fws _ _ _ h), ?_, ?_⟩
          · intro d a h
            refine (writeDims_apply st.2 (i + sb.MOL_START m) (fun j z => z +
              unitVector M sb.atomCoordinates (sb.BOND_A1_IDX (sb.MOL_BOND_START m + b))
                (sb.BOND_A2_IDX (sb.MOL_BOND_START m + b)) j / 2 * D) d a).trans ?_
            rw [if_neg (fun h' => h ⟨h'.1, by omega, by omega⟩)]
            exact hout d a (fun h' => h ⟨h'.1, h'.2.1, by omega⟩)
          · intro d a hd ha1 ha2
            have hw := writeDims_apply st.2 (i + sb.MOL_START m) (fun j z => z +
              unitVector M sb.atomCoordinates (sb.BOND_A1_IDX (sb.MOL_BOND_START m + b))
                (sb.BOND_A2_IDX (sb.MOL_BOND_START m + b)) j / 2 * D) d a
            by_cases ea : a = i + sb.MOL_START m
            · subst ea
              rw [if_pos ⟨hd, rfl⟩, hcur d] at hw
              have ei : i + sb.MOL_START m - sb.MOL_START m = i := by omega
              rw [ei]
              exact ⟨fun _ => hw, fun h => absurd (hroot.1 hrs) h⟩
            · rw [if_neg (fun h' => ea h'.2)] at hw
              have := hin d a hd ha1 (by omega)
              exact ⟨fun h => hw.trans (this.1 h), fun h => hw.trans (this.2 h)⟩
        · rw [if_neg hrs]
          refine ⟨_, rfl, hF', fun j x r' h => fw' _ _ _ (fws _ _ _ h), ?_, ?_⟩
          · intro d a h
            refine (writeDims_apply st.2 (i + sb.MOL_START m) (fun j z => z -
              unitVector M sb.atomCoordinates (sb.BOND_A1_IDX (sb.MOL_BOND_START m + b))
                (sb.BOND_A2_IDX (sb.MOL_BOND_START m + b)) j / 2 * D) d a).trans ?_
            rw [if_neg (fun h' => h ⟨h'.1, by omega, by omega⟩)]
            exact hout d a (fun h' => h ⟨h'.1, h'.2.1, by omega⟩)
          · intro d a hd ha1 ha2
            have hw := writeDims_apply st.2 (i + sb.MOL_START m) (fun j z => z -
              unitVector M sb.atomCoordinates (sb.BOND_A1_IDX (sb.MOL_BOND_START m + b))
                (sb.BOND_A2_IDX (sb.MOL_BOND_START m + b)) j / 2 * D) d a
            by_cases ea : a = i + sb.MOL_START m
            · subst ea
              rw [if_pos ⟨hd, rfl⟩, hcur d] at hw
              have ei : i + sb.MOL_START m - sb.MOL_START m = i := by omega
              rw [ei]
              exact ⟨fun h => absurd (hroot.2 h) hrs, fun _ => hw⟩
            · rw [if_neg (fun h' => ea h'.2)] at hw
              have := hin d a hd ha1 (by omega)
              exact ⟨fun h => hw.trans (this.1 h), fun h => hw.trans (this.2 h)⟩
    · intro st hst
      obtain ⟨-, -, hout, hin⟩ := hst
      refine ⟨_, rfl, fun h => absurd h hnl, fun _ => ⟨rfl,
        fun d a h => hout d a (fun h' => h ⟨h'.1, h'.2.1, h'.2.2⟩), ?_⟩⟩
      intro d a hd ha
      have hk := hin d a hd ha.1 ha.2
      have hiff : (∃ j, ReachRoot pU j (a - sb.MOL_START m) s2) ↔
          BondLinked sb m b a (sb.BOND_A2_IDX (sb.MOL_BOND_START m + b)) := by
        rw [sideRoot_iff hr2U]
        exact hlink _ _ ha he2
      exact ⟨fun h => hk.1 (hiff.2 h), fun h => hk.2 (fun h' => h (hiff.1 h'))⟩

end BondGroups

section RingLemmas

variable {α : Type} [LinearOrderedField α]

theorem stretchBond_of_sides {fuel : Nat} (M : CMath α) {sb : SimBox α} {m b : Nat}
    {s1 s2 : Nat} {p : Nat → Nat} (h : bondSides fuel sb m b = some (s1, s2, p))
    (hs : s1 = s2) (D : α) :
    stretchBond fuel M sb m b D = some { sb with unionFindParent := p } := by
  unfold bondSides at h
  unfold stretchBond
  simp only [Option.bind_eq_bind, Option.pure_def, Option.bind_eq_some, Option.some.injEq,
    Prod.mk.injEq] at h ⊢
  obtain ⟨pU, hU, t1, h1, t2, h2, e1, e2, e3⟩ := h
  refine ⟨pU, hU, t1, h1, t2, h2, ?_⟩
  rw [if_pos (by rw [e1, e2]; exact hs), e3]

theorem expandAngle_of_sides {fuel : Nat} (M : CMath α) {sb : SimBox α} {m g : Nat}
    {g1 g2 : Nat} {p : Nat → Nat} (h : angleSides fuel sb m g = some (g1, g2, p))
    (hs : g1 = g2) (D : α) :
    expandAngle fuel M sb m g D = some { sb with unionFindParent := p } := by
  unfold angleSides at h
  unfold expandAngle
  simp only [Option.bind_eq_bind, Option.pure_def, Option.bind_eq_some, Option.some.injEq,
    Prod.mk.injEq] at h ⊢
  obtain ⟨pU, hU, t1, h1, t2, h2, e1, e2, e3⟩ := h
  refine ⟨pU, hU, t1, h1, t2, h2, ?_⟩
  rw [if_pos (by rw [e1, e2]; exact hs), e3]

omit [LinearOrderedField α] in
theorem bondSides_sem (fuel : Nat) (sb : SimBox α) (m b : Nat)
    (hwf : WellFormed sb m) (hfuel : sb.MOL_BOND_COUNT m < fuel)
    (hb : b < sb.MOL_BOND_COUNT m) :
    ∃ s1 s2 p, bondSides fuel sb m b = some (s1, s2, p) ∧
      (s1 = s2 ↔ BondLinked sb m b (sb.BOND_A1_IDX (sb.MOL_BOND_START m + b))
        (sb.BOND_A2_IDX (sb.MOL_BOND_START m + b))) := by
  have hloc : ∀ a, InMol sb m a → a - sb.MOL_START m < sb.MOL_LEN m := by
    intro a ha; unfold InMol at ha; omega
  have hends : ∀ k, k < sb.MOL_BOND_COUNT m →
      sb.BOND_A1_IDX (sb.MOL_BOND_START m + k) - sb.MOL_START m < sb.MOL_LEN m ∧
      sb.BOND_A2_IDX (sb.MOL_BOND_START m + k) - sb.MOL_START m < sb.MOL_LEN m :=
    fun k hk => ⟨hloc _ (hwf.1 k hk).1, hloc _ (hwf.1 k hk).2⟩
  have hge : ∀ k, k < sb.MOL_BOND_COUNT m →
      sb.MOL_START m ≤ sb.BOND_A1_IDX (sb.MOL_BOND_START m + k) ∧
      sb.MOL_START m ≤ sb.BOND_A2_IDX (sb.MOL_BOND_START m + k) :=
    fun k hk => ⟨(hwf.1 k hk).1.1, (hwf.1 k hk).2.1⟩
  obtain ⟨pU, hU, hFU, hiffU⟩ := unionPhase_sem (sb.MOL_LEN m) (sb.MOL_BOND_COUNT m) fuel
    (fun k => sb.MOL_BOND_START m + k = b + sb.MOL_BOND_START m)
    (fun k => sb.BOND_A1_IDX (sb.MOL_BOND_START m + k) - sb.MOL_START m)
    (fun k => sb.BOND_A2_IDX (sb.MOL_BOND_START m + k) - sb.MOL_START m)
    (forLoop (sb.MOL_LEN m) (fun i parent => Function.update parent i i) sb.unionFindParent)
    hends hfuel (initParent_forest _ _)
  have he1 := (hwf.1 b hb).1
  have he2 := (hwf.1 b hb).2
  obtain ⟨s1, p1, hf1, hr1, hF1, fw1⟩ := find_sem hFU (hloc _ he1) hfuel
  obtain ⟨s2, p2, hf2, hr2, hF2, fw2⟩ := find_sem hF1 (hloc _ he2) hfuel
  have hr2U := reach_back hFU fw1 (hloc _ he2) hr2
  refine ⟨s1, s2, p2, ?_, ?_⟩
  · unfold bondSides
    simp only [Option.bind_eq_bind, Option.pure_def, Nat.add_sub_cancel_left]
    rw [hU]
    simp only [Option.some_bind, hf1, hf2]
  · have hlink := (hiffU _ _ (hloc _ he1) (hloc _ he2)).trans
      (eqvGen_local (sb.MOL_START m) (sb.MOL_BOND_COUNT m) (fun k => k = b) _
        (fun k => sb.BOND_A1_IDX (sb.MOL_BOND_START m + k))
        (fun k => sb.BOND_A2_IDX (sb.MOL_BOND_START m + k))
        (fun k => by constructor <;> intro h <;> omega) hge he1.1 he2.1)
    unfold BondLinked
    rw [← hlink, ← sideRoot_iff hr2U]
    constructor
    · intro e; exact ⟨_, e ▸ hr1⟩
    · rintro ⟨j, h⟩; exact ReachRoot.unique hr1 h

omit [LinearOrderedField α] in
theorem angleSides_sem (fuel : Nat) (sb : SimBox α) (m g : Nat)
    (hwf : WellFormed sb m) (hfuel : sb.MOL_BOND_COUNT m < fuel)
    (hg : g < sb.MOL_ANGLE_COUNT m) :
    ∃ g1 g2 p, angleSides fuel sb m g = some (g1, g2, p) ∧
      (g1 = g2 ↔ AngleLinked sb m (sb.ANGLE_MID_IDX (sb.MOL_ANGLE_START m + g))
        (sb.ANGLE_A1_IDX (sb.MOL_ANGLE_START m + g))
        (sb.ANGLE_A2_IDX (sb.MOL_ANGLE_START m + g))) := by
  have hloc : ∀ a, InMol sb m a → a - sb.MOL_START m < sb.MOL_LEN m := by
    intro a ha; unfold InMol at ha; omega
  have hends : ∀ k, k < sb.MOL_BOND_COUNT m →
      sb.BOND_A1_IDX (sb.MOL_BOND_START m + k) - sb.MOL_START m < sb.MOL_LEN m ∧
      sb.BOND_A2_IDX (sb.MOL_BOND_START m + k) - sb.MOL_START m < sb.MOL_LEN m :=
    fun k hk => ⟨hloc _ (hwf.1 k hk).1, hloc _ (hwf.1 k hk).2⟩
  have hge : ∀ k, k < sb.MOL_BOND_COUNT m →
      sb.MOL_START m ≤ sb.BOND_A1_IDX (sb.MOL_BOND_START m + k) ∧
      sb.MOL_START m ≤ sb.BOND_A2_IDX (sb.MOL_BOND_START m + k) :=
    fun k hk => ⟨(hwf.1 k hk).1.1, (hwf.1 k hk).2.1⟩
  obtain ⟨pU, hU, hFU, hiffU⟩ := unionPhase_sem (sb.MOL_LEN m) (sb.MOL_BOND_COUNT m) fuel
    (fun k => sb.BOND_A1_IDX (sb.MOL_BOND_START m + k) =
        sb.ANGLE_MID_IDX (sb.MOL_ANGLE_START m + g) ∨
      sb.BOND_A2_IDX (sb.MOL_BOND_START m + k) = sb.ANGLE_MID_IDX (sb.MOL_ANGLE_START m + g))
    (fun k => sb.BOND_A1_IDX (sb.MOL_BOND_START m + k) - sb.MOL_START m)
    (fun k => sb.BOND_A2_IDX (sb.MOL_BOND_START m + k) - sb.MOL_START m)
    (forLoop (sb.MOL_LEN m) (fun i parent => Function.update parent i i) sb.unionFindParent)
    hends hfuel (initParent_forest _ _)
  have he1 := (hwf.2 g hg).1
  have he2 := (hwf.2 g hg).2
  obtain ⟨s1, p1, hf1, hr1, hF1, fw1⟩ := find_sem hFU (hloc _ he1) hfuel
  obtain ⟨s2, p2, hf2, hr2, hF2, fw2⟩ := find_sem hF1 (hloc _ he2) hfuel
  have hr2U := reach_back hFU fw1 (hloc _ he2) hr2
  refine ⟨s1, s2, p2, ?_, ?_⟩
  · unfold angleSides
    simp only [Option.bind_eq_bind, Option.pure_def, Nat.add_sub_cancel_left]
    rw [hU]
    simp only [Option.some_bind, hf1, hf2]
  · have hlink := (hiffU _ _ (hloc _ he1) (hloc _ he2)).trans
      (eqvGen_local (sb.MOL_START m) (sb.MOL_BOND_COUNT m) _ _
        (fun k => sb.BOND_A1_IDX (sb.MOL_BOND_START m + k))
        (fun k => sb.BOND_A2_IDX (sb.MOL_BOND_START m + k))
        (fun k => Iff.rfl) hge he1.1 he2.1)
    unfold AngleLinked
    rw [← hlink, ← sideRoot_iff hr2U]
    constructor
    · intro e; exact ⟨_, e ▸ hr1⟩
    · rintro ⟨j, h⟩; exact ReachRoot.unique hr1 h

omit [LinearOrderedField α] in
theorem singleCycle_linked {sb : SimBox α} {m : Nat} {atom bond : Nat → Nat}
    (hc : SingleCycle sb m atom bond) {b : Nat} (hb : b < sb.MOL_BOND_COUNT m) :
    BondLinked sb m b (sb.BOND_A1_IDX (sb.MOL_BOND_START m + b))
      (sb.BOND_A2_IDX (sb.MOL_BOND_START m + b)) := by
  have hbl : b < sb.MOL_LEN m := hc.count ▸ hb
  obtain ⟨i0, hi0, rfl⟩ := hc.bondSurj b hbl
  have step : ∀ i, i < sb.MOL_LEN m → i ≠ i0 →
      BondLinked sb m (bond i0) (atom i) (atom (if i + 1 < sb.MOL_LEN m then i + 1 else 0)) := by
    intro i hi hne
    have hk : bond i < sb.MOL_BOND_COUNT m := by rw [hc.count]; exact hc.bondLt i hi
    have hnk : ¬ bond i = bond i0 := fun e => hne (hc.bondInj i i0 hi hi0 e)
    rcases hc.joins i hi with ⟨e1, e2⟩ | ⟨e1, e2⟩
    · exact Relation.EqvGen.rel _ _ ⟨bond i, hk, hnk, e1.symm, e2.symm⟩
    · exact Relation.EqvGen.symm _ _
        (Relation.EqvGen.rel _ _ ⟨bond i, hk, hnk, e1.symm, e2.symm⟩)
  have chain : ∀ lo d, lo + d < sb.MOL_LEN m → (∀ i, lo ≤ i → i < lo + d → i ≠ i0) →
      BondLinked sb m (bond i0) (atom lo) (atom (lo + d)) := by
    intro lo d
    induction d with
    | zero => intro _ _; exact Relation.EqvGen.refl _
    | succ d ih =>
      intro hlt hne
      have h1 := ih (by omega) (fun i h1 h2 => hne i h1 (by omega))
      have h2 := step (lo + d) (by omega) (hne (lo + d) (by omega) (by omega))
      rw [if_pos (by omega)] at h2
      exact Relation.EqvGen.trans _ _ _ h1 h2
  have key : BondLinked sb m (bond i0) (atom i0)
      (atom (if i0 + 1 < sb.MOL_LEN m then i0 + 1 else 0)) := by
    have hsize := hc.size
    have c0 : BondLinked sb m (bond i0) (atom 0) (atom i0) := by
      have := chain 0 i0 (by omega) (fun i _ h => by omega)
      rw [Nat.zero_add] at this
      exact this
    by_cases hlast : i0 + 1 < sb.MOL_LEN m
    · rw [if_pos hlast]
      have c1 := chain (i0 + 1) (sb.MOL_LEN m - 1 - (i0 + 1)) (by omega) (fun i h _ => by omega)
      have e : i0 + 1 + (sb.MOL_LEN m - 1 - (i0 + 1)) = sb.MOL_LEN m - 1 := by omega
      rw [e] at c1
      have c2 := step (sb.MOL_LEN m - 1) (by omega) (by omega)
      rw [if_neg (by omega)] at c2
      exact Relation.EqvGen.symm _ _
        (Relation.EqvGen.trans _ _ _ c1 (Relation.EqvGen.trans _ _ _ c2 c0))
    · rw [if_neg hlast]
      exact Relation.EqvGen.symm _ _ c0
  rcases hc.joins i0 hi0 with ⟨e1, e2⟩ | ⟨e1, e2⟩
  · rw [e1, e2]; exact key
  · rw [e1, e2]; exact Relation.EqvGen.symm _ _ key

end RingLemmas

section RingClaim

variable {α : Type} [LinearOrderedField α]

/-- Claim C11: for a bond of molecule `m`, the first part of `stretchBond` returns
`side1`, `side2`, which are equal exactly when a path of other bonds of `m` joins the
two ends of the bond; and when they are equal `stretchBond` returns, for every delta,
the box it was given with only `unionFindParent` replaced, so that no coordinate, bond
length or angle size changes.  The same holds for `expandAngle` with `group1`,
`group2` and the paths of bonds that avoid the middle atom.  In particular
`stretchBond` on any bond of a molecule whose bond graph is a single cycle changes
nothing but `unionFindParent`. -/
theorem ring_noop (fuel : Nat) (M : CMath α) (sb : SimBox α) (m : Nat)
    (hwf : WellFormed sb m) (hfuel : sb.MOL_BOND_COUNT m < fuel) :
    (∀ b, b < sb.MOL_BOND_COUNT m → ∃ s1 s2 p, bondSides fuel sb m b = some (s1, s2, p) ∧
      (s1 = s2 ↔ BondLinked sb m b (sb.BOND_A1_IDX (sb.MOL_BOND_START m + b))
        (sb.BOND_A2_IDX (sb.MOL_BOND_START m + b))) ∧
      (s1 = s2 → ∀ D, stretchBond fuel M sb m b D = some { sb with unionFindParent := p })) ∧
    (∀ g, g < sb.MOL_ANGLE_COUNT m → ∃ g1 g2 p, angleSides fuel sb m g = some (g1, g2, p) ∧
      (g1 = g2 ↔ AngleLinked sb m (sb.ANGLE_MID_IDX (sb.MOL_ANGLE_START m + g))
        (sb.ANGLE_A1_IDX (sb.MOL_ANGLE_START m + g))
        (sb.ANGLE_A2_IDX (sb.MOL_ANGLE_START m + g))) ∧
      (g1 = g2 → ∀ D, expandAngle fuel M sb m g D = some { sb with unionFindParent := p })) ∧
    (∀ atom bond, SingleCycle sb m atom bond → ∀ b, b < sb.MOL_BOND_COUNT m → ∀ D,
      ∃ p, stretchBond fuel M sb m b D = some { sb with unionFindParent := p }) := by
  refine ⟨?_, ?_, ?_⟩
  · intro b hb
    obtain ⟨s1, s2, p, h, hiff⟩ := bondSides_sem fuel sb m b hwf hfuel hb
    exact ⟨s1, s2, p, h, hiff, fun hs D => stretchBond_of_sides M h hs D⟩
  · intro g hg
    obtain ⟨g1, g2, p, h, hiff⟩ := angleSides_sem fuel sb m g hwf hfuel hg
    exact ⟨g1, g2, p, h, hiff, fun hs D => expandAngle_of_sides M h hs D⟩
  · intro atom bond hc b hb D
    obtain ⟨s1, s2, p, h, hiff⟩ := bondSides_sem fuel sb m b hwf hfuel hb
    exact ⟨p, stretchBond_of_sides M h (hiff.2 (singleCycle_linked hc hb)) D⟩

end RingClaim

/-- Witness of `ring_noop` on the ring box: stretching its bond `1 - 2` changes nothing
but `unionFindParent`. -/
theorem ring_noop_witness :
    WellFormed ringBox 0 ∧ ringBox.MOL_BOND_COUNT 0 < 4 ∧
    SingleCycle ringBox 0 (fun i => i) (fun i => i) ∧
    ∀ D : ℚ, ∃ p, stretchBond 4 ratMath ringBox 0 1 D =
      some { ringBox with unionFindParent := p } := by
  have h1 : WellFormed ringBox 0 := by
    constructor
    · intro k hk
      simp only [ringBox, chainBox, InMol] at hk ⊢
      split_ifs <;> omega
    · intro k hk
      simp only [ringBox, chainBox, InMol] at hk ⊢
      omega
  have h2 : ringBox.MOL_BOND_COUNT 0 < 4 := by decide
  have h3 : SingleCycle ringBox 0 (fun i => i) (fun i => i) := by
    refine ⟨by decide, rfl, ?_, fun _ _ _ _ h => h, fun _ h => h, fun _ _ _ _ h => h,
      fun b hb => ⟨b, hb, rfl⟩, ?_⟩
    · intro i hi
      simp only [ringBox, chainBox, InMol] at hi ⊢
      omega
    · intro i hi
      left
      simp only [ringBox, chainBox] at hi ⊢
      refine ⟨by omega, ?_⟩
      split_ifs <;> omega
  exact ⟨h1, h2, h3, fun D => (ring_noop 4 ratMath ringBox 0 h1 h2).2.2 _ _ h3 1 (by decide) D⟩

section StretchClaim

theorem eqvGen_invariant {β : Type} {E : Nat → Nat → Prop} (f : Nat → β)
    (hE : ∀ x y, E x y → f x = f y) {x y : Nat} (h : Relation.EqvGen E x y) : f x = f y := by
  induction h with
  | rel x y h => exact hE x y h
  | refl x => rfl
  | symm x y _ ih => exact ih.symm
  | trans x y z _ _ ih1 ih2 => exact ih1.trans ih2

/-- Claim C12: for a bond `b` of molecule `m` whose ends `e1`, `e2` are joined by no
path of other bonds of `m` (the bond is not in a ring) and have distinct positions,
`stretchBond(m, b, D)` returns; with `v` the unit vector from `e1` to `e2` before the
move, every atom of `m` joined to `e2` by a path of bonds other than `b` is moved by
`+ v D / 2`, every other atom of `m` by `- v D / 2`, atoms outside `m` keep their
coordinates, `bondLengths[b]` grows by `D` and no other bond length and no angle size
changes. -/
theorem stretchBond_spec (fuel : Nat) (sb : SimBox ℝ) (m b : Nat) (D : ℝ)
    (hwf : WellFormed sb m) (hfuel : sb.MOL_BOND_COUNT m < fuel)
    (hb : b < sb.MOL_BOND_COUNT m)
    (hring : ¬ BondLinked sb m b (sb.BOND_A1_IDX (sb.MOL_BOND_START m + b))
      (sb.BOND_A2_IDX (sb.MOL_BOND_START m + b)))
    (hpos : ∃ d, d < NUM_DIMENSIONS ∧
      sb.atomCoordinates d (sb.BOND_A1_IDX (sb.MOL_BOND_START m + b)) ≠
        sb.atomCoordinates d (sb.BOND_A2_IDX (sb.MOL_BOND_START m + b))) :
    ∃ sb', stretchBond fuel (CMath.mk Real.sqrt Real.cos Real.sin Real.exp) sb m b D =
        some sb' ∧
      unitVector (CMath.mk Real.sqrt Real.cos Real.sin Real.exp) sb.atomCoordinates
          (sb.BOND_A1_IDX (sb.MOL_BOND_START m + b))
          (sb.BOND_A2_IDX (sb.MOL_BOND_START m + b)) 0 ^ 2 +
        unitVector (CMath.mk Real.sqrt Real.cos Real.sin Real.exp) sb.atomCoordinates
          (sb.BOND_A1_IDX (sb.MOL_BOND_START m + b))
          (sb.BOND_A2_IDX (sb.MOL_BOND_START m + b)) 1 ^ 2 +
        unitVector (CMath.mk Real.sqrt Real.cos Real.sin Real.exp) sb.atomCoordinates
          (sb.BOND_A1_IDX (sb.MOL_BOND_START m + b))
          (sb.BOND_A2_IDX (sb.MOL_BOND_START m + b)) 2 ^ 2 = 1 ∧
      (∀ d a, d < NUM_DIMENSIONS → InMol sb m a →
        (BondLinked sb m b a (sb.BOND_A2_IDX (sb.MOL_BOND_START m + b)) →
          sb'.atomCoordinates d a = sb.atomCoordinates d a +
            unitVector (CMath.mk Real.sqrt Real.cos Real.sin Real.exp) sb.atomCoordinates
              (sb.BOND_A1_IDX (sb.MOL_BOND_START m + b))
              (sb.BOND_A2_IDX (sb.MOL_BOND_START m + b)) d * D / 2) ∧
        (¬ BondLinked sb m b a (sb.BOND_A2_IDX (sb.MOL_BOND_START m + b)) →
          sb'.atomCoordinates d a = sb.atomCoordinates d a -
            unitVector (CMath.mk Real.sqrt Real.cos Real.sin Real.exp) sb.atomCoordinates
              (sb.BOND_A1_IDX (sb.MOL_BOND_START m + b))
              (sb.BOND_A2_IDX (sb.MOL_BOND_START m + b)) d * D / 2)) ∧
      (∀ d a, ¬ InMol sb m a → sb'.atomCoordinates d a = sb.atomCoordinates d a) ∧
      sb'.bondLengths (sb.MOL_BOND_START m + b) = sb.bondLengths (sb.MOL_BOND_START m + b) + D ∧
      (∀ k, k ≠ sb.MOL_BOND_START m + b → sb'.bondLengths k = sb.bondLengths k) ∧
      sb'.angleSizes = sb.angleSizes := by
  obtain ⟨sb', hsome, -, hnon⟩ := stretchBond_sem fuel
    (CMath.mk Real.sqrt Real.cos Real.sin Real.exp) sb m b D hwf hfuel hb
  obtain ⟨hsb', hout, hin⟩ := hnon hring
  have hbl : sb'.bondLengths = Function.update sb.bondLengths (sb.MOL_BOND_START m + b)
      (sb.bondLengths (sb.MOL_BOND_START m + b) + D) := by rw [hsb']
  have hang : sb'.angleSizes = sb.angleSizes := by rw [hsb']
  refine ⟨sb', hsome, ?_, ?_, fun d a h => hout d a (fun h' => h h'.2), ?_, ?_, hang⟩
  · obtain ⟨d, hd, hne⟩ := hpos
    unfold unitVector
    simp only []
    have hS : 0 < (sb.atomCoordinates 0 (sb.BOND_A2_IDX (sb.MOL_BOND_START m + b)) -
          sb.atomCoordinates 0 (sb.BOND_A1_IDX (sb.MOL_BOND_START m + b))) ^ 2 +
        (sb.atomCoordinates 1 (sb.BOND_A2_IDX (sb.MOL_BOND_START m + b)) -
          sb.atomCoordinates 1 (sb.BOND_A1_IDX (sb.MOL_BOND_START m + b))) ^ 2 +
        (sb.atomCoordinates 2 (sb.BOND_A2_IDX (sb.MOL_BOND_START m + b)) -
          sb.atomCoordinates 2 (sb.BOND_A1_IDX (sb.MOL_BOND_START m + b))) ^ 2 := by
      have hv : sb.atomCoordinates d (sb.BOND_A2_IDX (sb.MOL_BOND_START m + b)) -
          sb.atomCoordinates d (sb.BOND_A1_IDX (sb.MOL_BOND_START m + b)) ≠ 0 :=
        fun h => hne (sub_eq_zero.1 h).symm
      have hsq := pow_pos (abs_pos.2 hv) 2
      rw [sq_abs] at hsq
      unfold NUM_DIMENSIONS at hd
      interval_cases d
      · nlinarith [sq_nonneg (sb.atomCoordinates 1 (sb.BOND_A2_IDX (sb.MOL_BOND_START m + b)) -
            sb.atomCoordinates 1 (sb.BOND_A1_IDX (sb.MOL_BOND_START m + b))),
          sq_nonneg (sb.atomCoordinates 2 (sb.BOND_A2_IDX (sb.MOL_BOND_START m + b)) -
            sb.atomCoordinates 2 (sb.BOND_A1_IDX (sb.MOL_BOND_START m + b)))]
      · nlinarith [sq_nonneg (sb.atomCoordinates 0 (sb.BOND_A2_IDX (sb.MOL_BOND_START m + b)) -
            sb.atomCoordinates 0 (sb.BOND_A1_IDX (sb.MOL_BOND_START m + b))),
          sq_nonneg (sb.atomCoordinates 2 (sb.BOND_A2_IDX (sb.MOL_BOND_START m + b)) -
            sb.atomCoordinates 2 (sb.BOND_A1_IDX (sb.MOL_BOND_START m + b)))]
      · nlinarith [sq_nonneg (sb.atomCoordinates 0 (sb.BOND_A2_IDX (sb.MOL_BOND_START m + b)) -
            sb.atomCoordinates 0 (sb.BOND_A1_IDX (sb.MOL_BOND_START m + b))),
          sq_nonneg (sb.atomCoordinates 1 (sb.BOND_A2_IDX (sb.MOL_BOND_START m + b)) -
            sb.atomCoordinates 1 (sb.BOND_A1_IDX (sb.MOL_BOND_START m + b)))]
    rw [div_pow, div_pow, div_pow, Real.sq_sqrt (le_of_lt hS), ← add_div, ← add_div]
    exact div_self (ne_of_gt hS)
  · intro d a hd ha
    obtain ⟨h1, h2⟩ := hin d a hd ha
    constructor
    · intro h
      rw [h1 h]
      ring
    · intro h
      rw [h2 h]
      ring
  · rw [hbl, Function.update_same]
  · intro k hk
    rw [hbl, Function.update_noteq hk]

end StretchClaim

/-- Witness of `stretchBond_spec`, scenario S5: on the chain `0 - 1 - 2` on the x axis,
stretching the bond `0 - 1` by `0.2` moves atom `0` by `-0.1` and the atoms `1` and `2`
by `+0.1` along the x axis, and the stored length of the bond grows by `0.2`. -/
theorem stretchBond_spec_witness :
    WellFormed (lineBox ℝ) 0 ∧ (lineBox ℝ).MOL_BOND_COUNT 0 < 3 ∧
    0 < (lineBox ℝ).MOL_BOND_COUNT 0 ∧
    ¬ BondLinked (lineBox ℝ) 0 0 ((lineBox ℝ).BOND_A1_IDX ((lineBox ℝ).MOL_BOND_START 0 + 0))
      ((lineBox ℝ).BOND_A2_IDX ((lineBox ℝ).MOL_BOND_START 0 + 0)) ∧
    (∃ d, d < NUM_DIMENSIONS ∧
      (lineBox ℝ).atomCoordinates d ((lineBox ℝ).BOND_A1_IDX ((lineBox ℝ).MOL_BOND_START 0 + 0)) ≠
        (lineBox ℝ).atomCoordinates d
          ((lineBox ℝ).BOND_A2_IDX ((lineBox ℝ).MOL_BOND_START 0 + 0))) ∧
    ∃ sb', stretchBond 3 (CMath.mk Real.sqrt Real.cos Real.sin Real.exp) (lineBox ℝ) 0 0 0.2 =
        some sb' ∧
      sb'.atomCoordinates 0 0 = -0.1 ∧ sb'.atomCoordinates 0 1 = 1.1 ∧
      sb'.atomCoordinates 0 2 = 2.1 ∧ sb'.bondLengths 0 = 1.2 ∧ sb'.bondLengths 1 = 1 := by
  have h1 : WellFormed (lineBox ℝ) 0 := by
    constructor
    · intro k hk
      simp only [lineBox, InMol] at hk ⊢
      omega
    · intro k hk
      simp only [lineBox, InMol] at hk ⊢
      omega
  have h2 : (lineBox ℝ).MOL_BOND_COUNT 0 < 3 := by decide
  have h3 : 0 < (lineBox ℝ).MOL_BOND_COUNT 0 := by decide
  have side : ∀ x y, BondLinked (lineBox ℝ) 0 0 x y → (x = 0 ↔ y = 0) := by
    intro x y h
    have e := eqvGen_invariant (fun x => decide (x = 0)) (fun x y hxy => by
      obtain ⟨k, hk, hnk, rfl, rfl⟩ := hxy
      simp only [lineBox] at hk ⊢
      have : k = 1 := by omega
      subst this
      rfl) h
    simpa using e
  have h4 : ¬ BondLinked (lineBox ℝ) 0 0
      ((lineBox ℝ).BOND_A1_IDX ((lineBox ℝ).MOL_BOND_START 0 + 0))
      ((lineBox ℝ).BOND_A2_IDX ((lineBox ℝ).MOL_BOND_START 0 + 0)) := by
    intro h
    have := (side _ _ h).1 rfl
    simp [lineBox] at this
  have h5 : ∃ d, d < NUM_DIMENSIONS ∧
      (lineBox ℝ).atomCoordinates d ((lineBox ℝ).BOND_A1_IDX ((lineBox ℝ).MOL_BOND_START 0 + 0)) ≠
        (lineBox ℝ).atomCoordinates d
          ((lineBox ℝ).BOND_A2_IDX ((lineBox ℝ).MOL_BOND_START 0 + 0)) :=
    ⟨0, by decide, by simp [lineBox]⟩
  obtain ⟨sb', hs, -, hin, -, hb0, hbk, -⟩ := stretchBond_spec 3 (lineBox ℝ) 0 0 0.2 h1 h2 h3 h4 h5
  have hU : unitVector (CMath.mk Real.sqrt Real.cos Real.sin Real.exp)
      (lineBox ℝ).atomCoordinates ((lineBox ℝ).BOND_A1_IDX ((lineBox ℝ).MOL_BOND_START 0 + 0))
      ((lineBox ℝ).BOND_A2_IDX ((lineBox ℝ).MOL_BOND_START 0 + 0)) 0 = 1 := by
    simp [unitVector, lineBox]
  have l1 : BondLinked (lineBox ℝ) 0 0 1
      ((lineBox ℝ).BOND_A2_IDX ((lineBox ℝ).MOL_BOND_START 0 + 0)) := Relation.EqvGen.refl 1
  have l2 : BondLinked (lineBox ℝ) 0 0 2
      ((lineBox ℝ).BOND_A2_IDX ((lineBox ℝ).MOL_BOND_START 0 + 0)) :=
    Relation.EqvGen.symm _ _ (Relation.EqvGen.rel _ _ ⟨1, by decide, by decide, rfl, rfl⟩)
  have c0 := (hin 0 0 (by decide) ⟨Nat.le_refl 0, by decide⟩).2 h4
  have c1 := (hin 0 1 (by decide) ⟨Nat.zero_le 1, by decide⟩).1 l1
  have c2 := (hin 0 2 (by decide) ⟨Nat.zero_le 2, by decide⟩).1 l2
  rw [hU] at c0 c1 c2
  have b1 := hbk 1 (by decide)
  refine ⟨h1, h2, h3, h4, h5, sb', hs, ?_, ?_, ?_, ?_, ?_⟩
  · rw [c0]; simp [lineBox]; norm_num
  · rw [c1]; simp [lineBox]; norm_num
  · rw [c2]; simp [lineBox]; norm_num
  · have := hb0; simp [lineBox] at this; rw [this]; norm_num
  · rw [b1]; simp [lineBox]

section EnergyLemmas

variable {α : Type} [LinearOrderedField α]

theorem forLoop_sum (n : Nat) (f : Nat → α) (x0 : α) :
    forLoop n (fun k out => out + f k) x0 = x0 + Finset.sum (Finset.range n) f := by
  induction n with
  | zero => simp [forLoop]
  | succ n ih =>
    simp only [forLoop, ih, Finset.sum_range_succ]
    ring

theorem scanRow_iff (row : List Int) (x : Int) :
    scanRow row x = true ↔ listed row x := by
  unfold listed
  induction row with
  | nil => simp [scanRow]
  | cons v rest ih =>
    simp only [scanRow]
    by_cases hv : v = -1
    · simp [hv]
    · rw [if_neg hv, List.takeWhile_cons_of_pos (by simpa using hv)]
      by_cases hvx : v = x
      · simp [hvx]
      · rw [if_neg hvx, ih]
        simp [Ne.symm hvx]

theorem fudgeSpec_eq (sb : SimBox α) (t i j : Nat) :
    fudgeSpec sb t i j =
      if scanRow (sb.excludeAtoms t i) (j : Int) then 0
      else if scanRow (sb.fudgeAtoms t i) (j : Int) then 0.5 else 1 := by
  unfold fudgeSpec
  by_cases hx : scanRow (sb.excludeAtoms t i) (j : Int) = true
  · rw [if_pos hx, if_pos ((scanRow_iff _ _).1 hx)]
  · rw [if_neg hx, if_neg (fun h => hx ((scanRow_iff _ _).2 h))]
    by_cases hf : scanRow (sb.fudgeAtoms t i) (j : Int) = true
    · rw [if_pos hf, if_pos ((scanRow_iff _ _).1 hf)]
    · rw [if_neg hf, if_neg (fun h => hf ((scanRow_iff _ _).2 h))]

theorem bondEnergy_eq_spec (sb : SimBox α) (m : Nat) : bondEnergy sb m = bondEnergySpec sb m := by
  unfold bondEnergy bondEnergySpec
  simp only []
  rw [forLoop_congr _ _ (fun k out => out +
    (if sb.BOND_VARIABLE (sb.MOL_BOND_START m + k) then
      sb.BOND_KBOND (sb.MOL_BOND_START m + k) *
        (sb.BOND_EQDIST (sb.MOL_BOND_START m + k) - sb.bondLengths (sb.MOL_BOND_START m + k)) ^ 2
    else 0)), forLoop_sum, zero_add]
  intro k _ out
  split_ifs
  · ring
  · ring

theorem angleEnergy_eq_spec (sb : SimBox α) (m : Nat) :
    angleEnergy sb m = angleEnergySpec sb m := by
  unfold angleEnergy angleEnergySpec
  simp only []
  rw [forLoop_congr _ _ (fun k out => out +
    (if sb.ANGLE_VARIABLE (sb.MOL_ANGLE_START m + k) then
      sb.ANGLE_KANGLE (sb.MOL_ANGLE_START m + k) *
        (sb.ANGLE_EQANGLE (sb.MOL_ANGLE_START m + k) - sb.angleSizes (sb.MOL_ANGLE_START m + k)) ^ 2
    else 0)), forLoop_sum, zero_add]
  intro k _ out
  split_ifs
  · ring
  · ring

theorem sum_above (n i : Nat) (f : Nat → α) :
    Finset.sum (Finset.range (n - (i + 1))) (fun kj => f (i + 1 + kj)) =
      Finset.sum (Finset.range n) (fun j => if i < j then f j else 0) := by
  rw [← Finset.sum_filter, ← Finset.sum_Ico_eq_sum_range]
  congr 1
  ext j
  simp only [Finset.mem_Ico, Finset.mem_filter, Finset.mem_range]
  omega

theorem pairLoop_eq_spec (M : CMath α) (sb : SimBox α) (m ki : Nat) (out : α) :
    forLoop (sb.MOL_START m + sb.MOL_LEN m - (sb.MOL_START m + ki + 1)) (fun kj out =>
        let j := sb.MOL_START m + ki + 1 + kj
        let fudgeFactor : α :=
          if scanRow (sb.excludeAtoms (sb.MOL_TYPE m) (sb.MOL_START m + ki - sb.MOL_START m))
            ((j - sb.MOL_START m : Nat) : Int) then 0.0 else 1.0
        let fudgeFactor : α :=
          if fudgeFactor > 0.0 then
            if scanRow (sb.fudgeAtoms (sb.MOL_TYPE m) (sb.MOL_START m + ki - sb.MOL_START m))
              ((j - sb.MOL_START m : Nat) : Int) then 0.5 else fudgeFactor
          else fudgeFactor
        if fudgeFactor > 0.0 then
          let r2 := calcAtomDistSquared (sb.MOL_START m + ki) j sb.atomCoordinates sb.size
          let r := M.sqrt r2
          let energy := calcLJEnergy M (sb.MOL_START m + ki) j r2 sb.ATOM_SIGMA sb.ATOM_EPSILON
          let energy := energy + calcChargeEnergy (sb.MOL_START m + ki) j r sb.ATOM_CHARGE
          out + fudgeFactor * energy
        else out) out =
      out + Finset.sum (Finset.range (sb.MOL_LEN m)) (fun j =>
        if ki < j then pairEnergySpec M sb m ki j else 0) := by
  rw [forLoop_congr _ _ (fun kj out => out + pairEnergySpec M sb m ki (ki + 1 + kj)),
    forLoop_sum]
  · congr 1
    have e : sb.MOL_START m + sb.MOL_LEN m - (sb.MOL_START m + ki + 1) =
        sb.MOL_LEN m - (ki + 1) := by omega
    rw [e]
    exact sum_above (sb.MOL_LEN m) ki (fun j => pairEnergySpec M sb m ki j)
  · intro kj _ out'
    have e1 : sb.MOL_START m + ki - sb.MOL_START m = ki := by omega
    have e3 : sb.MOL_START m + ki + 1 + kj = sb.MOL_START m + (ki + 1 + kj) := by omega
    have e4 : sb.MOL_START m + (ki + 1 + kj) - sb.MOL_START m = ki + 1 + kj := by omega
    have key : ∀ (bx bf : Bool) (E : α),
        (let fudgeFactor : α := if bx then 0.0 else 1.0
         let fudgeFactor : α :=
           if fudgeFactor > 0.0 then (if bf then 0.5 else fudgeFactor) else fudgeFactor
         if fudgeFactor > 0.0 then out' + fudgeFactor * E else out') =
        out' + (if bx then 0 else if bf then 0.5 else 1) * E := by
      intro bx bf E
      cases bx <;> cases bf <;> norm_num
    simp only [e1, e3, e4, pairEnergySpec, fudgeSpec_eq]
    exact key _ _ _

theorem calcIntraMolecularEnergy_eq_spec (M : CMath α) (sb : SimBox α) (m : Nat) :
    calcIntraMolecularEnergy M sb m = calcIntraMolecularEnergySpec M sb m := by
  unfold calcIntraMolecularEnergy calcIntraMolecularEnergySpec
  simp only []
  rw [forLoop_congr _ _ (fun ki out => out + Finset.sum (Finset.range (sb.MOL_LEN m)) (fun j =>
        if ki < j then pairEnergySpec M sb m ki j else 0)), forLoop_sum,
    bondEnergy_eq_spec, angleEnergy_eq_spec]
  · have z : (0.0 : α) = 0 := by norm_num
    rw [z, zero_add, Nat.add_sub_cancel_left]
  · intro ki _ out
    exact pairLoop_eq_spec M sb m ki out

theorem calcSystemEnergy_eq (contribution : Nat → Nat → α) (M : CMath α) (sb : SimBox α)
    (subLJ subCharge : α) (numMolecules : Nat) :
    calcSystemEnergy contribution M sb subLJ subCharge numMolecules =
      (subLJ + subCharge + Finset.sum (Finset.range numMolecules) (fun mol =>
        contribution mol mol + calcIntraMolecularEnergy M sb mol), subLJ, subCharge) := by
  unfold calcSystemEnergy
  simp only [Prod.mk.injEq, and_true]
  refine forLoop_inv (fun (k : Nat) (st : SystemEnergyLocals α) =>
    st.total = subLJ + subCharge + Finset.sum (Finset.range k) (fun mol =>
        contribution mol mol + calcIntraMolecularEnergy M sb mol)) numMolecules _ _ ?_ ?_
  · simp
  · intro k _ t ht
    simp only [VERBOSE, if_true, calcMoleculeEnergy, Finset.sum_range_succ, ht]
    ring

end EnergyLemmas

section EnergyClaims

variable {α : Type} [LinearOrderedField α]

/-- Claim C16: `calcIntraMolecularEnergy` of the code is the energy of the
specification: the angle term plus the bond term (each the sum of `K (EQ - current)^2`
over the entries flagged `VARIABLE`) plus the sum over the pairs `i < j` of atoms of the
molecule of `fudge(i, j) (LJ + Coulomb)`; and `fudge(i, j)` is `0` exactly when `j` is
listed in the exclude row of `i`, whatever the fudge row holds. -/
theorem calcIntraMolecularEnergy_refines_spec (M : CMath α) (sb : SimBox α) (m : Nat) :
    calcIntraMolecularEnergy M sb m = calcIntraMolecularEnergySpec M sb m ∧
    angleEnergy sb m = angleEnergySpec sb m ∧ bondEnergy sb m = bondEnergySpec sb m ∧
    ∀ t i j : Nat, fudgeSpec sb t i j = 0 ↔ listed (sb.excludeAtoms t i) (j : Int) := by
  refine ⟨calcIntraMolecularEnergy_eq_spec M sb m, angleEnergy_eq_spec sb m,
    bondEnergy_eq_spec sb m, ?_⟩
  intro t i j
  unfold fudgeSpec
  by_cases hx : listed (sb.excludeAtoms t i) (j : Int)
  · simp [hx]
  · by_cases hf : listed (sb.fudgeAtoms t i) (j : Int)
    · rw [if_neg hx, if_pos hf]
      constructor
      · intro h
        norm_num at h
      · intro h
        exact absurd h hx
    · simp [hx, hf]

/-- Claim C17: `calcSystemEnergy(subLJ, subCharge, N)` returns `subLJ + subCharge` plus
the sum over the molecules `m < N` of `calcMolecularEnergyContribution(m, m)` plus
`calcIntraMolecularEnergy(m)`, returns `subLJ + subCharge` when `N = 0`, and hands back
`subLJ` and `subCharge` as it received them. -/
theorem calcSystemEnergy_spec (contribution : Nat → Nat → α) (M : CMath α) (sb : SimBox α)
    (subLJ subCharge : α) (numMolecules : Nat) :
    calcSystemEnergy contribution M sb subLJ subCharge numMolecules =
      (subLJ + subCharge + Finset.sum (Finset.range numMolecules) (fun mol =>
        contribution mol mol + calcIntraMolecularEnergy M sb mol), subLJ, subCharge) ∧
    calcSystemEnergy contribution M sb subLJ subCharge 0 =
      (subLJ + subCharge, subLJ, subCharge) := by
  refine ⟨calcSystemEnergy_eq contribution M sb subLJ subCharge numMolecules, ?_⟩
  rw [calcSystemEnergy_eq]
  simp

end EnergyClaims

section Insensitive

variable {α : Type} [LinearOrderedField α]

theorem bind_map_congr {β γ δ : Type} {x : Option β} {f : β → Option γ} {f' : β → Option δ}
    {g : γ → δ} (h : ∀ a, f' a = (f a).map g) : x.bind f' = (x.bind f).map g := by
  cases x with
  | none => rfl
  | some a => exact h a

theorem expandAngle_accepted (fuel : Nat) (M : CMath α) (s : SimBox α) (m i : Nat) (x : α)
    (v : Nat) :
    expandAngle fuel M { s with numAcceptedBondMoves := v } m i x =
      (expandAngle fuel M s m i x).map (fun t => { t with numAcceptedBondMoves := v }) := by
  unfold expandAngle
  simp only [Option.bind_eq_bind, Option.pure_def]
  refine bind_map_congr (fun p => ?_)
  refine bind_map_congr (fun t1 => ?_)
  refine bind_map_congr (fun t2 => ?_)
  by_cases h : t1.1 = t2.1
  · simp only [h, if_true]
    rfl
  · simp only [h, if_false]
    refine bind_map_congr (fun t3 => ?_)
    rfl

theorem moveSelected_accepted (fuel : Nat) (M : CMath α) (m : Nat) (sf : α) (dist : Nat → α)
    (v : Nat) : ∀ (idx : List Nat) (k : Nat) (s : SimBox α),
    moveSelected (fun sb angle expandDist => expandAngle fuel M sb m angle expandDist) sf dist
        idx k { s with numAcceptedBondMoves := v } =
      (moveSelected (fun sb angle expandDist => expandAngle fuel M sb m angle expandDist) sf dist
        idx k s).map (fun t => { t with numAcceptedBondMoves := v }) := by
  intro idx
  induction idx with
  | nil => intro k s; rfl
  | cons i rest ih =>
    intro k s
    simp only [moveSelected]
    rw [expandAngle_accepted]
    cases expandAngle fuel M s m i (sf * dist k) with
    | none => rfl
    | some t => exact ih (k + 1) t

theorem angleBatch_accepted (fuel : Nat) (M : CMath α) (s : SimBox α) (m : Nat)
    (ad : BatchDraws α) (isf ce : α) (v : Nat) :
    angleBatch fuel M { s with numAcceptedBondMoves := v } m ad isf ce =
      (angleBatch fuel M s m ad isf ce).map
        (fun r => ({ r.1 with numAcceptedBondMoves := v }, r.2)) := by
  rw [angleBatch_eq, angleBatch_eq]
  refine bind_map_congr (fun idx => ?_)
  have key := moveSelected_accepted fuel M m
    (0.25 + (0.75 / ((batchSize (s.MOL_ANGLE_COUNT m) ad.numToMove s.maxIntraMoves : Nat) : α))
      * isf) ad.dist v idx 0
    { s with numAngleMoves := s.numAngleMoves +
        batchSize (s.MOL_ANGLE_COUNT m) ad.numToMove s.maxIntraMoves }
  refine (congrArg (fun o => Option.bind o _) key).trans ?_
  cases moveSelected (fun sb angle expandDist => expandAngle fuel M sb m angle expandDist)
    (0.25 + (0.75 / ((batchSize (s.MOL_ANGLE_COUNT m) ad.numToMove s.maxIntraMoves : Nat) : α))
      * isf) ad.dist idx 0
    { s with numAngleMoves := s.numAngleMoves +
        batchSize (s.MOL_ANGLE_COUNT m) ad.numToMove s.maxIntraMoves } with
  | none => rfl
  | some sM =>
    simp only [Option.map_some', Option.some_bind]
    by_cases hc : acceptMove M sM.kT ce (calcIntraMolecularEnergy M sM m) ad.accept = true
    · rw [if_pos hc]
      exact (congrArg some (congrArg (fun b => (b, _)) (if_pos hc))).trans rfl
    · rw [if_neg hc]
      exact (congrArg some (congrArg (fun b => (b, _)) (if_neg hc))).trans rfl

theorem bondBatch_accept {fuel : Nat} {M : CMath α} {s : SimBox α} {m : Nat}
    {bd : BatchDraws α} {isf ce u : α} {r r' : SimBox α × α}
    (h : bondBatch fuel M s m bd isf ce = some r)
    (h' : bondBatch fuel M s m { bd with accept := u } isf ce = some r') :
    r'.2 = r.2 ∧ ∃ v, r'.1 = { r.1 with numAcceptedBondMoves := v } := by
  rw [bondBatch_eq] at h h'
  simp only [Option.bind_eq_some, Option.some.injEq] at h h'
  obtain ⟨idx, hidx, sM, hM, rfl⟩ := h
  obtain ⟨idx', hidx', sM', hM', rfl⟩ := h'
  have e1 : idx' = idx := Option.some.inj (hidx'.symm.trans hidx)
  subst e1
  have e2 : sM' = sM := Option.some.inj (hM'.symm.trans hM)
  subst e2
  refine ⟨rfl, ?_⟩
  simp only []
  split_ifs
  · exact ⟨_, rfl⟩
  · exact ⟨_, rfl⟩
  · exact ⟨sM'.numAcceptedBondMoves, rfl⟩
  · exact ⟨sM'.numAcceptedBondMoves, rfl⟩

theorem angleBatch_accept {fuel : Nat} {M : CMath α} {s : SimBox α} {m : Nat}
    {ad : BatchDraws α} {isf ce w : α} {r r' : SimBox α × α}
    (h : angleBatch fuel M s m ad isf ce = some r)
    (h' : angleBatch fuel M s m { ad with accept := w } isf ce = some r') :
    ∃ v, r'.1 = { r.1 with numAcceptedAngleMoves := v } := by
  rw [angleBatch_eq] at h h'
  simp only [Option.bind_eq_some, Option.some.injEq] at h h'
  obtain ⟨idx, hidx, sM, hM, rfl⟩ := h
  obtain ⟨idx', hidx', sM', hM', rfl⟩ := h'
  have e1 : idx' = idx := Option.some.inj (hidx'.symm.trans hidx)
  subst e1
  have e2 : sM' = sM := Option.some.inj (hM'.symm.trans hM)
  subst e2
  simp only []
  split_ifs
  · exact ⟨_, rfl⟩
  · exact ⟨_, rfl⟩
  · exact ⟨sM'.numAcceptedAngleMoves, rfl⟩
  · exact ⟨sM'.numAcceptedAngleMoves, rfl⟩

theorem tuneDeltas_statistics (t : SimBox α) (v w : Nat) (angleDelta : α) :
    StatisticsOnly (tuneDeltas t angleDelta)
      (tuneDeltas { t with numAcceptedBondMoves := v, numAcceptedAngleMoves := w } angleDelta) := by
  unfold StatisticsOnly tuneDeltas
  simp only []
  split_ifs <;> rfl

end Insensitive

section StatisticsClaim

variable {α : Type} [LinearOrderedField α]

/-- Claim C19: the Monte-Carlo test of `intramolecularMove` only feeds the statistics.
Two runs from the same box with the same draws except the uniform values handed to
`acceptMove` in the two batches both return, and their results have the same atom
coordinates, bond lengths and angle sizes: they differ at most in the two counters of
accepted moves and in the two maximum deltas, and before the tuning block at most in
the two counters of accepted moves.  In both runs `numBondMoves` has grown by the size
of the bond batch when the tuning block is reached. -/
theorem mc_test_feeds_statistics (fuel : Nat) (M : CMath α) (sb : SimBox α) (m : Nat)
    (bd ad : BatchDraws α) (u w : α) (hwf : WellFormed sb m)
    (hfuel : sb.MOL_BOND_COUNT m < fuel)
    (hbd : ∀ x ∈ bd.indexes, x < sb.MOL_BOND_COUNT m)
    (had : ∀ x ∈ ad.indexes, x < sb.MOL_ANGLE_COUNT m)
    (hbsel : (selectIndexes (if sb.MOL_BOND_COUNT m > 3 then min bd.numToMove sb.maxIntraMoves
      else sb.MOL_BOND_COUNT m) bd.indexes []).isSome = true)
    (hasel : (selectIndexes (if sb.MOL_ANGLE_COUNT m > 3 then min ad.numToMove sb.maxIntraMoves
      else sb.MOL_ANGLE_COUNT m) ad.indexes []).isSome = true) :
    ∃ s1 s2 t1 t2 : SimBox α,
      intramolecularMove fuel M sb m bd ad = some s1 ∧
      intramolecularMove fuel M sb m { bd with accept := u } { ad with accept := w } = some s2 ∧
      s1.atomCoordinates = s2.atomCoordinates ∧ s1.bondLengths = s2.bondLengths ∧
      s1.angleSizes = s2.angleSizes ∧ StatisticsOnly s1 s2 ∧
      s1 = (if sb.stepNum ≠ 0 ∧ sb.stepNum % 1000 = 0 then tuneDeltas t1 sb.maxAngleDelta
        else t1) ∧
      s2 = (if sb.stepNum ≠ 0 ∧ sb.stepNum % 1000 = 0 then tuneDeltas t2 sb.maxAngleDelta
        else t2) ∧
      AcceptedOnly t1 t2 ∧
      t1.numBondMoves = sb.numBondMoves +
        batchSize (sb.MOL_BOND_COUNT m) bd.numToMove sb.maxIntraMoves ∧
      t2.numBondMoves = sb.numBondMoves +
        batchSize (sb.MOL_BOND_COUNT m) bd.numToMove sb.maxIntraMoves := by
  obtain ⟨s1, h1, -⟩ := intramolecularMove_frame fuel M sb m bd ad hwf hfuel hbd had hbsel hasel
  obtain ⟨s2, h2, -⟩ := intramolecularMove_frame fuel M sb m { bd with accept := u }
    { ad with accept := w } hwf hfuel hbd had hbsel hasel
  have g1 := h1
  have g2 := h2
  unfold intramolecularMove at g1 g2
  have hB : (ENABLE_BOND ≠ 0) = True := eq_true (by decide)
  have hA : (ENABLE_ANGLE ≠ 0) = True := eq_true (by decide)
  have hT : (ENABLE_TUNING = true) = True := eq_true (by decide)
  simp only [Option.bind_eq_bind, Option.pure_def, hB, hA, hT, if_true, true_and,
    Option.bind_eq_some] at g1 g2
  obtain ⟨r1, hb1, r2, ha1, hf1⟩ := g1
  obtain ⟨r1', hb2, r2', ha2, hf2⟩ := g2
  obtain ⟨e2, v, e1⟩ := bondBatch_accept hb1 hb2
  obtain ⟨b1, b2, -, -, -, -, -⟩ := bondBatch_counts hb1
  obtain ⟨a1, -, -, a4, -, -, -⟩ := angleBatch_counts ha1
  rw [e1, e2, angleBatch_accepted, Option.map_eq_some'] at ha2
  obtain ⟨q, hq, hq'⟩ := ha2
  obtain ⟨v', e3⟩ := angleBatch_accept ha1 hq
  have hS : Stepped sb (saveAngles (saveBonds sb m) m) := rfl
  have hst : Stepped sb r2.1 := stepped_trans hS (stepped_trans b1 a1)
  have e4 : r2.1.stepNum = sb.stepNum := by unfold Stepped at hst; rw [hst]
  have e5 : r2'.1 = { r2.1 with numAcceptedBondMoves := v, numAcceptedAngleMoves := v' } := by
    rw [← hq', e3]
  have e6 : r2'.1.stepNum = sb.stepNum := by rw [e5]; exact e4
  have hacc : AcceptedOnly r2.1 r2'.1 := by
    unfold AcceptedOnly
    rw [e5]
  have hn1 : r2.1.numBondMoves = sb.numBondMoves +
      batchSize (sb.MOL_BOND_COUNT m) bd.numToMove sb.maxIntraMoves := by
    rw [a4, b2]; rfl
  have hn2 : r2'.1.numBondMoves = sb.numBondMoves +
      batchSize (sb.MOL_BOND_COUNT m) bd.numToMove sb.maxIntraMoves := by
    rw [e5]; exact hn1
  rw [e4] at hf1
  rw [e6] at hf2
  have hs1 : s1 = (if sb.stepNum ≠ 0 ∧ sb.stepNum % 1000 = 0 then
      tuneDeltas r2.1 sb.maxAngleDelta else r2.1) := by
    by_cases ht : sb.stepNum ≠ 0 ∧ sb.stepNum % 1000 = 0
    · rw [if_pos ht] at hf1 ⊢
      exact (Option.some.inj hf1).symm
    · rw [if_neg ht] at hf1 ⊢
      exact (Option.some.inj hf1).symm
  have hs2 : s2 = (if sb.stepNum ≠ 0 ∧ sb.stepNum % 1000 = 0 then
      tuneDeltas r2'.1 sb.maxAngleDelta else r2'.1) := by
    by_cases ht : sb.stepNum ≠ 0 ∧ sb.stepNum % 1000 = 0
    · rw [if_pos ht] at hf2 ⊢
      exact (Option.some.inj hf2).symm
    · rw [if_neg ht] at hf2 ⊢
      exact (Option.some.inj hf2).symm
  have hstat : StatisticsOnly s1 s2 := by
    rw [hs1, hs2]
    by_cases ht : sb.stepNum ≠ 0 ∧ sb.stepNum % 1000 = 0
    · rw [if_pos ht, if_pos ht, e5]
      exact tuneDeltas_statistics r2.1 v v' sb.maxAngleDelta
    · rw [if_neg ht, if_neg ht]
      unfold StatisticsOnly
      rw [e5]
  have hstat' := hstat
  unfold StatisticsOnly at hstat'
  refine ⟨s1, s2, r2.1, r2'.1, h1, h2, ?_, ?_, ?_, hstat, hs1, hs2, hacc, hn1, hn2⟩
  · rw [hstat']
  · rw [hstat']
  · rw [hstat']

end StatisticsClaim

/-- Witness of `mc_test_feeds_statistics` on the chain box: the runs with the accept
draws `0`, `0` and with the accept draws `1`, `1` end with the same geometry. -/
theorem mc_test_feeds_statistics_witness :
    WellFormed chainBox 0 ∧ chainBox.MOL_BOND_COUNT 0 < 3 ∧
    (∀ x ∈ chainBondDraws.indexes, x < chainBox.MOL_BOND_COUNT 0) ∧
    (∀ x ∈ chainAngleDraws.indexes, x < chainBox.MOL_ANGLE_COUNT 0) ∧
    (selectIndexes (if chainBox.MOL_BOND_COUNT 0 > 3
      then min chainBondDraws.numToMove chainBox.maxIntraMoves
      else chainBox.MOL_BOND_COUNT 0) chainBondDraws.indexes []).isSome = true ∧
    (selectIndexes (if chainBox.MOL_ANGLE_COUNT 0 > 3
      then min chainAngleDraws.numToMove chainBox.maxIntraMoves
      else chainBox.MOL_ANGLE_COUNT 0) chainAngleDraws.indexes []).isSome = true ∧
    ∃ s1 s2, intramolecularMove 3 ratMath chainBox 0 chainBondDraws chainAngleDraws = some s1 ∧
      intramolecularMove 3 ratMath chainBox 0 { chainBondDraws with accept := 1 }
        { chainAngleDraws with accept := 1 } = some s2 ∧
      s1.atomCoordinates = s2.atomCoordinates ∧ s1.bondLengths = s2.bondLengths ∧
      s1.angleSizes = s2.angleSizes ∧
      s1.numBondMoves = chainBox.numBondMoves + 2 ∧
      s2.numBondMoves = chainBox.numBondMoves + 2 := by
  have h1 : WellFormed chainBox 0 := by
    constructor
    · intro k hk
      simp only [chainBox, InMol] at hk ⊢
      omega
    · intro k hk
      simp only [chainBox, InMol] at hk ⊢
      omega
  have h2 : chainBox.MOL_BOND_COUNT 0 < 3 := by decide
  have h3 : ∀ x ∈ chainBondDraws.indexes, x < chainBox.MOL_BOND_COUNT 0 := by decide
  have h4 : ∀ x ∈ chainAngleDraws.indexes, x < chainBox.MOL_ANGLE_COUNT 0 := by decide
  have h5 : (selectIndexes (if chainBox.MOL_BOND_COUNT 0 > 3
      then min chainBondDraws.numToMove chainBox.maxIntraMoves
      else chainBox.MOL_BOND_COUNT 0) chainBondDraws.indexes []).isSome = true := by decide
  have h6 : (selectIndexes (if chainBox.MOL_ANGLE_COUNT 0 > 3
      then min chainAngleDraws.numToMove chainBox.maxIntraMoves
      else chainBox.MOL_ANGLE_COUNT 0) chainAngleDraws.indexes []).isSome = true := by decide
  obtain ⟨s1, s2, t1, t2, r1, r2, hc, hb, ha, -, e1, e2, -, n1, n2⟩ :=
    mc_test_feeds_statistics 3 ratMath chainBox 0 chainBondDraws chainAngleDraws 1 1
      h1 h2 h3 h4 h5 h6
  rw [if_neg (by decide)] at e1 e2
  subst e1
  subst e2
  exact ⟨h1, h2, h3, h4, h5, h6, s1, s2, r1, r2, hc, hb, ha, n1, n2⟩

section InRangeLemmas

variable {α : Type} [LinearOrderedField α]

theorem orLoop_true (n : Nat) (f : Nat → Bool) (b : Bool) :
    forLoop n (fun k out => out || f k) b = true ↔ b = true ∨ ∃ k, k < n ∧ f k = true := by
  induction n with
  | zero => simp [forLoop]
  | succ n ih =>
    simp only [forLoop, Bool.or_eq_true, ih]
    constructor
    · rintro ((h | ⟨k, hk, h⟩) | h)
      · exact Or.inl h
      · exact Or.inr ⟨k, Nat.lt_succ_of_lt hk, h⟩
      · exact Or.inr ⟨n, Nat.lt_succ_self n, h⟩
    · rintro (h | ⟨k, hk, h⟩)
      · exact Or.inl (Or.inl h)
      · rcases Nat.lt_succ_iff_lt_or_eq.1 hk with hk' | rfl
        · exact Or.inl (Or.inr ⟨k, hk', h⟩)
        · exact Or.inr h

theorem orLoop2_true (n1 n2 : Nat) (f : Nat → Nat → Bool) (b : Bool) :
    forLoop n1 (fun k1 out => forLoop n2 (fun k2 out => out || f k1 k2) out) b = true ↔
      b = true ∨ ∃ k1 k2, k1 < n1 ∧ k2 < n2 ∧ f k1 k2 = true := by
  induction n1 with
  | zero => simp [forLoop]
  | succ n ih =>
    simp only [forLoop, orLoop_true, ih]
    constructor
    · rintro ((h | ⟨k1, k2, h1, h2, h⟩) | ⟨k2, h2, h⟩)
      · exact Or.inl h
      · exact Or.inr ⟨k1, k2, Nat.lt_succ_of_lt h1, h2, h⟩
      · exact Or.inr ⟨n, k2, Nat.lt_succ_self n, h2, h⟩
    · rintro (h | ⟨k1, k2, h1, h2, h⟩)
      · exact Or.inl (Or.inl h)
      · rcases Nat.lt_succ_iff_lt_or_eq.1 h1 with h1' | rfl
        · exact Or.inl (Or.inr ⟨k1, k2, h1', h2, h⟩)
        · exact Or.inr ⟨k2, h2, h⟩

/-- Claim C21: `moleculesInRange` returns `true` exactly when some `p1Idx` in
`[p1Start, p1End)` and some `p2Idx` in `[p2Start, p2End)` have
`calcAtomDistSquared(primaryIndexes[p1Idx], primaryIndexes[p2Idx])` at most `cutoff^2`,
and it returns `false` when the first or the second range is empty, that is when its
start is its end plus some `k ≥ 0`. -/
theorem moleculesInRange_spec (p1Start p1End p2Start p2End : Nat) (c : Nat → Nat → α)
    (L : Nat → α) (primaryIndexes : Nat → Nat) (cutoff : α) :
    (moleculesInRange p1Start p1End p2Start p2End c L primaryIndexes cutoff = true ↔
      ∃ p1Idx p2Idx, p1Start ≤ p1Idx ∧ p1Idx < p1End ∧ p2Start ≤ p2Idx ∧ p2Idx < p2End ∧
        calcAtomDistSquared (primaryIndexes p1Idx) (primaryIndexes p2Idx) c L ≤ cutoff ^ 2) ∧
    (∀ k, moleculesInRange (p1End + k) p1End p2Start p2End c L primaryIndexes cutoff = false) ∧
    (∀ k, moleculesInRange p1Start p1End (p2End + k) p2End c L primaryIndexes cutoff = false) := by
  have key : ∀ s1 e1 s2 e2 : Nat,
      moleculesInRange s1 e1 s2 e2 c L primaryIndexes cutoff = true ↔
      ∃ p1Idx p2Idx, s1 ≤ p1Idx ∧ p1Idx < e1 ∧ s2 ≤ p2Idx ∧ p2Idx < e2 ∧
        calcAtomDistSquared (primaryIndexes p1Idx) (primaryIndexes p2Idx) c L ≤ cutoff ^ 2 := by
    intro s1 e1 s2 e2
    unfold moleculesInRange
    simp only []
    rw [orLoop2_true (e1 - s1) (e2 - s2) (fun k1 k2 =>
      decide (calcAtomDistSquared (primaryIndexes (s1 + k1)) (primaryIndexes (s2 + k2)) c L ≤
        cutoff * cutoff))]
    simp only [Bool.false_eq_true, false_or, decide_eq_true_eq, ← pow_two]
    constructor
    · rintro ⟨k1, k2, h1, h2, h⟩
      exact ⟨s1 + k1, s2 + k2, by omega, by omega, by omega, by omega, h⟩
    · rintro ⟨i1, i2, h1, h2, h3, h4, h⟩
      refine ⟨i1 - s1, i2 - s2, by omega, by omega, ?_⟩
      rw [Nat.add_sub_cancel' h1, Nat.add_sub_cancel' h3]
      exact h
  refine ⟨key _ _ _ _, ?_, ?_⟩
  · intro k
    rw [← Bool.not_eq_true, key]
    rintro ⟨i1, i2, h1, h2, -⟩
    omega
  · intro k
    rw [← Bool.not_eq_true, key]
    rintro ⟨i1, i2, -, -, h3, h4, -⟩
    omega

end InRangeLemmas

section PartitionClaim

variable {α : Type}

/-- Claim C22: in `stretchBond(m, b, ·)` the partition phase returns a parent array,
and on it, for all local atoms `i`, `j` of `m`, `find(i)` followed by `find(j)` return
the same representative exactly when a path of bonds of `m` other than `b` joins the
atoms `i` and `j`; the path compression of each `find` leaves unchanged which local
atoms share a representative. -/
theorem bond_partition_correct (fuel : Nat) (sb : SimBox α) (m b : Nat)
    (hwf : WellFormed sb m) (hfuel : sb.MOL_BOND_COUNT m < fuel) :
    ∃ pU, bondPartition fuel sb m b = some pU ∧
      ∀ i j, i < sb.MOL_LEN m → j < sb.MOL_LEN m →
        ∃ ri p1 rj p2, find fuel pU i = some (ri, p1) ∧ find fuel p1 j = some (rj, p2) ∧
          (ri = rj ↔ BondLinked sb m b (sb.MOL_START m + i) (sb.MOL_START m + j)) ∧
          (∀ x y, x < sb.MOL_LEN m → y < sb.MOL_LEN m →
            (SameGroup p1 x y ↔ SameGroup pU x y)) ∧
          (∀ x y, x < sb.MOL_LEN m → y < sb.MOL_LEN m →
            (SameGroup p2 x y ↔ SameGroup pU x y)) := by
  have hloc : ∀ a, InMol sb m a → a - sb.MOL_START m < sb.MOL_LEN m := by
    intro a ha; unfold InMol at ha; omega
  have hends : ∀ k, k < sb.MOL_BOND_COUNT m →
      sb.BOND_A1_IDX (sb.MOL_BOND_START m + k) - sb.MOL_START m < sb.MOL_LEN m ∧
      sb.BOND_A2_IDX (sb.MOL_BOND_START m + k) - sb.MOL_START m < sb.MOL_LEN m :=
    fun k hk => ⟨hloc _ (hwf.1 k hk).1, hloc _ (hwf.1 k hk).2⟩
  have hge : ∀ k, k < sb.MOL_BOND_COUNT m →
      sb.MOL_START m ≤ sb.BOND_A1_IDX (sb.MOL_BOND_START m + k) ∧
      sb.MOL_START m ≤ sb.BOND_A2_IDX (sb.MOL_BOND_START m + k) :=
    fun k hk => ⟨(hwf.1 k hk).1.1, (hwf.1 k hk).2.1⟩
  obtain ⟨pU, hU, hFU, hiffU⟩ := unionPhase_sem (sb.MOL_LEN m) (sb.MOL_BOND_COUNT m) fuel
    (fun k => sb.MOL_BOND_START m + k = b + sb.MOL_BOND_START m)
    (fun k => sb.BOND_A1_IDX (sb.MOL_BOND_START m + k) - sb.MOL_START m)
    (fun k => sb.BOND_A2_IDX (sb.MOL_BOND_START m + k) - sb.MOL_START m)
    (forLoop (sb.MOL_LEN m) (fun i parent => Function.update parent i i) sb.unionFindParent)
    hends hfuel (initParent_forest _ _)
  refine ⟨pU, ?_, ?_⟩
  · unfold bondPartition
    simp only [Nat.add_sub_cancel_left]
    exact hU
  · intro i j hi hj
    obtain ⟨ri, p1, hf1, hr1, hF1, fw1⟩ := find_sem hFU hi hfuel
    obtain ⟨rj, p2, hf2, hr2, hF2, fw2⟩ := find_sem hF1 hj hfuel
    have hr2U := reach_back hFU fw1 hj hr2
    refine ⟨ri, p1, rj, p2, hf1, hf2, ?_,
      fun x y hx hy => sameGroup_iff_of_preserves hFU fw1 hx hy,
      fun x y hx hy => sameGroup_iff_of_preserves hFU
        (fun k x r h => fw2 _ _ _ (fw1 _ _ _ h)) hx hy⟩
    have hl := eqvGen_local (sb.MOL_START m) (sb.MOL_BOND_COUNT m) (fun k => k = b)
      (fun k => sb.MOL_BOND_START m + k = b + sb.MOL_BOND_START m)
      (fun k => sb.BOND_A1_IDX (sb.MOL_BOND_START m + k))
      (fun k => sb.BOND_A2_IDX (sb.MOL_BOND_START m + k))
      (fun k => by constructor <;> intro h <;> omega) hge
      (Nat.le_add_right (sb.MOL_START m) i) (Nat.le_add_right (sb.MOL_START m) j)
    rw [Nat.add_sub_cancel_left, Nat.add_sub_cancel_left] at hl
    have hlink := (hiffU i j hi hj).trans hl
    unfold BondLinked
    rw [← hlink, ← sideRoot_iff hr2U]
    constructor
    · intro e; exact ⟨_, e ▸ hr1⟩
    · rintro ⟨k, h⟩; exact ReachRoot.unique hr1 h

end PartitionClaim

/-- Witness of `bond_partition_correct` on the chain box, for its bond `0 - 1`. -/
theorem bond_partition_correct_witness :
    WellFormed chainBox 0 ∧ chainBox.MOL_BOND_COUNT 0 < 3 ∧
    ∃ pU, bondPartition 3 chainBox 0 0 = some pU ∧
      ∀ i j, i < chainBox.MOL_LEN 0 → j < chainBox.MOL_LEN 0 →
        ∃ ri p1 rj p2, find 3 pU i = some (ri, p1) ∧ find 3 p1 j = some (rj, p2) ∧
          (ri = rj ↔ BondLinked chainBox 0 0 (chainBox.MOL_START 0 + i)
            (chainBox.MOL_START 0 + j)) := by
  have h1 : WellFormed chainBox 0 := by
    constructor
    · intro k hk
      simp only [chainBox, InMol] at hk ⊢
      omega
    · intro k hk
      simp only [chainBox, InMol] at hk ⊢
      omega
  have h2 : chainBox.MOL_BOND_COUNT 0 < 3 := by decide
  obtain ⟨pU, hU, h⟩ := bond_partition_correct 3 chainBox 0 0 h1 h2
  refine ⟨h1, h2, pU, hU, fun i j hi hj => ?_⟩
  obtain ⟨ri, p1, rj, p2, e1, e2, e3, -, -⟩ := h i j hi hj
  exact ⟨ri, p1, rj, p2, e1, e2, e3⟩

section UnionFindClaim

theorem find_below {n : Nat} : ∀ (fuel : Nat) (p : Nat → Nat) (a r : Nat) (p' : Nat → Nat),
    (∀ i, i < n → p i < n) → a < n → find fuel p a = some (r, p') →
      r < n ∧ ∀ i, i < n → p' i < n := by
  intro fuel
  induction fuel with
  | zero => intro p a r p' _ _ h; simp [find] at h
  | succ f ih =>
    intro p a r p' hp ha h
    unfold find at h
    by_cases e : p a = a
    · rw [if_pos e] at h
      simp only [Option.some.injEq, Prod.mk.injEq] at h
      obtain ⟨rfl, rfl⟩ := h
      exact ⟨ha, hp⟩
    · rw [if_neg e] at h
      cases hrec : find f p (p a) with
      | none => rw [hrec] at h; simp at h
      | some t =>
        obtain ⟨r1, p1⟩ := t
        rw [hrec] at h
        simp only [Option.some.injEq, Prod.mk.injEq] at h
        obtain ⟨rfl, rfl⟩ := h
        obtain ⟨hr, hp1⟩ := ih p (p a) r1 p1 hp (hp a ha) hrec
        refine ⟨hr, fun i hi => ?_⟩
        by_cases ei : i = a
        · subst ei; simp [hr]
        · rw [Function.update_noteq ei]; exact hp1 i hi

theorem unionAtoms_below {n fuel : Nat} {p p' : Nat → Nat} {a b : Nat}
    (hp : ∀ i, i < n → p i < n) (ha : a < n) (hb : b < n)
    (h : unionAtoms fuel p a b = some p') : ∀ i, i < n → p' i < n := by
  unfold unionAtoms at h
  cases h1 : find fuel p a with
  | none => rw [h1] at h; simp at h
  | some t1 =>
    obtain ⟨r1, p1⟩ := t1
    rw [h1] at h
    simp only [] at h
    obtain ⟨hr1, hp1⟩ := find_below fuel p a r1 p1 hp ha h1
    cases h2 : find fuel p1 b with
    | none => rw [h2] at h; simp at h
    | some t2 =>
      obtain ⟨r2, p2⟩ := t2
      rw [h2] at h
      simp only [] at h
      obtain ⟨hr2, hp2⟩ := find_below fuel p1 b r2 p2 hp1 hb h2
      by_cases e : r1 = r2
      · simp only [e, ne_eq, not_true_eq_false, if_false, Option.some.injEq] at h
        subst h
        exact hp2
      · simp only [ne_eq, e, not_false_eq_true, if_true, Option.some.injEq] at h
        subst h
        intro i hi
        by_cases ei : i = r1
        · subst ei; simp [hr2]
        · rw [Function.update_noteq ei]; exact hp2 i hi

theorem runCalls_forest (n fuel : Nat) : ∀ (calls : List UnionFindCall) (p : Nat → Nat)
    (k : Nat), Forest p k n → (∀ i, i < n → p i < n) →
    (∀ c, c ∈ calls → UnionFindCall.Below n c) → k + calls.length < fuel →
    ∃ p', runCalls fuel calls p = some p' ∧ Forest p' (k + calls.length) n ∧
      ∀ i, i < n → p' i < n := by
  intro calls
  induction calls with
  | nil =>
    intro p k hF hp _ _
    exact ⟨p, rfl, hF, hp⟩
  | cons c rest ih =>
    intro p k hF hp hc hfuel
    have hrest : ∀ c', c' ∈ rest → UnionFindCall.Below n c' :=
      fun c' h => hc c' (List.mem_cons_of_mem _ h)
    have hlen : (c :: rest).length = rest.length + 1 := rfl
    rw [hlen] at hfuel ⊢
    cases c with
    | find a =>
      have ha : a < n := hc _ (List.mem_cons_self _ _)
      obtain ⟨r, p1, hf, -, hF1, -⟩ := find_sem hF ha (show k < fuel by omega)
      obtain ⟨-, hp1⟩ := find_below fuel p a r p1 hp ha hf
      obtain ⟨p', h1, h2, h3⟩ := ih p1 (k + 1) (hF1.weaken (Nat.le_succ k)) hp1 hrest
        (by omega)
      refine ⟨p', by simp [runCalls, hf, h1], ?_, h3⟩
      rw [show k + (rest.length + 1) = k + 1 + rest.length by omega]
      exact h2
    | unionAtoms a b =>
      have hab : a < n ∧ b < n := hc _ (List.mem_cons_self _ _)
      obtain ⟨p1, hu, hF1, -⟩ := unionAtoms_sem hF hab.1 hab.2 (show k < fuel by omega)
      have hp1 := unionAtoms_below hp hab.1 hab.2 hu
      obtain ⟨p', h1, h2, h3⟩ := ih p1 (k + 1) hF1 hp1 hrest (by omega)
      refine ⟨p', by simp [runCalls, hu, h1], ?_, h3⟩
      rw [show k + (rest.length + 1) = k + 1 + rest.length by omega]
      exact h2

theorem reach_below {n : Nat} {p : Nat → Nat} (hp : ∀ i, i < n → p i < n) :
    ∀ {k a r : Nat}, a < n → ReachRoot p k a r → r < n := by
  intro k
  induction k with
  | zero => intro a r ha h; exact h.1 ▸ ha
  | succ k ih =>
    intro a r ha h
    rcases h with ⟨e, _⟩ | ⟨_, h⟩
    · exact e ▸ ha
    · exact ih (hp a ha) h

/-- Claim C27: starting from `parent[i] = i` for `i < n`, after any finite sequence of
calls of `find` and `unionAtoms` with arguments below `n` (the recursion of `find`
being allowed more steps than there are calls) the calls all return and the parent
array is a forest: every entry below `n` is below `n` and following the parents from
any index below `n` reaches a root below `n`.  On it `find` returns, for every index
below `n`, such a root, and after `unionAtoms(a, b)` the calls `find(a)` and `find(b)`
return the same root. -/
theorem unionFind_wellFormed (n fuel : Nat) (calls : List UnionFindCall) (p0 : Nat → Nat)
    (h0 : ∀ i, i < n → p0 i = i) (hc : ∀ c, c ∈ calls → UnionFindCall.Below n c)
    (hfuel : calls.length + 1 < fuel) :
    ∃ p, runCalls fuel calls p0 = some p ∧
      (∀ i, i < n → p i < n) ∧
      (∀ i, i < n → ∃ r, r < n ∧ ReachRoot p calls.length i r) ∧
      (∀ a, a < n → ∃ r p', find fuel p a = some (r, p') ∧ r < n ∧ p r = r ∧
        ReachRoot p calls.length a r) ∧
      (∀ a b, a < n → b < n → ∃ p' r pa pb, unionAtoms fuel p a b = some p' ∧
        find fuel p' a = some (r, pa) ∧ find fuel pa b = some (r, pb) ∧
        (∃ pb', find fuel p' b = some (r, pb'))) := by
  have hF0 : Forest p0 0 n := fun i hi => ⟨i, rfl, h0 i hi⟩
  have hp0 : ∀ i, i < n → p0 i < n := fun i hi => (h0 i hi).symm ▸ hi
  obtain ⟨p, hrun, hF, hp⟩ := runCalls_forest n fuel calls p0 0 hF0 hp0 hc (by omega)
  rw [Nat.zero_add] at hF
  refine ⟨p, hrun, hp, ?_, ?_, ?_⟩
  · intro i hi
    obtain ⟨r, hr⟩ := hF i hi
    exact ⟨r, reach_below hp hi hr, hr⟩
  · intro a ha
    obtain ⟨r, p', hf, hr, -, -⟩ := find_sem hF ha (show calls.length < fuel by omega)
    exact ⟨r, p', hf, reach_below hp ha hr, hr.root, hr⟩
  · intro a b ha hb
    obtain ⟨p', hu, hF', hiff⟩ := unionAtoms_sem hF ha hb (show calls.length < fuel by omega)
    have hab : SameGroup p' a b :=
      (hiff a b ha hb).2 (Or.inr (Or.inl ⟨sameGroup_self hF ha, sameGroup_self hF hb⟩))
    obtain ⟨r, pa, hfa, hra, hFa, fwa⟩ := find_sem hF' ha hfuel
    obtain ⟨rb, pb, hfb, hrb, -, -⟩ := find_sem hFa hb hfuel
    obtain ⟨rb', pb', hfb', hrb', -, -⟩ := find_sem hF' hb hfuel
    obtain ⟨kb, hb'⟩ := sameGroup_root hab hra
    have e1 : rb = r := ReachRoot.unique hrb (fwa _ _ _ hb')
    have e2 : rb' = r := ReachRoot.unique hrb' hb'
    subst e1
    subst e2
    exact ⟨p', _, pa, pb, hu, hfa, hfb, pb', hfb'⟩

end UnionFindClaim

/-- Witness of `unionFind_wellFormed`: four indices, the calls `unionAtoms(0, 1)`,
`find(1)`, `unionAtoms(2, 1)`. -/
theorem unionFind_wellFormed_witness :
    (∀ i, i < 4 → (fun i : Nat => i) i = i) ∧
    (∀ c, c ∈ [UnionFindCall.unionAtoms 0 1, UnionFindCall.find 1,
      UnionFindCall.unionAtoms 2 1] → UnionFindCall.Below 4 c) ∧
    [UnionFindCall.unionAtoms 0 1, UnionFindCall.find 1,
      UnionFindCall.unionAtoms 2 1].length + 1 < 5 ∧
    ∃ p, runCalls 5 [UnionFindCall.unionAtoms 0 1, UnionFindCall.find 1,
        UnionFindCall.unionAtoms 2 1] (fun i => i) = some p ∧
      (∀ i, i < 4 → p i < 4) ∧
      ∀ a, a < 4 → ∃ r p', find 5 p a = some (r, p') ∧ r < 4 ∧ p r = r := by
  have h0 : ∀ i, i < 4 → (fun i : Nat => i) i = i := fun _ _ => rfl
  have hc : ∀ c, c ∈ [UnionFindCall.unionAtoms 0 1, UnionFindCall.find 1,
      UnionFindCall.unionAtoms 2 1] → UnionFindCall.Below 4 c := by
    intro c h
    simp only [List.mem_cons, List.mem_singleton, List.not_mem_nil, or_false] at h
    rcases h with rfl | rfl | rfl <;> simp [UnionFindCall.Below]
  have hf : [UnionFindCall.unionAtoms 0 1, UnionFindCall.find 1,
      UnionFindCall.unionAtoms 2 1].length + 1 < 5 := by decide
  obtain ⟨p, h1, h2, -, h4, -⟩ := unionFind_wellFormed 4 5 _ _ h0 hc hf
  refine ⟨h0, hc, hf, p, h1, h2, fun a ha => ?_⟩
  obtain ⟨r, p', e1, e2, e3, -⟩ := h4 a ha
  exact ⟨r, p', e1, e2, e3⟩

section CounterClaim

variable {α : Type} [LinearOrderedField α]

theorem tuneDeltas_counters (sb : SimBox α) (angleDelta : α) :
    (tuneDeltas sb angleDelta).numAcceptedBondMoves = 0 ∧
    (tuneDeltas sb angleDelta).numBondMoves = 0 ∧
    (tuneDeltas sb angleDelta).numAcceptedAngleMoves = 0 ∧
    (tuneDeltas sb angleDelta).numAngleMoves = 0 := ⟨rfl, rfl, rfl, rfl⟩

theorem ratio_factor_bounds (a n : Nat) (han : a ≤ n) (hn : 0 < n) :
    0 ≤ (a : α) / (n : α) ∧ (a : α) / (n : α) ≤ 1 ∧
    (0.6 : α) ≤ 1 + ((a : α) / (n : α) - TARGET_RATIO) ∧
    1 + ((a : α) / (n : α) - TARGET_RATIO) ≤ (1.6 : α) := by
  have hn' : (0 : α) < (n : α) := Nat.cast_pos.2 hn
  have h0 : 0 ≤ (a : α) / (n : α) := div_nonneg (Nat.cast_nonneg a) (le_of_lt hn')
  have h1 : (a : α) / (n : α) ≤ 1 := (div_le_one hn').2 (Nat.cast_le.2 han)
  unfold TARGET_RATIO
  refine ⟨h0, h1, ?_, ?_⟩
  · norm_num
    linarith
  · norm_num
    linarith

/-- Claim C26: if `numAcceptedBondMoves ≤ numBondMoves` and
`numAcceptedAngleMoves ≤ numAngleMoves` hold before `intramolecularMove(m)`, they hold
when its tuning block is reached (box `sbT`) and in the box it returns.  Hence, when a
total read by the tuning block is not zero, the ratio lies in `[0, 1]` and the factor
`1 + diff` in `[0.6, 1.6]`, and a positive `maxBondDelta` (`maxAngleDelta`) is still
positive after the call. -/
theorem tuning_counters_invariant (fuel : Nat) (M : CMath α) (sb : SimBox α) (m : Nat)
    (bd ad : BatchDraws α) (hwf : WellFormed sb m) (hfuel : sb.MOL_BOND_COUNT m < fuel)
    (hbd : ∀ x ∈ bd.indexes, x < sb.MOL_BOND_COUNT m)
    (had : ∀ x ∈ ad.indexes, x < sb.MOL_ANGLE_COUNT m)
    (hbsel : (selectIndexes (if sb.MOL_BOND_COUNT m > 3 then min bd.numToMove sb.maxIntraMoves
      else sb.MOL_BOND_COUNT m) bd.indexes []).isSome = true)
    (hasel : (selectIndexes (if sb.MOL_ANGLE_COUNT m > 3 then min ad.numToMove sb.maxIntraMoves
      else sb.MOL_ANGLE_COUNT m) ad.indexes []).isSome = true)
    (hb : sb.numAcceptedBondMoves ≤ sb.numBondMoves)
    (ha : sb.numAcceptedAngleMoves ≤ sb.numAngleMoves) :
    ∃ sb' sbT, intramolecularMove fuel M sb m bd ad = some sb' ∧
      sb' = (if sb.stepNum ≠ 0 ∧ sb.stepNum % 1000 = 0 then tuneDeltas sbT sb.maxAngleDelta
        else sbT) ∧
      sbT.numBondMoves = sb.numBondMoves +
        batchSize (sb.MOL_BOND_COUNT m) bd.numToMove sb.maxIntraMoves ∧
      sbT.numAngleMoves = sb.numAngleMoves +
        batchSize (sb.MOL_ANGLE_COUNT m) ad.numToMove sb.maxIntraMoves ∧
      sbT.numAcceptedBondMoves ≤ sbT.numBondMoves ∧
      sbT.numAcceptedAngleMoves ≤ sbT.numAngleMoves ∧
      sb'.numAcceptedBondMoves ≤ sb'.numBondMoves ∧
      sb'.numAcceptedAngleMoves ≤ sb'.numAngleMoves ∧
      (0 < sbT.numBondMoves →
        0 ≤ (sbT.numAcceptedBondMoves : α) / (sbT.numBondMoves : α) ∧
        (sbT.numAcceptedBondMoves : α) / (sbT.numBondMoves : α) ≤ 1 ∧
        (0.6 : α) ≤ 1 + ((sbT.numAcceptedBondMoves : α) / (sbT.numBondMoves : α) -
          TARGET_RATIO) ∧
        1 + ((sbT.numAcceptedBondMoves : α) / (sbT.numBondMoves : α) - TARGET_RATIO) ≤
          (1.6 : α)) ∧
      (0 < sbT.numAngleMoves →
        0 ≤ (sbT.numAcceptedAngleMoves : α) / (sbT.numAngleMoves : α) ∧
        (sbT.numAcceptedAngleMoves : α) / (sbT.numAngleMoves : α) ≤ 1 ∧
        (0.6 : α) ≤ 1 + ((sbT.numAcceptedAngleMoves : α) / (sbT.numAngleMoves : α) -
          TARGET_RATIO) ∧
        1 + ((sbT.numAcceptedAngleMoves : α) / (sbT.numAngleMoves : α) - TARGET_RATIO) ≤
          (1.6 : α)) ∧
      (0 < sbT.numBondMoves → 0 < sb.maxBondDelta → 0 < sb'.maxBondDelta) ∧
      (0 < sbT.numAngleMoves → 0 < sb.maxAngleDelta → 0 < sb'.maxAngleDelta) := by
  obtain ⟨sb', hsome, -⟩ := intramolecularMove_frame fuel M sb m bd ad hwf hfuel hbd had
    hbsel hasel
  obtain ⟨sbT, hst, hsb', hn, hacc, hn', hacc'⟩ := intramolecularMove_shape hsome
  have hB : sbT.numAcceptedBondMoves ≤ sbT.numBondMoves := by
    rcases hacc with h | h <;> omega
  have hA : sbT.numAcceptedAngleMoves ≤ sbT.numAngleMoves := by
    rcases hacc' with h | h <;> omega
  have hmb : sbT.maxBondDelta = sb.maxBondDelta := by unfold Stepped at hst; rw [hst]
  have hma : sbT.maxAngleDelta = sb.maxAngleDelta := by unfold Stepped at hst; rw [hst]
  have hpos : ∀ x f : α, 0 < x → (0.6 : α) ≤ 1 + f → 0 < x + x * f := by
    intro x f hx hf
    have h6 : (0 : α) < 0.6 := by norm_num
    have : x + x * f = x * (1 + f) := by ring
    rw [this]
    exact mul_pos hx (lt_of_lt_of_le h6 hf)
  refine ⟨sb', sbT, hsome, hsb', hn, hn', hB, hA, ?_, ?_,
    fun h => ratio_factor_bounds _ _ hB h, fun h => ratio_factor_bounds _ _ hA h, ?_, ?_⟩
  · rw [hsb']
    split_ifs
    · rw [(tuneDeltas_counters sbT _).1, (tuneDeltas_counters sbT _).2.1]
    · exact hB
  · rw [hsb']
    split_ifs
    · rw [(tuneDeltas_counters sbT _).2.2.1, (tuneDeltas_counters sbT _).2.2.2]
    · exact hA
  · intro hn0 hx
    rw [hsb']
    split_ifs
    · rw [tuneDeltas_maxBondDelta, hmb]
      split_ifs
      · exact hpos _ _ hx (ratio_factor_bounds _ _ hB hn0).2.2.1
      · exact hx
    · rw [hmb]; exact hx
  · intro hn0 hx
    rw [hsb']
    split_ifs
    · rw [tuneDeltas_maxAngleDelta, hma]
      split_ifs
      · exact hpos _ _ hx (ratio_factor_bounds _ _ hA hn0).2.2.1
      · exact hx
    · rw [hma]; exact hx

end CounterClaim

/-- Witness of `tuning_counters_invariant` on `tickBox`: after the call, at a tuning
tick, the counters are in order and `maxBondDelta` is positive. -/
theorem tuning_counters_invariant_witness :
    WellFormed tickBox 0 ∧ tickBox.MOL_BOND_COUNT 0 < 1 ∧
    (∀ x ∈ noDraws.indexes, x < tickBox.MOL_BOND_COUNT 0) ∧
    (∀ x ∈ noDraws.indexes, x < tickBox.MOL_ANGLE_COUNT 0) ∧
    (selectIndexes (if tickBox.MOL_BOND_COUNT 0 > 3
      then min noDraws.numToMove tickBox.maxIntraMoves
      else tickBox.MOL_BOND_COUNT 0) noDraws.indexes []).isSome = true ∧
    (selectIndexes (if tickBox.MOL_ANGLE_COUNT 0 > 3
      then min noDraws.numToMove tickBox.maxIntraMoves
      else tickBox.MOL_ANGLE_COUNT 0) noDraws.indexes []).isSome = true ∧
    tickBox.numAcceptedBondMoves ≤ tickBox.numBondMoves ∧
    tickBox.numAcceptedAngleMoves ≤ tickBox.numAngleMoves ∧
    ∃ sb', intramolecularMove 1 ratMath tickBox 0 noDraws noDraws = some sb' ∧
      sb'.numAcceptedBondMoves ≤ sb'.numBondMoves ∧
      sb'.numAcceptedAngleMoves ≤ sb'.numAngleMoves ∧ 0 < sb'.maxBondDelta := by
  have h1 : WellFormed tickBox 0 :=
    ⟨fun k hk => absurd hk (Nat.not_lt_zero k), fun k hk => absurd hk (Nat.not_lt_zero k)⟩
  have h2 : tickBox.MOL_BOND_COUNT 0 < 1 := by decide
  have h3 : ∀ x ∈ noDraws.indexes, x < tickBox.MOL_BOND_COUNT 0 := by decide
  have h4 : ∀ x ∈ noDraws.indexes, x < tickBox.MOL_ANGLE_COUNT 0 := by decide
  have h5 : (selectIndexes (if tickBox.MOL_BOND_COUNT 0 > 3
      then min noDraws.numToMove tickBox.maxIntraMoves
      else tickBox.MOL_BOND_COUNT 0) noDraws.indexes []).isSome = true := by decide
  have h6 : (selectIndexes (if tickBox.MOL_ANGLE_COUNT 0 > 3
      then min noDraws.numToMove tickBox.maxIntraMoves
      else tickBox.MOL_ANGLE_COUNT 0) noDraws.indexes []).isSome = true := by decide
  have h7 : tickBox.numAcceptedBondMoves ≤ tickBox.numBondMoves := by decide
  have h8 : tickBox.numAcceptedAngleMoves ≤ tickBox.numAngleMoves := by decide
  obtain ⟨sb', sbT, hs, -, hn, -, -, -, c1, c2, -, -, hp, -⟩ :=
    tuning_counters_invariant 1 ratMath tickBox 0 noDraws noDraws h1 h2 h3 h4 h5 h6 h7 h8
  refine ⟨h1, h2, h3, h4, h5, h6, h7, h8, sb', hs, c1, c2, hp ?_ ?_⟩
  · rw [hn]; decide
  · norm_num [tickBox, chainBox]

section StretchDistance

theorem stretched_norm (v0 v1 v2 s D : ℝ) (hs : s ≠ 0) (h : s ^ 2 = v0 ^ 2 + v1 ^ 2 + v2 ^ 2) :
    (v0 + v0 / s * D) ^ 2 + (v1 + v1 / s * D) ^ 2 + (v2 + v2 / s * D) ^ 2 = (s + D) ^ 2 := by
  have e : ∀ v : ℝ, v + v / s * D = v * ((s + D) / s) := by
    intro v
    field_simp
    ring
  rw [e v0, e v1, e v2]
  have : (v0 * ((s + D) / s)) ^ 2 + (v1 * ((s + D) / s)) ^ 2 + (v2 * ((s + D) / s)) ^ 2 =
      (v0 ^ 2 + v1 ^ 2 + v2 ^ 2) * ((s + D) / s) ^ 2 := by ring
  rw [this, ← h]
  field_simp

/-- Claim C23: for a bond `b` of molecule `m` that is not in a ring and whose ends are
at Euclidean distance `d > 0`, `stretchBond(m, b, D)` returns, the Euclidean distance
between the two ends is `|d + D|` afterwards, hence `d + D` whenever `D ≥ -d`, and
`bondLengths[b]` has grown by `D`. -/
theorem stretchBond_distance (fuel : Nat) (sb : SimBox ℝ) (m b : Nat) (D : ℝ)
    (hwf : WellFormed sb m) (hfuel : sb.MOL_BOND_COUNT m < fuel)
    (hb : b < sb.MOL_BOND_COUNT m)
    (hring : ¬ BondLinked sb m b (sb.BOND_A1_IDX (sb.MOL_BOND_START m + b))
      (sb.BOND_A2_IDX (sb.MOL_BOND_START m + b)))
    (hd : 0 < atomDistance (CMath.mk Real.sqrt Real.cos Real.sin Real.exp) sb.atomCoordinates
      (sb.BOND_A1_IDX (sb.MOL_BOND_START m + b)) (sb.BOND_A2_IDX (sb.MOL_BOND_START m + b))) :
    ∃ sb', stretchBond fuel (CMath.mk Real.sqrt Real.cos Real.sin Real.exp) sb m b D =
        some sb' ∧
      atomDistance (CMath.mk Real.sqrt Real.cos Real.sin Real.exp) sb'.atomCoordinates
          (sb.BOND_A1_IDX (sb.MOL_BOND_START m + b))
          (sb.BOND_A2_IDX (sb.MOL_BOND_START m + b)) =
        |atomDistance (CMath.mk Real.sqrt Real.cos Real.sin Real.exp) sb.atomCoordinates
          (sb.BOND_A1_IDX (sb.MOL_BOND_START m + b))
          (sb.BOND_A2_IDX (sb.MOL_BOND_START m + b)) + D| ∧
      (-atomDistance (CMath.mk Real.sqrt Real.cos Real.sin Real.exp) sb.atomCoordinates
          (sb.BOND_A1_IDX (sb.MOL_BOND_START m + b))
          (sb.BOND_A2_IDX (sb.MOL_BOND_START m + b)) ≤ D →
        atomDistance (CMath.mk Real.sqrt Real.cos Real.sin Real.exp) sb'.atomCoordinates
            (sb.BOND_A1_IDX (sb.MOL_BOND_START m + b))
            (sb.BOND_A2_IDX (sb.MOL_BOND_START m + b)) =
          atomDistance (CMath.mk Real.sqrt Real.cos Real.sin Real.exp) sb.atomCoordinates
            (sb.BOND_A1_IDX (sb.MOL_BOND_START m + b))
            (sb.BOND_A2_IDX (sb.MOL_BOND_START m + b)) + D) ∧
      sb'.bondLengths (sb.MOL_BOND_START m + b) =
        sb.bondLengths (sb.MOL_BOND_START m + b) + D := by
  obtain ⟨sb', hsome, -, hnon⟩ := stretchBond_sem fuel
    (CMath.mk Real.sqrt Real.cos Real.sin Real.exp) sb m b D hwf hfuel hb
  obtain ⟨hsb', -, hin⟩ := hnon hring
  have hbl : sb'.bondLengths = Function.update sb.bondLengths (sb.MOL_BOND_START m + b)
      (sb.bondLengths (sb.MOL_BOND_START m + b) + D) := by rw [hsb']
  have he1 := (hwf.1 b hb).1
  have he2 := (hwf.1 b hb).2
  have c1 : ∀ d, d < NUM_DIMENSIONS → _ := fun d hd' => (hin d _ hd' he1).2 hring
  have c2 : ∀ d, d < NUM_DIMENSIONS → _ := fun d hd' =>
    (hin d _ hd' he2).1 (Relation.EqvGen.refl _)
  have key : atomDistance (CMath.mk Real.sqrt Real.cos Real.sin Real.exp) sb'.atomCoordinates
      (sb.BOND_A1_IDX (sb.MOL_BOND_START m + b)) (sb.BOND_A2_IDX (sb.MOL_BOND_START m + b)) =
      |atomDistance (CMath.mk Real.sqrt Real.cos Real.sin Real.exp) sb.atomCoordinates
        (sb.BOND_A1_IDX (sb.MOL_BOND_START m + b))
        (sb.BOND_A2_IDX (sb.MOL_BOND_START m + b)) + D| := by
    have hd' := hd
    unfold atomDistance at hd' ⊢
    simp only [] at hd' ⊢
    have hS := Real.sqrt_pos.1 hd'
    have hs2 := Real.sq_sqrt (le_of_lt hS)
    rw [← Real.sqrt_sq_eq_abs]
    congr 1
    rw [c1 0 (by decide), c1 1 (by decide), c1 2 (by decide), c2 0 (by decide),
      c2 1 (by decide), c2 2 (by decide)]
    unfold unitVector
    simp only []
    have := stretched_norm
      (sb.atomCoordinates 0 (sb.BOND_A2_IDX (sb.MOL_BOND_START m + b)) -
        sb.atomCoordinates 0 (sb.BOND_A1_IDX (sb.MOL_BOND_START m + b)))
      (sb.atomCoordinates 1 (sb.BOND_A2_IDX (sb.MOL_BOND_START m + b)) -
        sb.atomCoordinates 1 (sb.BOND_A1_IDX (sb.MOL_BOND_START m + b)))
      (sb.atomCoordinates 2 (sb.BOND_A2_IDX (sb.MOL_BOND_START m + b)) -
        sb.atomCoordinates 2 (sb.BOND_A1_IDX (sb.MOL_BOND_START m + b)))
      _ D (ne_of_gt hd') hs2
    rw [← this]
    ring
  refine ⟨sb', hsome, key, fun h => ?_, ?_⟩
  · rw [key, abs_of_nonneg (by linarith)]
  · rw [hbl, Function.update_same]

end StretchDistance

theorem lineBox_bond_not_ring :
    ¬ BondLinked (lineBox ℝ) 0 0 ((lineBox ℝ).BOND_A1_IDX ((lineBox ℝ).MOL_BOND_START 0 + 0))
      ((lineBox ℝ).BOND_A2_IDX ((lineBox ℝ).MOL_BOND_START 0 + 0)) := by
  intro h
  have e := eqvGen_invariant (fun x => decide (x = 0)) (fun x y hxy => by
    obtain ⟨k, hk, hnk, rfl, rfl⟩ := hxy
    simp only [lineBox] at hk ⊢
    have : k = 1 := by omega
    subst this
    rfl) h
  simp [lineBox] at e

/-- Witness of `stretchBond_distance`: on the chain `0 - 1 - 2` with unit bonds,
stretching the bond `0 - 1` by `0.2` puts its ends at distance `1.2`. -/
theorem stretchBond_distance_witness :
    WellFormed (lineBox ℝ) 0 ∧ (lineBox ℝ).MOL_BOND_COUNT 0 < 3 ∧
    0 < (lineBox ℝ).MOL_BOND_COUNT 0 ∧
    ¬ BondLinked (lineBox ℝ) 0 0 ((lineBox ℝ).BOND_A1_IDX ((lineBox ℝ).MOL_BOND_START 0 + 0))
      ((lineBox ℝ).BOND_A2_IDX ((lineBox ℝ).MOL_BOND_START 0 + 0)) ∧
    0 < atomDistance (CMath.mk Real.sqrt Real.cos Real.sin Real.exp) (lineBox ℝ).atomCoordinates
      ((lineBox ℝ).BOND_A1_IDX ((lineBox ℝ).MOL_BOND_START 0 + 0))
      ((lineBox ℝ).BOND_A2_IDX ((lineBox ℝ).MOL_BOND_START 0 + 0)) ∧
    ∃ sb', stretchBond 3 (CMath.mk Real.sqrt Real.cos Real.sin Real.exp) (lineBox ℝ) 0 0 0.2 =
        some sb' ∧
      atomDistance (CMath.mk Real.sqrt Real.cos Real.sin Real.exp) sb'.atomCoordinates 0 1 =
        1.2 := by
  have h1 : WellFormed (lineBox ℝ) 0 := by
    constructor
    · intro k hk
      simp only [lineBox, InMol] at hk ⊢
      omega
    · intro k hk
      simp only [lineBox, InMol] at hk ⊢
      omega
  have h2 : (lineBox ℝ).MOL_BOND_COUNT 0 < 3 := by decide
  have h3 : 0 < (lineBox ℝ).MOL_BOND_COUNT 0 := by decide
  have hdist : atomDistance (CMath.mk Real.sqrt Real.cos Real.sin Real.exp)
      (lineBox ℝ).atomCoordinates ((lineBox ℝ).BOND_A1_IDX ((lineBox ℝ).MOL_BOND_START 0 + 0))
      ((lineBox ℝ).BOND_A2_IDX ((lineBox ℝ).MOL_BOND_START 0 + 0)) = 1 := by
    simp [atomDistance, lineBox]
  have h5 : 0 < atomDistance (CMath.mk Real.sqrt Real.cos Real.sin Real.exp)
      (lineBox ℝ).atomCoordinates ((lineBox ℝ).BOND_A1_IDX ((lineBox ℝ).MOL_BOND_START 0 + 0))
      ((lineBox ℝ).BOND_A2_IDX ((lineBox ℝ).MOL_BOND_START 0 + 0)) := by
    rw [hdist]; exact one_pos
  obtain ⟨sb', hs, -, hge, -⟩ :=
    stretchBond_distance 3 (lineBox ℝ) 0 0 0.2 h1 h2 h3 lineBox_bond_not_ring h5
  refine ⟨h1, h2, h3, lineBox_bond_not_ring, h5, sb', hs, ?_⟩
  have h := hge (by rw [hdist]; norm_num)
  rw [hdist] at h
  rw [show (1.2 : ℝ) = 1 + 0.2 by norm_num]
  exact h

section AngleGroups

variable {α : Type} [LinearOrderedField α]

theorem rotateAboutNormal_congr (M : CMath α) (normal mvector : Nat → α) (theta : α) (i : Nat)
    (c1 c2 : Nat → Nat → α) (h : ∀ j, c1 j i = c2 j i) (d : Nat) :
    rotateAboutNormal M normal mvector theta i c1 d i =
      rotateAboutNormal M normal mvector theta i c2 d i := by
  simp only [rotateAboutNormal, forLoop, NUM_DIMENSIONS, setCoord_apply, h]

theorem expandAngle_sem (fuel : Nat) (M : CMath α) (sb : SimBox α) (m g : Nat) (D : α)
    (hwf : WellFormed sb m) (hfuel : sb.MOL_BOND_COUNT m < fuel)
    (hg : g < sb.MOL_ANGLE_COUNT m) :
    ∃ sb', expandAngle fuel M sb m g D = some sb' ∧
      (¬ AngleLinked sb m (sb.ANGLE_MID_IDX (sb.MOL_ANGLE_START m + g))
          (sb.ANGLE_A1_IDX (sb.MOL_ANGLE_START m + g))
          (sb.ANGLE_A2_IDX (sb.MOL_ANGLE_START m + g)) →
        sb' = { sb with
          unionFindParent := sb'.unionFindParent
          atomCoordinates := sb'.atomCoordinates
          angleSizes := Function.update sb.angleSizes (sb.MOL_ANGLE_START m + g)
            (sb.angleSizes (sb.MOL_ANGLE_START m + g) + D) } ∧
        (∀ d a, ¬ InMol sb m a → sb'.atomCoordinates d a = sb.atomCoordinates d a) ∧
        ∀ d a, InMol sb m a →
          (AngleLinked sb m (sb.ANGLE_MID_IDX (sb.MOL_ANGLE_START m + g)) a
              (sb.ANGLE_A1_IDX (sb.MOL_ANGLE_START m + g)) →
            sb'.atomCoordinates d a = rotateAboutNormal M
              (angleNormal M sb.atomCoordinates (sb.ANGLE_A1_IDX (sb.MOL_ANGLE_START m + g))
                (sb.ANGLE_MID_IDX (sb.MOL_ANGLE_START m + g))
                (sb.ANGLE_A2_IDX (sb.MOL_ANGLE_START m + g)))
              (fun i => sb.atomCoordinates i (sb.ANGLE_MID_IDX (sb.MOL_ANGLE_START m + g)))
              (D * -DEG2RAD) a sb.atomCoordinates d a) ∧
          (¬ AngleLinked sb m (sb.ANGLE_MID_IDX (sb.MOL_ANGLE_START m + g)) a
              (sb.ANGLE_A1_IDX (sb.MOL_ANGLE_START m + g)) →
            AngleLinked sb m (sb.ANGLE_MID_IDX (sb.MOL_ANGLE_START m + g)) a
              (sb.ANGLE_A2_IDX (sb.MOL_ANGLE_START m + g)) →
            sb'.atomCoordinates d a = rotateAboutNormal M
              (angleNormal M sb.atomCoordinates (sb.ANGLE_A1_IDX (sb.MOL_ANGLE_START m + g))
                (sb.ANGLE_MID_IDX (sb.MOL_ANGLE_START m + g))
                (sb.ANGLE_A2_IDX (sb.MOL_ANGLE_START m + g)))
              (fun i => sb.atomCoordinates i (sb.ANGLE_MID_IDX (sb.MOL_ANGLE_START m + g)))
              (D * DEG2RAD) a sb.atomCoordinates d a) ∧
          (¬ AngleLinked sb m (sb.ANGLE_MID_IDX (sb.MOL_ANGLE_START m + g)) a
              (sb.ANGLE_A1_IDX (sb.MOL_ANGLE_START m + g)) →
            ¬ AngleLinked sb m (sb.ANGLE_MID_IDX (sb.MOL_ANGLE_START m + g)) a
              (sb.ANGLE_A2_IDX (sb.MOL_ANGLE_START m + g)) →
            sb'.atomCoordinates d a = sb.atomCoordinates d a)) := by
  have hloc : ∀ a, InMol sb m a → a - sb.MOL_START m < sb.MOL_LEN m := by
    intro a ha; unfold InMol at ha; omega
  have hends : ∀ k, k < sb.MOL_BOND_COUNT m →
      sb.BOND_A1_IDX (sb.MOL_BOND_START m + k) - sb.MOL_START m < sb.MOL_LEN m ∧
      sb.BOND_A2_IDX (sb.MOL_BOND_START m + k) - sb.MOL_START m < sb.MOL_LEN m :=
    fun k hk => ⟨hloc _ (hwf.1 k hk).1, hloc _ (hwf.1 k hk).2⟩
  have hge : ∀ k, k < sb.MOL_BOND_COUNT m →
      sb.MOL_START m ≤ sb.BOND_A1_IDX (sb.MOL_BOND_START m + k) ∧
      sb.MOL_START m ≤ sb.BOND_A2_IDX (sb.MOL_BOND_START m + k) :=
    fun k hk => ⟨(hwf.1 k hk).1.1, (hwf.1 k hk).2.1⟩
  obtain ⟨pU, hU, hFU, hiffU⟩ := unionPhase_sem (sb.MOL_LEN m) (sb.MOL_BOND_COUNT m) fuel
    (fun k => sb.BOND_A1_IDX (sb.MOL_BOND_START m + k) =
        sb.ANGLE_MID_IDX (sb.MOL_ANGLE_START m + g) ∨
      sb.BOND_A2_IDX (sb.MOL_BOND_START m + k) = sb.ANGLE_MID_IDX (sb.MOL_ANGLE_START m + g))
    (fun k => sb.BOND_A1_IDX (sb.MOL_BOND_START m + k) - sb.MOL_START m)
    (fun k => sb.BOND_A2_IDX (sb.MOL_BOND_START m + k) - sb.MOL_START m)
    (forLoop (sb.MOL_LEN m) (fun i parent => Function.update parent i i) sb.unionFindParent)
    hends hfuel (initParent_forest _ _)
  have hlink : ∀ x y, InMol sb m x → InMol sb m y →
      (SameGroup pU (x - sb.MOL_START m) (y - sb.MOL_START m) ↔
        AngleLinked sb m (sb.ANGLE_MID_IDX (sb.MOL_ANGLE_START m + g)) x y) := by
    intro x y hx hy
    rw [hiffU _ _ (hloc x hx) (hloc y hy)]
    exact eqvGen_local (sb.MOL_START m) (sb.MOL_BOND_COUNT m) _ _
      (fun k => sb.BOND_A1_IDX (sb.MOL_BOND_START m + k))
      (fun k => sb.BOND_A2_IDX (sb.MOL_BOND_START m + k))
      (fun k => Iff.rfl) hge hx.1 hy.1
  have he1 := (hwf.2 g hg).1
  have he2 := (hwf.2 g hg).2
  obtain ⟨g1, p1, hf1, hr1, hF1, fw1⟩ := find_sem hFU (hloc _ he1) hfuel
  obtain ⟨g2, p2, hf2, hr2, hF2, fw2⟩ := find_sem hF1 (hloc _ he2) hfuel
  have hr2U := reach_back hFU fw1 (hloc _ he2) hr2
  have fw12 : ∀ j x r, ReachRoot pU j x r → ReachRoot p2 j x r :=
    fun j x r h => fw2 _ _ _ (fw1 _ _ _ h)
  have hside : g1 = g2 ↔ AngleLinked sb m (sb.ANGLE_MID_IDX (sb.MOL_ANGLE_START m + g))
      (sb.ANGLE_A1_IDX (sb.MOL_ANGLE_START m + g))
      (sb.ANGLE_A2_IDX (sb.MOL_ANGLE_START m + g)) := by
    rw [← hlink _ _ he1 he2, ← sideRoot_iff hr2U]
    constructor
    · intro e; exact ⟨_, e ▸ hr1⟩
    · rintro ⟨j, h⟩; exact ReachRoot.unique hr1 h
  unfold expandAngle
  simp only [Option.bind_eq_bind, Option.pure_def, Nat.add_sub_cancel_left]
  rw [hU]
  simp only [Option.some_bind, hf1, hf2]
  by_cases hs : g1 = g2
  · rw [if_pos hs]
    exact ⟨_, rfl, fun h => absurd (hside.1 hs) h⟩
  · rw [if_neg hs]
    have hnl : ¬ AngleLinked sb m (sb.ANGLE_MID_IDX (sb.MOL_ANGLE_START m + g))
        (sb.ANGLE_A1_IDX (sb.MOL_ANGLE_START m + g))
        (sb.ANGLE_A2_IDX (sb.MOL_ANGLE_START m + g)) := fun h => hs (hside.2 h)
    generalize angleNormal M sb.atomCoordinates (sb.ANGLE_A1_IDX (sb.MOL_ANGLE_START m + g))
      (sb.ANGLE_MID_IDX (sb.MOL_ANGLE_START m + g))
      (sb.ANGLE_A2_IDX (sb.MOL_ANGLE_START m + g)) = N
    generalize (fun i => sb.atomCoordinates i (sb.ANGLE_MID_IDX (sb.MOL_ANGLE_START m + g))) = mv
    apply bind_post (fun st : (Nat → Nat) × (Nat → Nat → α) =>
        Forest st.1 (sb.MOL_BOND_COUNT m) (sb.MOL_LEN m) ∧
        (∀ j x r, ReachRoot pU j x r → ReachRoot st.1 j x r) ∧
        (∀ d a, ¬ (sb.MOL_START m ≤ a ∧ a < sb.MOL_START m + sb.MOL_LEN m) →
          st.2 d a = sb.atomCoordinates d a) ∧
        (∀ d a, sb.MOL_START m ≤ a → a < sb.MOL_START m + sb.MOL_LEN m →
          ((∃ j, ReachRoot pU j (a - sb.MOL_START m) g1) →
            st.2 d a = rotateAboutNormal M N mv (D * -DEG2RAD) a sb.atomCoordinates d a) ∧
          (¬ (∃ j, ReachRoot pU j (a - sb.MOL_START m) g1) →
            (∃ j, ReachRoot pU j (a - sb.MOL_START m) g2) →
            st.2 d a = rotateAboutNormal M N mv (D * DEG2RAD) a sb.atomCoordinates d a) ∧
          (¬ (∃ j, ReachRoot pU j (a - sb.MOL_START m) g1) →
            ¬ (∃ j, ReachRoot pU j (a - sb.MOL_START m) g2) →
            st.2 d a = sb.atomCoordinates d a)))
    · apply forLoopM_inv (fun (i : Nat) (st : (Nat → Nat) × (Nat → Nat → α)) =>
        Forest st.1 (sb.MOL_BOND_COUNT m) (sb.MOL_LEN m) ∧
        (∀ j x r, ReachRoot pU j x r → ReachRoot st.1 j x r) ∧
        (∀ d a, ¬ (sb.MOL_START m ≤ a ∧ a < sb.MOL_START m + i) →
          st.2 d a = sb.atomCoordinates d a) ∧
        (∀ d a, sb.MOL_START m ≤ a → a < sb.MOL_START m + i →
          ((∃ j, ReachRoot pU j (a - sb.MOL_START m) g1) →
            st.2 d a = rotateAboutNormal M N mv (D * -DEG2RAD) a sb.atomCoordinates d a) ∧
          (¬ (∃ j, ReachRoot pU j (a - sb.MOL_START m) g1) →
            (∃ j, ReachRoot pU j (a - sb.MOL_START m) g2) →
            st.2 d a = rotateAboutNormal M N mv (D * DEG2RAD) a sb.atomCoordinates d a) ∧
          (¬ (∃ j, ReachRoot pU j (a - sb.MOL_START m) g1) →
            ¬ (∃ j, ReachRoot pU j (a - sb.MOL_START m) g2) →
            st.2 d a = sb.atomCoordinates d a)))
      · exact ⟨hF2, fw12, fun _ _ _ => rfl, fun d a _ h2 => absurd h2 (by omega)⟩
      · intro i hi st hinv
        obtain ⟨hFs, fws, hout, hin⟩ := hinv
        obtain ⟨r, p', hf, hr, hF', fw'⟩ := find_sem hFs hi hfuel
        have hrU := reach_back hFU fws hi hr
        have hroot1 : r = g1 ↔ ∃ j, ReachRoot pU j i g1 := by
          constructor
          · intro e; exact ⟨_, e ▸ hrU⟩
          · rintro ⟨j, h⟩; exact ReachRoot.unique hrU h
        have hroot2 : r = g2 ↔ ∃ j, ReachRoot pU j i g2 := by
          constructor
          · intro e; exact ⟨_, e ▸ hrU⟩
          · rintro ⟨j, h⟩; exact ReachRoot.unique hrU h
        have hcur : ∀ d, st.2 d (sb.MOL_START m + i) =
            sb.atomCoordinates d (sb.MOL_START m + i) :=
          fun d => hout d _ (fun h => absurd h.2 (by omega))
        have ei : sb.MOL_START m + i - sb.MOL_START m = i := by omega
        have hkeep : ∀ (theta : α) d a, a ≠ sb.MOL_START m + i →
            rotateAboutNormal M N mv theta (sb.MOL_START m + i) st.2 d a = st.2 d a :=
          fun theta d a h => rotateAboutNormal_frame M N mv theta _ st.2 d a (fun h' => h h'.2)
        have hrot : ∀ (theta : α) d,
            rotateAboutNormal M N mv theta (sb.MOL_START m + i) st.2 d (sb.MOL_START m + i) =
            rotateAboutNormal M N mv theta (sb.MOL_START m + i) sb.atomCoordinates d
              (sb.MOL_START m + i) :=
          fun theta d => rotateAboutNormal_congr M N mv theta _ st.2 sb.atomCoordinates hcur d
        rw [hf]
        simp only []
        by_cases hr1' : r = g1
        · rw [if_pos hr1']
          refine ⟨_, rfl, hF', fun j x r' h => fw' _ _ _ (fws _ _ _ h), ?_, ?_⟩
          · intro d a h
            have hne : a ≠ sb.MOL_START m + i := by omega
            exact (hkeep _ d a hne).trans (hout d a (fun h' => h ⟨h'.1, by omega⟩))
          · intro d a ha1 ha2
            by_cases ea : a = sb.MOL_START m + i
            · subst ea
              rw [ei]
              exact ⟨fun _ => hrot _ d, fun h => absurd (hroot1.1 hr1') h,
                fun h => absurd (hroot1.1 hr1') h⟩
            · have hprev := hin d a ha1 (by omega)
              exact ⟨fun h => (hkeep _ d a ea).trans (hprev.1 h),
                fun h h' => (hkeep _ d a ea).trans (hprev.2.1 h h'),
                fun h h' => (hkeep _ d a ea).trans (hprev.2.2 h h')⟩
        · rw [if_neg hr1']
          obtain ⟨r', p'', hf', hr', hF'', fw''⟩ := find_sem hF' hi hfuel
          have er : r' = r := ReachRoot.unique hr' (fw' _ _ _ hr)
          subst er
          rw [hf']
          simp only []
          by_cases hr2' : r' = g2
          · rw [if_pos hr2']
            refine ⟨_, rfl, hF'', fun j x r'' h => fw'' _ _ _ (fw' _ _ _ (fws _ _ _ h)), ?_, ?_⟩
            · intro d a h
              have hne : a ≠ sb.MOL_START m + i := by omega
              exact (hkeep _ d a hne).trans (hout d a (fun h' => h ⟨h'.1, by omega⟩))
            · intro d a ha1 ha2
              by_cases ea : a = sb.MOL_START m + i
              · subst ea
                rw [ei]
                exact ⟨fun h => absurd (hroot1.2 h) hr1', fun _ _ => hrot _ d,
                  fun _ h => absurd (hroot2.1 hr2') h⟩
              · have hprev := hin d a ha1 (by omega)
                exact ⟨fun h => (hkeep _ d a ea).trans (hprev.1 h),
                  fun h h' => (hkeep _ d a ea).trans (hprev.2.1 h h'),
                  fun h h' => (hkeep _ d a ea).trans (hprev.2.2 h h')⟩
          · rw [if_neg hr2']
            refine ⟨_, rfl, hF'', fun j x r'' h => fw'' _ _ _ (fw' _ _ _ (fws _ _ _ h)), ?_, ?_⟩
            · intro d a h
              exact hout d a (fun h' => h ⟨h'.1, by omega⟩)
            · intro d a ha1 ha2
              by_cases ea : a = sb.MOL_START m + i
              · subst ea
                rw [ei]
                exact ⟨fun h => absurd (hroot1.2 h) hr1', fun _ h => absurd (hroot2.2 h) hr2',
                  fun _ _ => hcur d⟩
              · exact hin d a ha1 (by omega)
    · intro st hst
      obtain ⟨-, -, hout, hin⟩ := hst
      refine ⟨_, rfl, fun _ => ⟨rfl, fun d a h => hout d a (fun h' => h ⟨h'.1, h'.2⟩), ?_⟩⟩
      intro d a ha
      have hk := hin d a ha.1 ha.2
      have hiff1 : (∃ j, ReachRoot pU j (a - sb.MOL_START m) g1) ↔
          AngleLinked sb m (sb.ANGLE_MID_IDX (sb.MOL_ANGLE_START m + g)) a
            (sb.ANGLE_A1_IDX (sb.MOL_ANGLE_START m + g)) := by
        rw [sideRoot_iff hr1]
        exact hlink _ _ ha he1
      have hiff2 : (∃ j, ReachRoot pU j (a - sb.MOL_START m) g2) ↔
          AngleLinked sb m (sb.ANGLE_MID_IDX (sb.MOL_ANGLE_START m + g)) a
            (sb.ANGLE_A2_IDX (sb.MOL_ANGLE_START m + g)) := by
        rw [sideRoot_iff hr2U]
        exact hlink _ _ ha he2
      exact ⟨fun h => hk.1 (hiff1.2 h),
        fun h h' => hk.2.1 (fun x => h (hiff1.1 x)) (hiff2.2 h'),
        fun h h' => hk.2.2 (fun x => h (hiff1.1 x)) (fun x => h' (hiff2.1 x))⟩

end AngleGroups

section AngleBug

theorem bentBox_linked (x y : Nat)
    (h : AngleLinked (bentBox ℝ) 0 ((bentBox ℝ).ANGLE_MID_IDX ((bentBox ℝ).MOL_ANGLE_START 0 + 0))
      x y) : x = y := by
  refine eqvGen_invariant (fun x => x) (fun x y hxy => ?_) h
  obtain ⟨k, hk, hnk, -, -⟩ := hxy
  exfalso
  apply hnk
  simp only [bentBox, lineBox] at hk ⊢
  omega

end AngleBug

section AngleBug2

theorem bentBox_end1 (D : ℝ) (d : Nat) :
    rotateAboutNormal (CMath.mk Real.sqrt Real.cos Real.sin Real.exp)
        (angleNormal (CMath.mk Real.sqrt Real.cos Real.sin Real.exp)
          (bentBox ℝ).atomCoordinates 0 1 2)
        (fun i => (bentBox ℝ).atomCoordinates i 1) (D * -DEG2RAD) 0
        (bentBox ℝ).atomCoordinates d 0 =
      if d = 0 then Real.cos (D * DEG2RAD) else if d = 1 then -Real.sin (D * DEG2RAD) else 0 := by
  have h0 : (0.0 : ℝ) = 0 := by norm_num
  simp only [rotateAboutNormal, angleNormal, forLoop, NUM_DIMENSIONS, setCoord_apply, bentBox,
    lineBox]
  rcases d with _ | _ | _ | d <;> simp [h0]

theorem bentBox_end2 (D : ℝ) (d : Nat) :
    rotateAboutNormal (CMath.mk Real.sqrt Real.cos Real.sin Real.exp)
        (angleNormal (CMath.mk Real.sqrt Real.cos Real.sin Real.exp)
          (bentBox ℝ).atomCoordinates 0 1 2)
        (fun i => (bentBox ℝ).atomCoordinates i 1) (D * DEG2RAD) 2
        (bentBox ℝ).atomCoordinates d 2 =
      if d = 0 then -Real.sin (D * DEG2RAD) else if d = 1 then Real.cos (D * DEG2RAD) else 0 := by
  have h0 : (0.0 : ℝ) = 0 := by norm_num
  simp only [rotateAboutNormal, angleNormal, forLoop, NUM_DIMENSIONS, setCoord_apply, bentBox,
    lineBox]
  rcases d with _ | _ | _ | d <;> simp [h0]

theorem bentBox_wellFormed : WellFormed (bentBox ℝ) 0 := by
  constructor
  · intro k hk
    simp only [bentBox, lineBox, InMol] at hk ⊢
    omega
  · intro k hk
    simp only [bentBox, lineBox, InMol] at hk ⊢
    omega

/-- Claim C24, the code at a failing input.  In `bentBox` the angle `0 - 1 - 2` is a right
angle (cosine `0`, stored size `90`) that is not in a ring.  For every `D`,
`expandAngle` returns, adds `D` to the stored size, and leaves the two ends at an angle
whose cosine is `cos (π / 2 + 2 * (D * DEG2RAD))`: the geometric angle grows by twice
the recorded amount.  For `D = 20` this cosine is below `-0.6`, while the cosine of the
claimed `90 + 20` degrees is above `-0.35`. -/
theorem expandAngle_doubles_delta :
    angleCosine (CMath.mk Real.sqrt Real.cos Real.sin Real.exp)
        (bentBox ℝ).atomCoordinates 0 1 2 = 0 ∧
      (bentBox ℝ).angleSizes 0 = 90 ∧
      ¬ AngleLinked (bentBox ℝ) 0 1 0 2 ∧
      (∀ D : ℝ, ∃ sb', expandAngle 3 (CMath.mk Real.sqrt Real.cos Real.sin Real.exp)
            (bentBox ℝ) 0 0 D = some sb' ∧
          sb'.angleSizes 0 = 90 + D ∧
          angleCosine (CMath.mk Real.sqrt Real.cos Real.sin Real.exp)
              sb'.atomCoordinates 0 1 2 =
            Real.cos (Real.pi / 2 + 2 * (D * DEG2RAD))) ∧
      Real.cos (Real.pi / 2 + 2 * (20 * DEG2RAD)) < -0.6 ∧
      -0.35 < Real.cos ((90 + 20) * (Real.pi / 180)) := by
  have h0 : (0.0 : ℝ) = 0 := by norm_num
  have hnl : ∀ x y, AngleLinked (bentBox ℝ) 0 1 x y → x = y := fun x y h =>
    bentBox_linked x y h
  refine ⟨?_, rfl, fun h => absurd (hnl 0 2 h) (by decide), ?_, ?_, ?_⟩
  · simp [angleCosine, bentBox, lineBox]
  · intro D
    obtain ⟨sb', hs, hrest⟩ := expandAngle_sem 3 (CMath.mk Real.sqrt Real.cos Real.sin Real.exp)
      (bentBox ℝ) 0 0 D bentBox_wellFormed (by decide) (by decide)
    obtain ⟨hsb, -, hco⟩ := hrest (fun h => absurd (hnl 0 2 h) (by decide))
    refine ⟨sb', hs, ?_, ?_⟩
    · rw [hsb]
      simp [bentBox, lineBox]
    · have c0 : ∀ d, sb'.atomCoordinates d 0 =
          if d = 0 then Real.cos (D * DEG2RAD) else
            if d = 1 then -Real.sin (D * DEG2RAD) else 0 := fun d =>
        ((hco d 0 (by simp [InMol, bentBox, lineBox])).1 (Relation.EqvGen.refl _)).trans
          (bentBox_end1 D d)
      have c2 : ∀ d, sb'.atomCoordinates d 2 =
          if d = 0 then -Real.sin (D * DEG2RAD) else
            if d = 1 then Real.cos (D * DEG2RAD) else 0 := fun d =>
        ((hco d 2 (by simp [InMol, bentBox, lineBox])).2.1
          (fun h => absurd (hnl 2 0 h) (by decide)) (Relation.EqvGen.refl _)).trans
          (bentBox_end2 D d)
      have c1 : ∀ d, sb'.atomCoordinates d 1 = 0 := fun d =>
        ((hco d 1 (by simp [InMol, bentBox, lineBox])).2.2
          (fun h => absurd (hnl 1 0 h) (by decide))
          (fun h => absurd (hnl 1 2 h) (by decide))).trans (by simp [bentBox, lineBox])
      have hsq : Real.cos (D * DEG2RAD) ^ 2 + Real.sin (D * DEG2RAD) ^ 2 = 1 :=
        Real.cos_sq_add_sin_sq _
      have hsq2 : Real.sin (D * DEG2RAD) ^ 2 + Real.cos (D * DEG2RAD) ^ 2 = 1 := by
        rw [add_comm]; exact hsq
      simp only [angleCosine, c0, c1, c2]
      simp only [if_pos, if_neg, one_ne_zero, OfNat.ofNat_ne_zero, OfNat.ofNat_ne_one,
        if_true, if_false, sub_zero, neg_sq, hsq, hsq2, Real.sqrt_one, mul_one, div_one,
        add_zero, mul_zero, zero_pow, ne_eq, not_false_eq_true]
      rw [add_comm (Real.pi / 2), Real.cos_add_pi_div_two, Real.sin_two_mul]
      ring
  · rw [add_comm (Real.pi / 2), Real.cos_add_pi_div_two]
    have hx0 : (0 : ℝ) < 2 * (20 * DEG2RAD) := by unfold DEG2RAD; norm_num
    have hx1 : 2 * (20 * DEG2RAD) ≤ (1 : ℝ) := by unfold DEG2RAD; norm_num
    have h := Real.sin_gt_sub_cube hx0 hx1
    have hb : (0.6 : ℝ) < 2 * (20 * DEG2RAD) - (2 * (20 * DEG2RAD)) ^ 3 / 4 := by
      unfold DEG2RAD; norm_num
    linarith
  · have e : (90 + 20) * (Real.pi / 180) = Real.pi / 9 + Real.pi / 2 := by ring
    rw [e, Real.cos_add_pi_div_two]
    have hp : 0 < Real.pi / 9 := by positivity
    have h := Real.sin_lt hp
    have hpi := Real.pi_lt_d2
    have : Real.pi / 9 < 0.35 := by
      norm_num at hpi ⊢
      linarith
    linarith

end AngleBug2

section RigidLemmas

variable {α : Type} [LinearOrderedField α]

theorem translateAtom_apply (a : Nat) (dX dY dZ : α) (c : Nat → Nat → α) (d b : Nat) :
    translateAtom a dX dY dZ c d b =
      if d < NUM_DIMENSIONS ∧ b = a then
        c d b + (if d = 0 then dX else if d = 1 then dY else dZ)
      else c d b := by
  simp only [translateAtom, setCoord_apply, X_COORD, Y_COORD, Z_COORD, NUM_DIMENSIONS]
  by_cases hb : b = a
  · subst hb
    rcases d with _ | _ | _ | d
    · simp
    · simp
    · simp
    · have h3 : ¬ (d + 1 + 1 + 1 < 3) := by omega
      simp [h3]
  · simp [hb]

theorem rotateAtomSpec_self (M : CMath α) (rx ry rz : α) (p : α × α × α) :
    rotateAtomSpec M rx ry rz p p = p := by
  simp [rotateAtomSpec, rotationXSpec, rotationYSpec, rotationZSpec, axisRotationSpec]

theorem rigidLoop_apply (M : CMath α) (sb : SimBox α) (m : Nat) (dr : MoveDraws α)
    (d a : Nat) :
    (forLoop (sb.MOL_LEN m) (fun i (st : (Nat → Nat → α) × (Nat → Nat → α)) =>
      let rBCoords := forLoop NUM_DIMENSIONS (fun j rBCoords =>
        setCoord rBCoords j i (st.2 j (sb.MOL_START m + i))) st.1
      if i = dr.vertexIdx then (rBCoords, st.2)
      else
        let aCoords := rotateAtom M (sb.MOL_START m + i) (sb.MOL_START m + dr.vertexIdx)
          dr.rotX dr.rotY dr.rotZ st.2
        let aCoords := translateAtom (sb.MOL_START m + i) dr.deltaX dr.deltaY dr.deltaZ aCoords
        (rBCoords, aCoords)) (sb.rollBackCoordinates, sb.atomCoordinates)).2 d a =
      if d < NUM_DIMENSIONS ∧ InMol sb m a ∧ a ≠ sb.MOL_START m + dr.vertexIdx then
        component (rotateAtomSpec M dr.rotX dr.rotY dr.rotZ (atomPos sb.atomCoordinates a)
          (atomPos sb.atomCoordinates (sb.MOL_START m + dr.vertexIdx))) d + translation dr d
      else sb.atomCoordinates d a := by
  have loop := forLoop_inv (fun (k : Nat) (st : (Nat → Nat → α) × (Nat → Nat → α)) =>
      ∀ d a, st.2 d a =
        if d < NUM_DIMENSIONS ∧ (sb.MOL_START m ≤ a ∧ a < sb.MOL_START m + k) ∧
            a ≠ sb.MOL_START m + dr.vertexIdx then
          component (rotateAtomSpec M dr.rotX dr.rotY dr.rotZ (atomPos sb.atomCoordinates a)
            (atomPos sb.atomCoordinates (sb.MOL_START m + dr.vertexIdx))) d + translation dr d
        else sb.atomCoordinates d a) (sb.MOL_LEN m)
    (fun i (st : (Nat → Nat → α) × (Nat → Nat → α)) =>
      let rBCoords := forLoop NUM_DIMENSIONS (fun j rBCoords =>
        setCoord rBCoords j i (st.2 j (sb.MOL_START m + i))) st.1
      if i = dr.vertexIdx then (rBCoords, st.2)
      else
        let aCoords := rotateAtom M (sb.MOL_START m + i) (sb.MOL_START m + dr.vertexIdx)
          dr.rotX dr.rotY dr.rotZ st.2
        let aCoords := translateAtom (sb.MOL_START m + i) dr.deltaX dr.deltaY dr.deltaZ aCoords
        (rBCoords, aCoords)) (sb.rollBackCoordinates, sb.atomCoordinates)
    (fun d a => by rw [if_neg (by omega)]) ?_
  · exact loop d a
  · intro k hk t ht d a
    simp only []
    by_cases hvk : k = dr.vertexIdx
    · rw [if_pos hvk, ht d a]
      by_cases hc : d < NUM_DIMENSIONS ∧ (sb.MOL_START m ≤ a ∧ a < sb.MOL_START m + k) ∧
          a ≠ sb.MOL_START m + dr.vertexIdx
      · rw [if_pos hc, if_pos ⟨hc.1, ⟨hc.2.1.1, by omega⟩, hc.2.2⟩]
      · rw [if_neg hc, if_neg (fun h => hc ⟨h.1, ⟨h.2.1.1, by omega⟩, h.2.2⟩)]
    · rw [if_neg hvk]
      show translateAtom (sb.MOL_START m + k) dr.deltaX dr.deltaY dr.deltaZ
        (rotateAtom M (sb.MOL_START m + k) (sb.MOL_START m + dr.vertexIdx) dr.rotX dr.rotY
          dr.rotZ t.2) d a = _
      have hcur : ∀ j, t.2 j (sb.MOL_START m + k) = sb.atomCoordinates j (sb.MOL_START m + k) :=
        fun j => by rw [ht j _, if_neg (by omega)]
      have hpiv : ∀ j, t.2 j (sb.MOL_START m + dr.vertexIdx) =
          sb.atomCoordinates j (sb.MOL_START m + dr.vertexIdx) :=
        fun j => by rw [ht j _, if_neg (fun h => h.2.2 rfl)]
      have hposa : atomPos t.2 (sb.MOL_START m + k) =
          atomPos sb.atomCoordinates (sb.MOL_START m + k) := by
        simp only [atomPos, hcur]
      have hposp : atomPos t.2 (sb.MOL_START m + dr.vertexIdx) =
          atomPos sb.atomCoordinates (sb.MOL_START m + dr.vertexIdx) := by
        simp only [atomPos, hpiv]
      rw [translateAtom_apply, rotateAtom_apply, hposa, hposp]
      by_cases ea : a = sb.MOL_START m + k
      · subst ea
        by_cases hd : d < NUM_DIMENSIONS
        · have hne : sb.MOL_START m + k ≠ sb.MOL_START m + dr.vertexIdx := by omega
          have hcond : d < NUM_DIMENSIONS ∧ (sb.MOL_START m ≤ sb.MOL_START m + k ∧
              sb.MOL_START m + k < sb.MOL_START m + (k + 1)) ∧
              sb.MOL_START m + k ≠ sb.MOL_START m + dr.vertexIdx :=
            ⟨hd, ⟨by omega, by omega⟩, hne⟩
          have hcond' : d < NUM_DIMENSIONS ∧ sb.MOL_START m + k = sb.MOL_START m + k :=
            ⟨hd, rfl⟩
          rw [if_pos hcond, if_pos hcond', if_pos rfl]
          unfold NUM_DIMENSIONS at hd
          unfold component translation
          interval_cases d <;> simp
        · have h0 : d ≠ 0 := by unfold NUM_DIMENSIONS at hd; omega
          have h1 : d ≠ 1 := by unfold NUM_DIMENSIONS at hd; omega
          have h2 : d ≠ 2 := by unfold NUM_DIMENSIONS at hd; omega
          rw [if_neg (fun h => hd h.1), if_pos rfl, if_neg h0, if_neg h1, if_neg h2,
            if_neg (fun h => hd h.1)]
          exact hcur d
      · rw [if_neg (fun h => ea h.2), if_neg ea, ht d a]
        by_cases hc : d < NUM_DIMENSIONS ∧ (sb.MOL_START m ≤ a ∧ a < sb.MOL_START m + k) ∧
            a ≠ sb.MOL_START m + dr.vertexIdx
        · rw [if_pos hc, if_pos ⟨hc.1, ⟨hc.2.1.1, by omega⟩, hc.2.2⟩]
        · rw [if_neg hc, if_neg (fun h => hc ⟨h.1, ⟨h.2.1.1, by omega⟩, h.2.2⟩)]

end RigidLemmas

section RigidApply

variable {α : Type} [LinearOrderedField α]

theorem vertexShift_apply (c0 : Nat → Nat → α) (V : Nat) (dr : MoveDraws α) (d a : Nat) :
    setCoord (setCoord (setCoord c0 0 V (c0 0 V + dr.deltaX)) 1 V
        (setCoord c0 0 V (c0 0 V + dr.deltaX) 1 V + dr.deltaY)) 2 V
      (setCoord (setCoord c0 0 V (c0 0 V + dr.deltaX)) 1 V
        (setCoord c0 0 V (c0 0 V + dr.deltaX) 1 V + dr.deltaY) 2 V + dr.deltaZ) d a =
      if d < NUM_DIMENSIONS ∧ a = V then c0 d a + translation dr d else c0 d a := by
  simp only [setCoord_apply, NUM_DIMENSIONS, translation]
  by_cases ha : a = V
  · subst ha
    rcases d with _ | _ | _ | d
    · simp
    · simp
    · simp
    · have h3 : ¬ (d + 1 + 1 + 1 < 3) := by omega
      simp [h3]
  · simp [ha]

theorem intermolecularMove_apply (M : CMath α) (sb : SimBox α) (m : Nat) (dr : MoveDraws α) :
    ∃ shift : Nat → α,
      (∀ d, shift d = sb.size d ∨ shift d = -sb.size d ∨ shift d = 0) ∧
      ∀ d a, d < NUM_DIMENSIONS → InMol sb m a →
        (intermolecularMove M sb m dr).atomCoordinates d a =
          component (rotateAtomSpec M dr.rotX dr.rotY dr.rotZ (atomPos sb.atomCoordinates a)
            (atomPos sb.atomCoordinates (sb.MOL_START m + dr.vertexIdx))) d +
          translation dr d + shift d := by
  have hloop := rigidLoop_apply M sb m dr
  unfold intermolecularMove
  simp only []
  generalize forLoop (sb.MOL_LEN m) _ (sb.rollBackCoordinates, sb.atomCoordinates) = st
    at hloop ⊢
  have hp := vertexShift_apply st.2 (sb.MOL_START m + dr.vertexIdx) dr
  generalize setCoord (setCoord (setCoord st.2 0 _ _) 1 _ _) 2 _ _ = pre at hp ⊢
  have hpre : ∀ d a, d < NUM_DIMENSIONS → InMol sb m a → pre d a =
      component (rotateAtomSpec M dr.rotX dr.rotY dr.rotZ (atomPos sb.atomCoordinates a)
        (atomPos sb.atomCoordinates (sb.MOL_START m + dr.vertexIdx))) d + translation dr d := by
    intro d a hd ha
    rw [hp d a, hloop d a]
    by_cases ea : a = sb.MOL_START m + dr.vertexIdx
    · rw [if_pos ⟨hd, ea⟩, if_neg (fun h => h.2.2 ea), ea, rotateAtomSpec_self]
      unfold NUM_DIMENSIONS at hd
      unfold component atomPos X_COORD Y_COORD Z_COORD
      interval_cases d <;> simp
    · rw [if_neg (fun h => ea h.2), if_pos ⟨hd, ha, ea⟩]
  refine ⟨fun d => if pre d (sb.primaryIndexes (sb.MOL_PIDX_START m)) < 0 then sb.size d
    else if pre d (sb.primaryIndexes (sb.MOL_PIDX_START m)) > sb.size d then -sb.size d
    else 0, ?_, ?_⟩
  · intro d
    simp only []
    split_ifs
    · exact Or.inl rfl
    · exact Or.inr (Or.inl rfl)
    · exact Or.inr (Or.inr rfl)
  · intro d a hd ha
    rw [keepMoleculeInBox_apply _ _ _ _ _ _ _ d a hd, if_pos ha, hpre d a hd ha]
    simp only []
    split_ifs
    · rfl
    · ring
    · ring

theorem rotateAtomSpec_distSq (M : CMath α) (hM : ∀ t, M.cos t ^ 2 + M.sin t ^ 2 = 1)
    (rx ry rz : α) (p q v : α × α × α) :
    (component (rotateAtomSpec M rx ry rz q v) 0 - component (rotateAtomSpec M rx ry rz p v) 0) ^ 2 +
    (component (rotateAtomSpec M rx ry rz q v) 1 - component (rotateAtomSpec M rx ry rz p v) 1) ^ 2 +
    (component (rotateAtomSpec M rx ry rz q v) 2 - component (rotateAtomSpec M rx ry rz p v) 2) ^ 2 =
    (q.1 - p.1) ^ 2 + (q.2.1 - p.2.1) ^ 2 + (q.2.2 - p.2.2) ^ 2 := by
  have hx := hM (rx * 3.14159265358979 / 180)
  have hy := hM (ry * 3.14159265358979 / 180)
  have hz := hM (rz * 3.14159265358979 / 180)
  simp only [component, rotateAtomSpec, rotationXSpec, rotationYSpec, rotationZSpec,
    axisRotationSpec, show (1 : Nat) ≠ 0 by decide, show (2 : Nat) ≠ 0 by decide,
    show (2 : Nat) ≠ 1 by decide, if_false, if_true]
  generalize M.cos (rx * 3.14159265358979 / 180) = cx at hx ⊢
  generalize M.sin (rx * 3.14159265358979 / 180) = sx at hx ⊢
  generalize M.cos (ry * 3.14159265358979 / 180) = cy at hy ⊢
  generalize M.sin (ry * 3.14159265358979 / 180) = sy at hy ⊢
  generalize M.cos (rz * 3.14159265358979 / 180) = cz at hz ⊢
  generalize M.sin (rz * 3.14159265358979 / 180) = sz at hz ⊢
  obtain ⟨p0, p1, p2⟩ := p
  obtain ⟨q0, q1, q2⟩ := q
  obtain ⟨v0, v1, v2⟩ := v
  simp only []
  linear_combination ((q1 - p1) ^ 2 + (q2 - p2) ^ 2) * hx +
    (((q2 - p2) * cx - (q1 - p1) * sx) ^ 2 + (q0 - p0) ^ 2) * hy +
    (((q0 - p0) * cy - ((q2 - p2) * cx - (q1 - p1) * sx) * sy) ^ 2 +
      ((q1 - p1) * cx + (q2 - p2) * sx) ^ 2) * hz

end RigidApply

section RigidClaim

/-- Claim C25: `intermolecularMove` is a rigid-body move.  Over the reals, for every
molecule `m`, every vertex draw below `MOL_LEN`, every translation and rotation draw:
the Euclidean distance (without periodic wrap) between any two atoms of `m` is the same
after the move as before; there is a shift, per dimension `L`, `-L` or `0` (the one of
`keepMoleculeInBox`), such that the vertex atom is displaced by the translation vector
plus the shift and every atom `a` of `m` ends at `pivot + Rz(Ry(Rx(a - pivot)))` plus
the translation vector plus the shift; atoms outside `m` keep their coordinates. -/
theorem intermolecularMove_rigid (sb : SimBox ℝ) (m : Nat) (dr : MoveDraws ℝ)
    (hv : dr.vertexIdx < sb.MOL_LEN m) :
    (∀ i j, InMol sb m i → InMol sb m j →
      atomDistance (CMath.mk Real.sqrt Real.cos Real.sin Real.exp)
          (intermolecularMove (CMath.mk Real.sqrt Real.cos Real.sin Real.exp) sb m
            dr).atomCoordinates i j =
        atomDistance (CMath.mk Real.sqrt Real.cos Real.sin Real.exp) sb.atomCoordinates i j) ∧
    (∃ shift : Nat → ℝ,
      (∀ d, shift d = sb.size d ∨ shift d = -sb.size d ∨ shift d = 0) ∧
      (∀ d, d < NUM_DIMENSIONS →
        (intermolecularMove (CMath.mk Real.sqrt Real.cos Real.sin Real.exp) sb m
            dr).atomCoordinates d (sb.MOL_START m + dr.vertexIdx) =
          sb.atomCoordinates d (sb.MOL_START m + dr.vertexIdx) + translation dr d + shift d) ∧
      (∀ d a, d < NUM_DIMENSIONS → InMol sb m a →
        (intermolecularMove (CMath.mk Real.sqrt Real.cos Real.sin Real.exp) sb m
            dr).atomCoordinates d a =
          component (rotateAtomSpec (CMath.mk Real.sqrt Real.cos Real.sin Real.exp)
            dr.rotX dr.rotY dr.rotZ (atomPos sb.atomCoordinates a)
            (atomPos sb.atomCoordinates (sb.MOL_START m + dr.vertexIdx))) d +
          translation dr d + shift d)) ∧
    (∀ d a, ¬ InMol sb m a →
      (intermolecularMove (CMath.mk Real.sqrt Real.cos Real.sin Real.exp) sb m
        dr).atomCoordinates d a = sb.atomCoordinates d a) := by
  obtain ⟨shift, hshift, happ⟩ := intermolecularMove_apply
    (CMath.mk Real.sqrt Real.cos Real.sin Real.exp) sb m dr
  have hV : InMol sb m (sb.MOL_START m + dr.vertexIdx) := ⟨Nat.le_add_right _ _, by omega⟩
  refine ⟨?_, ⟨shift, hshift, ?_, happ⟩, ?_⟩
  · intro i j hi hj
    unfold atomDistance
    simp only []
    congr 1
    rw [happ 0 i (by decide) hi, happ 1 i (by decide) hi, happ 2 i (by decide) hi,
      happ 0 j (by decide) hj, happ 1 j (by decide) hj, happ 2 j (by decide) hj]
    have key := rotateAtomSpec_distSq (CMath.mk Real.sqrt Real.cos Real.sin Real.exp)
      (fun t => Real.cos_sq_add_sin_sq t) dr.rotX dr.rotY dr.rotZ
      (atomPos sb.atomCoordinates i) (atomPos sb.atomCoordinates j)
      (atomPos sb.atomCoordinates (sb.MOL_START m + dr.vertexIdx))
    simp only [atomPos, X_COORD, Y_COORD, Z_COORD] at key ⊢
    rw [← key]
    ring
  · intro d hd
    rw [happ d _ hd hV, rotateAtomSpec_self]
    unfold NUM_DIMENSIONS at hd
    unfold component atomPos X_COORD Y_COORD Z_COORD
    interval_cases d <;> simp
  · intro d a ha
    exact (intermolecularMove_coords _ sb m dr hv).2 d a (fun h => ha h.2)

end RigidClaim

/-- Witness of `intermolecularMove_rigid`: on the chain `0 - 1 - 2`, moving about the
middle atom with translation `(1, 0, 0)` and rotation `30` about the x axis leaves the
two outer atoms at their distance `2`. -/
theorem intermolecularMove_rigid_witness :
    (MoveDraws.mk 1 (1 : ℝ) 0 0 30 0 0).vertexIdx < (lineBox ℝ).MOL_LEN 0 ∧
    atomDistance (CMath.mk Real.sqrt Real.cos Real.sin Real.exp)
      (intermolecularMove (CMath.mk Real.sqrt Real.cos Real.sin Real.exp) (lineBox ℝ) 0
        (MoveDraws.mk 1 1 0 0 30 0 0)).atomCoordinates 0 2 = 2 := by
  have hv : (MoveDraws.mk 1 (1 : ℝ) 0 0 30 0 0).vertexIdx < (lineBox ℝ).MOL_LEN 0 := by
    decide
  refine ⟨hv, ?_⟩
  rw [(intermolecularMove_rigid (lineBox ℝ) 0 (MoveDraws.mk 1 1 0 0 30 0 0) hv).1 0 2
    (by simp [InMol, lineBox]) (by simp [InMol, lineBox])]
  have e : atomDistance (CMath.mk Real.sqrt Real.cos Real.sin Real.exp)
      (lineBox ℝ).atomCoordinates 0 2 = Real.sqrt (2 ^ 2) := by
    simp [atomDistance, lineBox]
  rw [e]
  exact Real.sqrt_sq (by norm_num)

end MCGPU
